import Mathlib

/-!
Waypoints: the grid path planner `PathFinder`.

A shallow embedding of `PathFinderLib/inc/PathFinder.h` and
`PathFinderLib/src/PathFinder.cpp`, and theorems about it.

Modelling conventions.

* `uint32_t` values are natural numbers; every unsigned subtraction, addition,
  multiplication of the source is written with an explicit `% U32`.
* `double` values are elements of an ordered field `K` with a square root
  (class `DoubleField`): arithmetic and comparisons on them are exact, the
  constant `DBL_MAX` is the number `2^1024 - 2^971`. Rounding, infinities and
  NaN are outside this part of the model. The real numbers are an instance.
* Where rounding or NaN decide the outcome (`AddObjects`, `isTraversable`) the
  same code is embedded a second time in binary64: `Binary64` is a rounding
  `fl` to a nearest representable value (`IsDouble`), ties left open, so that
  what is proved holds for round-half-even; a radius that may be NaN is an
  `Option`, `none` being NaN, on which every comparison is false. These
  definitions carry the suffix `F`.
* `std::vector` is `List`; `std::set<Coordinate>` is a list kept sorted by
  `Coordinate::operator<` without repetition, iterated front to back.
* An index into `m_map` that is out of range is undefined behaviour in the
  source; the model stops with `Outcome.undefinedBehaviour`.
* Loops that need not terminate take fuel; running out gives `Outcome.outOfFuel`.
-/

set_option linter.unusedSectionVars false
set_option autoImplicit false

namespace Waypoints

/-- The modulus of `uint32_t` arithmetic. -/
def U32 : ℕ := 4294967296

/-- Unsigned 32-bit subtraction `a - b`. -/
def usub (a b : ℕ) : ℕ :=
  if b % U32 ≤ a % U32 then a % U32 - b % U32 else a % U32 + U32 - b % U32

/-- Unsigned 32-bit addition `a + b`. -/
def uadd (a b : ℕ) : ℕ := (a + b) % U32

/-- Unsigned 32-bit multiplication `a * b`. -/
def umul (a b : ℕ) : ℕ := (a * b) % U32

/-- An ordered field with square roots: the exact-arithmetic model of `double`. -/
class DoubleField (K : Type) extends LinearOrderedField K where
  /-- The function `sqrt` of `<cmath>`. -/
  sqrt : K → K
  sqrt_nonneg : ∀ x : K, 0 ≤ sqrt x
  sqrt_mul_self : ∀ x : K, 0 ≤ x → sqrt x * sqrt x = x

/-- The constant `DBL_MAX` of `<float.h>`: `(2 - 2^(-52)) * 2^1023`. -/
def DBL_MAX {K : Type} [DoubleField K] : K := 2 ^ 1024 - 2 ^ 971

/-- The struct `Coordinate`; both members default to 0. -/
structure Coordinate where
  X : ℕ := 0
  Y : ℕ := 0
deriving DecidableEq, Repr

namespace Coordinate

/-- The member `operator==`. -/
def eq (a c : Coordinate) : Bool := c.X == a.X && c.Y == a.Y

/-- The member `operator!=`. -/
def ne (a c : Coordinate) : Bool := c.X != a.X || c.Y != a.Y

/-- The member `operator<`: `a.lt c` is `a < c`. -/
def lt (a c : Coordinate) : Bool :=
  decide (c.X < a.X) || (!(decide (a.X < c.X)) && decide (c.Y < a.Y))

end Coordinate

/-- The enum `PathFinder::RetVal`. -/
inductive RetVal where
  | SUCCESS
  | FAIL
  | FAIL_MEMORY
  | FAIL_PARAM
  | FAIL_NO_PATH
  | FAIL_BAD_FILE
deriving DecidableEq, Repr

/-- The struct `PathFinder::Object`. -/
structure Object (K : Type) where
  Origin : Coordinate
  Radius : K

/-- The struct `PathFinder::Cell`. `Val` has no initialiser in the source; every
cell the model creates is given one before it is stored. -/
structure Cell (K : Type) where
  Val : Char
  Parent : Coordinate
  g_score : K
  f_cost : K

def MAP_DIMENTION_LIMIT : ℕ := 1028
def MAX_OBJECTS : ℕ := 1028
def CELL_OCCUPIED_CODE : Char := '1'
def CELL_UNOCCUPIED_CODE : Char := '0'
def CELL_DESTINATION_CODE : Char := 'D'
def CELL_START_CODE : Char := 'S'
def CELL_BEST_PATH_CODE : Char := '*'
def NEIGHBOR_RANGE : ℕ := 1

/-- The data members of class `PathFinder`. -/
structure PathFinder (K : Type) where
  M : ℕ
  N : ℕ
  m_map : List (List (Cell K))
  m_robotRadius : K
  m_objects : List (Object K)
  m_heuristicWeight : K
  m_safetyMargin : K

/-- What a call does: it returns, or it indexes `m_map` out of range, or the
fuel of the model ran out before it returned. -/
inductive Outcome (α : Type) where
  | done (a : α)
  | undefinedBehaviour
  | outOfFuel

section Model

variable {K : Type} [DoubleField K]

/-- A default-constructed `Cell` whose `Val` has been set to `v`. -/
def newCell (v : Char) : Cell K :=
  { Val := v, Parent := {}, g_score := DBL_MAX, f_cost := DBL_MAX }

/-- The expression `m_map[c.Y][c.X]`, read. -/
def getCell (m : List (List (Cell K))) (c : Coordinate) : Option (Cell K) :=
  match m[c.Y]? with
  | none => none
  | some row => row[c.X]?

/-- The expression `m_map[c.Y][c.X]`, assigned through `f`. -/
def modifyCell (m : List (List (Cell K))) (c : Coordinate) (f : Cell K → Cell K) :
    Option (List (List (Cell K))) :=
  match m[c.Y]? with
  | none => none
  | some row =>
    match row[c.X]? with
    | none => none
    | some cell => some (m.set c.Y (row.set c.X (f cell)))

/-- The method `PathFinder::SetMapSize`. -/
def SetMapSize (s : PathFinder K) (m n : ℕ) : RetVal × PathFinder K :=
  if m > MAP_DIMENTION_LIMIT ∨ n > MAP_DIMENTION_LIMIT then
    (RetVal.FAIL_PARAM, s)
  else
    (RetVal.SUCCESS,
      { s with
        M := m
        N := n
        m_map := (List.range m).map fun _ =>
          (List.range n).map fun _ => newCell CELL_UNOCCUPIED_CODE })

/-- The method `PathFinder::SetRobotRadius`. -/
def SetRobotRadius (s : PathFinder K) (robotRadius : K) : RetVal × PathFinder K :=
  if robotRadius > (s.M : K) ∨ robotRadius > (s.N : K) then
    (RetVal.FAIL_PARAM, s)
  else if robotRadius ≤ 0 then
    (RetVal.FAIL_PARAM, s)
  else
    (RetVal.SUCCESS, { s with m_robotRadius := robotRadius })

/-- The method `PathFinder::SetHeuristicWeight`. -/
def SetHeuristicWeight (s : PathFinder K) (heuristicWeight : K) : RetVal × PathFinder K :=
  if heuristicWeight < 0 then
    (RetVal.FAIL_PARAM, s)
  else
    (RetVal.SUCCESS, { s with m_heuristicWeight := heuristicWeight })

/-- The method `PathFinder::SetSafetyMargin`. -/
def SetSafetyMargin (s : PathFinder K) (safetyMargin : K) : RetVal × PathFinder K :=
  if safetyMargin < 0 then
    (RetVal.FAIL_PARAM, s)
  else
    (RetVal.SUCCESS, { s with m_safetyMargin := safetyMargin })

/-- The static method `distanceBetween(x1, y1, x2, y2)`: the differences, the
squares and their sum are `uint32_t`, the sum is converted to `double`. -/
def distanceBetween4 (x1 y1 x2 y2 : ℕ) : K :=
  let x := usub x1 x2
  let y := usub y1 y2
  DoubleField.sqrt ((uadd (umul x x) (umul y y) : ℕ) : K)

/-- The static method `distanceBetween(a, b)`. -/
def distanceBetween (a b : Coordinate) : K :=
  distanceBetween4 a.X a.Y b.X b.Y

/-- The two nested loops of `AddObjects` that paint one object, as the list of
cells they visit in order. -/
def paintCells (M N : ℕ) : List Coordinate :=
  (List.range M).flatMap fun y => (List.range N).map fun x => { X := x, Y := y }

/-- The body of the painting loops run over the cells `cs`. -/
def paintObject (object : Object K) :
    List Coordinate → List (List (Cell K)) → Option (List (List (Cell K)))
  | [], m => some m
  | c :: cs, m =>
    if distanceBetween4 object.Origin.X object.Origin.Y c.X c.Y ≤ object.Radius then
      match modifyCell m c (fun cell => { cell with Val := CELL_OCCUPIED_CODE }) with
      | none => none
      | some m1 => paintObject object cs m1
    else paintObject object cs m

/-- The loop `for (auto object : objects)` of `AddObjects`; `all` is the whole
argument, stored in `m_objects` when the loop runs to its end. -/
def addObjectsLoop (all : List (Object K)) :
    List (Object K) → PathFinder K → Outcome (RetVal × PathFinder K)
  | [], s => Outcome.done (RetVal.SUCCESS, { s with m_objects := all })
  | object :: rest, s =>
    if object.Origin.X > usub s.N 1 then Outcome.done (RetVal.FAIL_PARAM, s)
    else if object.Origin.Y > usub s.M 1 then Outcome.done (RetVal.FAIL_PARAM, s)
    else if object.Radius > (s.M : K) ∨ object.Radius > (s.N : K) ∨ object.Radius ≤ 0 then
      Outcome.done (RetVal.FAIL_PARAM, s)
    else
      match paintObject object (paintCells s.M s.N) s.m_map with
      | none => Outcome.undefinedBehaviour
      | some m1 => addObjectsLoop all rest { s with m_map := m1 }

/-- The method `PathFinder::AddObjects`. -/
def AddObjects (s : PathFinder K) (objects : List (Object K)) :
    Outcome (RetVal × PathFinder K) :=
  if objects.length > MAX_OBJECTS then Outcome.done (RetVal.FAIL_PARAM, s)
  else addObjectsLoop objects objects s

/-- The loop `for (auto object : m_objects)` of `isTraversable`. -/
def collides (c : Coordinate) (r : K) : List (Object K) → Bool
  | [] => false
  | object :: rest =>
    if distanceBetween c object.Origin < r + object.Radius then true
    else collides c r rest

/-- The method `PathFinder::isTraversable`. The coordinates are converted to
`double` before the radius is subtracted or added. -/
def isTraversable (s : PathFinder K) (c : Coordinate) : Bool :=
  if (c.X : K) - (s.m_robotRadius + s.m_safetyMargin) < 0
      ∨ (c.Y : K) - (s.m_robotRadius + s.m_safetyMargin) < 0 then false
  else if (c.X : K) + (s.m_robotRadius + s.m_safetyMargin) ≥ (s.N : K)
      ∨ (c.Y : K) + (s.m_robotRadius + s.m_safetyMargin) ≥ (s.M : K) then false
  else !(collides c (s.m_robotRadius + s.m_safetyMargin) s.m_objects)

/-- The method `PathFinder::heuristic`. -/
def heuristic (s : PathFinder K) (a dest start : Coordinate) : K :=
  s.m_heuristicWeight * (distanceBetween a start + distanceBetween a dest)

/-- The values taken by the counter of `for (uint32_t v = lo; v <= hi; v++)`:
none when `hi` is the largest `uint32_t` and the loop is entered, because then
the condition never becomes false. -/
def loopRange (lo hi : ℕ) : Option (List ℕ) :=
  if hi < lo then some []
  else if hi + 1 = U32 then none
  else some (List.range' lo (hi + 1 - lo))

/-- The method `PathFinder::getNeighbors`, called with an empty vector: the
cells pushed, in order; none when one of its loops does not terminate. The inner
loop is reached only when the outer loop runs at all. -/
def getNeighbors (c : Coordinate) : Option (List Coordinate) :=
  match loopRange (usub c.Y NEIGHBOR_RANGE) (uadd c.Y NEIGHBOR_RANGE) with
  | none => none
  | some ys =>
    if ys.isEmpty then some []
    else
      match loopRange (usub c.X NEIGHBOR_RANGE) (uadd c.X NEIGHBOR_RANGE) with
      | none => none
      | some xs => some (ys.flatMap fun y => xs.map fun x => { X := x, Y := y })

/-- The method `std::set<Coordinate>::insert`. -/
def setInsert (c : Coordinate) : List Coordinate → List Coordinate
  | [] => [c]
  | d :: ds =>
    if c.lt d then c :: d :: ds
    else if d.lt c then d :: setInsert c ds
    else d :: ds

/-- The method `std::set<Coordinate>::erase` with a key: it removes the element
equivalent to `c`, that is neither less nor greater than it. -/
def setErase (c : Coordinate) (l : List Coordinate) : List Coordinate :=
  l.filter fun d => c.lt d || d.lt c

/-- The test `set.find(c) != set.end()`. -/
def setContains (c : Coordinate) (l : List Coordinate) : Bool :=
  l.any fun d => !(c.lt d) && !(d.lt c)

/-- The loop `for (auto c : open) if (f_cost of c < f_cost of current) current = c`. -/
def selectCurrent (m : List (List (Cell K))) : Coordinate → List Coordinate → Option Coordinate
  | current, [] => some current
  | current, c :: cs =>
    match getCell m c, getCell m current with
    | some a, some b => selectCurrent m (if a.f_cost < b.f_cost then c else current) cs
    | _, _ => none

/-- The loop `for (auto neighbor : neighbors)` of `FindPath`, on the grid and the
open set. -/
def relaxNeighbors (s : PathFinder K) (dest start current : Coordinate)
    (closedSet : List Coordinate) :
    List Coordinate → List (List (Cell K)) → List Coordinate →
      Option (List (List (Cell K)) × List Coordinate)
  | [], m, openSet => some (m, openSet)
  | neighbor :: rest, m, openSet =>
    if isTraversable s neighbor = false ∨ setContains neighbor closedSet = true then
      relaxNeighbors s dest start current closedSet rest m openSet
    else
      match getCell m current, getCell m neighbor with
      | some cur, some nb =>
        let tentativeGScore := cur.g_score + distanceBetween current neighbor
        if tentativeGScore ≥ nb.g_score then
          relaxNeighbors s dest start current closedSet rest m openSet
        else
          match modifyCell m neighbor (fun cell =>
              { cell with
                Parent := current
                g_score := tentativeGScore
                f_cost := tentativeGScore + heuristic s neighbor dest start }) with
          | none => none
          | some m1 =>
            relaxNeighbors s dest start current closedSet rest m1
              (if setContains neighbor openSet then openSet else setInsert neighbor openSet)
      | _, _ => none

/-- The loop `while (c != start)` of `constructPath`. -/
def walkParents (start : Coordinate) :
    ℕ → Coordinate → List (List (Cell K)) → List Coordinate →
      Outcome (List (List (Cell K)) × List Coordinate)
  | 0, _, _, _ => Outcome.outOfFuel
  | fuel + 1, c, m, path =>
    if c.ne start then
      match modifyCell m c (fun cell => { cell with Val := CELL_BEST_PATH_CODE }) with
      | none => Outcome.undefinedBehaviour
      | some m1 =>
        match getCell m1 c with
        | none => Outcome.undefinedBehaviour
        | some cell => walkParents start fuel cell.Parent m1 (path ++ [c])
    else Outcome.done (m, path)

/-- The method `PathFinder::constructPath`. -/
def constructPath (fuel : ℕ) (s : PathFinder K) (dest start : Coordinate)
    (path : List Coordinate) : Outcome (RetVal × PathFinder K × List Coordinate) :=
  match walkParents start fuel dest s.m_map path with
  | Outcome.outOfFuel => Outcome.outOfFuel
  | Outcome.undefinedBehaviour => Outcome.undefinedBehaviour
  | Outcome.done (m1, path1) =>
    match modifyCell m1 dest (fun cell => { cell with Val := CELL_DESTINATION_CODE }) with
    | none => Outcome.undefinedBehaviour
    | some m2 =>
      match modifyCell m2 start (fun cell => { cell with Val := CELL_START_CODE }) with
      | none => Outcome.undefinedBehaviour
      | some m3 =>
        Outcome.done (RetVal.SUCCESS, { s with m_map := m3 }, (path1 ++ [start]).reverse)

/-- What one pass through the body of `while (1)` in `FindPath` ends in: a return
from `FindPath`, or the next pass with a new grid, open set and closed set. -/
inductive LoopStep (K : Type) where
  | finished (out : Outcome (RetVal × PathFinder K × List Coordinate))
  | next (s : PathFinder K) (openSet closedSet : List Coordinate)

/-- The body of the loop `while (1)` of `FindPath`, once. -/
def findPathBody (pathFuel : ℕ) (dest start : Coordinate) (bestPath : List Coordinate)
    (s : PathFinder K) (openSet closedSet : List Coordinate) : LoopStep K :=
  match selectCurrent s.m_map {} openSet with
  | none => LoopStep.finished Outcome.undefinedBehaviour
  | some current =>
    if openSet.isEmpty then LoopStep.finished (Outcome.done (RetVal.FAIL_NO_PATH, s, bestPath))
    else if current.eq dest then
      LoopStep.finished (constructPath pathFuel s dest start bestPath)
    else
      match getNeighbors current with
      | none => LoopStep.finished Outcome.outOfFuel
      | some neighbors =>
        match relaxNeighbors s dest start current (setInsert current closedSet)
            neighbors s.m_map (setErase current openSet) with
        | none => LoopStep.finished Outcome.undefinedBehaviour
        | some (m1, open1) =>
          LoopStep.next { s with m_map := m1 } open1 (setInsert current closedSet)

/-- The loop `while (1)` of `FindPath`. The first argument bounds the number of
iterations, `pathFuel` the steps of the loop in `constructPath`. -/
def findPathLoop (pathFuel : ℕ) (dest start : Coordinate) (bestPath : List Coordinate) :
    ℕ → PathFinder K → List Coordinate → List Coordinate →
      Outcome (RetVal × PathFinder K × List Coordinate)
  | 0, _, _, _ => Outcome.outOfFuel
  | fuel + 1, s, openSet, closedSet =>
    match findPathBody pathFuel dest start bestPath s openSet closedSet with
    | LoopStep.finished out => out
    | LoopStep.next s1 open1 closed1 =>
      findPathLoop pathFuel dest start bestPath fuel s1 open1 closed1

/-- The method `PathFinder::FindPath`. -/
def FindPath (fuel : ℕ) (s : PathFinder K) (start dest : Coordinate)
    (bestPath : List Coordinate) : Outcome (RetVal × PathFinder K × List Coordinate) :=
  if isTraversable s start = false ∨ isTraversable s dest = false then
    Outcome.done (RetVal.FAIL_PARAM, s, bestPath)
  else
    match modifyCell s.m_map start (fun cell => { cell with f_cost := 0 }) with
    | none => Outcome.undefinedBehaviour
    | some m1 =>
      match modifyCell m1 start (fun cell => { cell with g_score := 0 }) with
      | none => Outcome.undefinedBehaviour
      | some m2 => findPathLoop fuel dest start bestPath fuel { s with m_map := m2 } [start] []


/-- The grid has `M` rows of `N` cells each. -/
def Dims (m : List (List (Cell K))) (M N : ℕ) : Prop :=
  m.length = M ∧ ∀ row ∈ m, row.length = N

/-- The members `M`, `N` and `m_map` agree: what `SetMapSize` establishes. -/
def WellFormed (s : PathFinder K) : Prop := Dims s.m_map s.M s.N

/-- What `AddObjects` demands of one obstacle on an `M` by `N` grid, in the
words of the specification. -/
def ObjectValid (M N : ℕ) (o : Object K) : Prop :=
  o.Origin.X < N ∧ o.Origin.Y < M ∧ 0 < o.Radius ∧ o.Radius ≤ min (M : K) (N : K)

/-- No search has written to the grid since `SetMapSize`: every cell still has the
g-cost and f-cost of a default-constructed `Cell`. -/
def Fresh (s : PathFinder K) : Prop :=
  WellFormed s ∧ ∀ c cell, getCell s.m_map c = some cell →
    cell.g_score = DBL_MAX ∧ cell.f_cost = DBL_MAX

/-- The configuration of the scenario in the specification, without its grid: 10 rows,
10 columns, robot radius 1, margin 0, weight 0, one obstacle at (5,5) of radius 2. -/
def scenarioConfig : PathFinder K :=
  { M := 10
    N := 10
    m_map := []
    m_robotRadius := 1
    m_objects := [{ Origin := { X := 5, Y := 5 }, Radius := 2 }]
    m_heuristicWeight := 0
    m_safetyMargin := 0 }

/-- Two cells are 8-adjacent: distinct and at Chebyshev distance 1. -/
def Adjacent (a b : Coordinate) : Prop :=
  a ≠ b ∧ a.X ≤ b.X + 1 ∧ b.X ≤ a.X + 1 ∧ a.Y ≤ b.Y + 1 ∧ b.Y ≤ a.Y + 1

/-- The g-cost stored at `c`; `DBL_MAX` outside the grid. -/
def gOf (m : List (List (Cell K))) (c : Coordinate) : K :=
  match getCell m c with
  | some cell => cell.g_score
  | none => DBL_MAX

/-- The f-cost stored at `c`; `DBL_MAX` outside the grid. -/
def fOf (m : List (List (Cell K))) (c : Coordinate) : K :=
  match getCell m c with
  | some cell => cell.f_cost
  | none => DBL_MAX

/-- The parent stored at `c`. -/
def parentOf (m : List (List (Cell K))) (c : Coordinate) : Coordinate :=
  match getCell m c with
  | some cell => cell.Parent
  | none => {}

/-- A sequence of traversable cells from `start` to `dest`, each 8-adjacent to the next. -/
def ValidPath (s : PathFinder K) (start dest : Coordinate) (l : List Coordinate) : Prop :=
  l.head? = some start ∧ l.getLast? = some dest ∧
    (∀ c ∈ l, isTraversable s c = true) ∧ List.Chain' Adjacent l

/-- The length of one step: 1 for an orthogonal step, the square root of 2 for a
diagonal one. -/
def stepCost (a b : Coordinate) : K :=
  if a.X = b.X ∨ a.Y = b.Y then 1 else DoubleField.sqrt 2

/-- The total Euclidean length of a sequence of cells. -/
def pathLength : List Coordinate → K
  | a :: b :: rest => stepCost a b + pathLength (b :: rest)
  | _ => 0

/-- The invariant of the loop `while (1)` of `FindPath` started on a fresh grid, for the
grid `m`, the open set and the closed set. While the neighbours of `cur` are examined,
`todo` lists those still to come; between two passes `todo` is empty. -/
structure Inv (s : PathFinder K) (start dest : Coordinate) (m : List (List (Cell K)))
    (openSet closedSet : List Coordinate) (cur : Coordinate) (todo : List Coordinate) :
    Prop where
  dims : Dims m s.M s.N
  open_trav : ∀ c ∈ openSet, isTraversable s c = true ∧ c ∉ closedSet
  closed_trav : ∀ c ∈ closedSet, c = {} ∨ isTraversable s c = true
  dest_open : dest ∉ closedSet
  dest_trav : isTraversable s dest = true
  start_trav : isTraversable s start = true
  start_g : gOf m start = 0
  start_mem : start ∈ closedSet ∨ (openSet = [start] ∧ closedSet = [] ∧ fOf m start = 0)
  junk : fOf m {} = DBL_MAX
  parent : ∀ c, isTraversable s c = true → (c ∈ openSet ∨ c ∈ closedSet) → c ≠ start →
    parentOf m c ∈ closedSet ∧ isTraversable s (parentOf m c) = true ∧
      Adjacent (parentOf m c) c ∧
      gOf m c = gOf m (parentOf m c) + distanceBetween (parentOf m c) c
  tracked : ∀ c, isTraversable s c = true → gOf m c < DBL_MAX →
    c ∈ openSet ∨ c ∈ closedSet
  gbound : ∀ c, isTraversable s c = true → (c ∈ openSet ∨ c ∈ closedSet) →
    gOf m c ≤ 2 * (closedSet.toFinset.card : K)
  g_nonneg : ∀ c, isTraversable s c = true → (c ∈ openSet ∨ c ∈ closedSet) → 0 ≤ gOf m c
  fval : ∀ c ∈ openSet, c ≠ start → fOf m c = gOf m c + heuristic s c dest start
  edges : ∀ c ∈ closedSet, isTraversable s c = true → ∀ nb, Adjacent c nb →
    isTraversable s nb = true →
      (c = cur ∧ nb ∈ todo) ∨
        ((nb ∈ openSet ∨ nb ∈ closedSet) ∧
          (s.m_heuristicWeight = 0 ∨ c = start →
            gOf m nb ≤ gOf m c + distanceBetween c nb))
  mono : s.m_heuristicWeight = 0 → ∀ c ∈ closedSet, isTraversable s c = true →
    ∀ o ∈ openSet, gOf m c ≤ gOf m o

/-- What holds of the node `cur` while its neighbours are examined. -/
structure RelaxCtx (s : PathFinder K) (start : Coordinate) (m : List (List (Cell K)))
    (closedSet : List Coordinate) (cur : Coordinate) : Prop where
  cur_closed : cur ∈ closedSet
  cur_trav : isTraversable s cur = true
  cur_g : gOf m cur + 2 ≤ 2 * (closedSet.toFinset.card : K)
  cur_max : s.m_heuristicWeight = 0 ∨ cur = start →
    ∀ c ∈ closedSet, isTraversable s c = true →
    gOf m c ≤ gOf m cur

/-- The cells `constructPath` collects when it walks the parents stored in `m` from `c`
back to `start`: `c` first, `start` left out; every link joins two 8-adjacent cells and
accounts for the g-cost of the child. -/
inductive ChainTo (s : PathFinder K) (m : List (List (Cell K))) (start : Coordinate) :
    Coordinate → List Coordinate → Prop where
  | base : ChainTo s m start start []
  | step {c : Coordinate} {l : List Coordinate} :
      c ≠ start → isTraversable s c = true → Adjacent (parentOf m c) c →
      gOf m c = gOf m (parentOf m c) + distanceBetween (parentOf m c) c →
      ChainTo s m start (parentOf m c) l → ChainTo s m start c (c :: l)

/-- A grid of 3 rows and 3 columns in which the cells (1,1) and (2,2) hold the f-cost 1
and every other cell the f-cost of a default-constructed `Cell`. -/
def tieGrid : List (List (Cell K)) :=
  [[newCell CELL_UNOCCUPIED_CODE, newCell CELL_UNOCCUPIED_CODE, newCell CELL_UNOCCUPIED_CODE],
   [newCell CELL_UNOCCUPIED_CODE, { (newCell CELL_UNOCCUPIED_CODE : Cell K) with f_cost := 1 },
     newCell CELL_UNOCCUPIED_CODE],
   [newCell CELL_UNOCCUPIED_CODE, newCell CELL_UNOCCUPIED_CODE,
     { (newCell CELL_UNOCCUPIED_CODE : Cell K) with f_cost := 1 }]]

/-- A sequence of cells from (1,1) to (8,8): along the row 1, then along the column 8. -/
def scenarioDetour : List Coordinate :=
  [{ X := 1, Y := 1 }, { X := 2, Y := 1 }, { X := 3, Y := 1 }, { X := 4, Y := 1 },
   { X := 5, Y := 1 }, { X := 6, Y := 1 }, { X := 7, Y := 1 }, { X := 8, Y := 1 },
   { X := 8, Y := 2 }, { X := 8, Y := 3 }, { X := 8, Y := 4 }, { X := 8, Y := 5 },
   { X := 8, Y := 6 }, { X := 8, Y := 7 }, { X := 8, Y := 8 }]

/-- The planner `s1` has the members of `s` other than the grid. -/
def SameConfig (s s1 : PathFinder K) : Prop :=
  s1.M = s.M ∧ s1.N = s.N ∧ s1.m_robotRadius = s.m_robotRadius ∧
    s1.m_safetyMargin = s.m_safetyMargin ∧ s1.m_heuristicWeight = s.m_heuristicWeight ∧
    s1.m_objects = s.m_objects

/-! ### Binary64 arithmetic

The definitions above take the arithmetic of `double` to be exact. The definitions below
are the same methods with every arithmetic result rounded as binary64 rounds it and with
an obstacle radius that may be NaN. -/

/-- The finite values of binary64: `m * 2^(a-b)` with a significand `|m| < 2^53` and an
exponent `a - b` from -1074 to 971. -/
def IsDouble (x : K) : Prop :=
  ∃ (m : ℤ) (a b : ℕ), |m| < 2 ^ 53 ∧ a ≤ 971 ∧ b ≤ 1074 ∧ x * 2 ^ b = (m : K) * 2 ^ a

/-- Round-to-nearest arithmetic of binary64: `fl x` is the value a binary64 operation
returns when its exact result is `x`, a double nearest to `x`. Which of two nearest
doubles is returned on a tie is left open, so what holds of every `Binary64` holds of
round-half-to-even. A result beyond the largest double is rounded to the largest double;
the source would produce an infinity, which gives every comparison below the same
outcome. -/
structure Binary64 (K : Type) [DoubleField K] where
  fl : K → K
  fl_double : ∀ x, IsDouble (fl x)
  fl_nearest : ∀ x d, IsDouble d → |x - fl x| ≤ |x - d|

/-- The struct `PathFinder::Object` with a radius that is a number or NaN (`none`). -/
structure ObjectF (K : Type) where
  Origin : Coordinate
  Radius : Option K

/-- The data members of class `PathFinder`, the obstacles with `ObjectF`. -/
structure PathFinderF (K : Type) where
  M : ℕ
  N : ℕ
  m_map : List (List (Cell K))
  m_robotRadius : K
  m_objects : List (ObjectF K)
  m_heuristicWeight : K
  m_safetyMargin : K

/-- The comparison `a > b` for a double `a` that may be NaN: false for NaN. -/
def nanGt (a : Option K) (b : K) : Bool :=
  match a with
  | some x => decide (x > b)
  | none => false

/-- The comparison `a <= b` for a double `a` that may be NaN: false for NaN. -/
def nanLe (a : Option K) (b : K) : Bool :=
  match a with
  | some x => decide (x ≤ b)
  | none => false

/-- The comparison `d <= a` for a double `a` that may be NaN: false for NaN. -/
def leNan (d : K) (a : Option K) : Bool :=
  match a with
  | some x => decide (d ≤ x)
  | none => false

/-- The comparison `d < rs + a` with the sum computed in binary64, for a double `a` that
may be NaN: the sum is then NaN and the comparison false. -/
def ltSumNan (A : Binary64 K) (d rs : K) (a : Option K) : Bool :=
  match a with
  | some x => decide (d < A.fl (rs + x))
  | none => false

/-- The static method `distanceBetween(x1, y1, x2, y2)` in binary64: the `uint32_t` sum
of squares is converted exactly, `sqrt` returns the correctly rounded square root. -/
def distanceBetweenF (A : Binary64 K) (x1 y1 x2 y2 : ℕ) : K :=
  A.fl (distanceBetween4 x1 y1 x2 y2)

/-- The body of the painting loops of `AddObjects` run over the cells `cs`, in binary64. -/
def paintObjectF (A : Binary64 K) (object : ObjectF K) :
    List Coordinate → List (List (Cell K)) → Option (List (List (Cell K)))
  | [], m => some m
  | c :: cs, m =>
    if leNan (distanceBetweenF A object.Origin.X object.Origin.Y c.X c.Y) object.Radius = true then
      match modifyCell m c (fun cell => { cell with Val := CELL_OCCUPIED_CODE }) with
      | none => none
      | some m1 => paintObjectF A object cs m1
    else paintObjectF A object cs m

/-- The loop `for (auto object : objects)` of `AddObjects`, in binary64 and with radii
that may be NaN. -/
def addObjectsLoopF (A : Binary64 K) (all : List (ObjectF K)) :
    List (ObjectF K) → PathFinderF K → Outcome (RetVal × PathFinderF K)
  | [], s => Outcome.done (RetVal.SUCCESS, { s with m_objects := all })
  | object :: rest, s =>
    if object.Origin.X > usub s.N 1 then Outcome.done (RetVal.FAIL_PARAM, s)
    else if object.Origin.Y > usub s.M 1 then Outcome.done (RetVal.FAIL_PARAM, s)
    else if nanGt object.Radius (s.M : K) = true ∨ nanGt object.Radius (s.N : K) = true
        ∨ nanLe object.Radius 0 = true then
      Outcome.done (RetVal.FAIL_PARAM, s)
    else
      match paintObjectF A object (paintCells s.M s.N) s.m_map with
      | none => Outcome.undefinedBehaviour
      | some m1 => addObjectsLoopF A all rest { s with m_map := m1 }

/-- The method `PathFinder::AddObjects`, in binary64 and with radii that may be NaN. -/
def AddObjectsF (A : Binary64 K) (s : PathFinderF K) (objects : List (ObjectF K)) :
    Outcome (RetVal × PathFinderF K) :=
  if objects.length > MAX_OBJECTS then Outcome.done (RetVal.FAIL_PARAM, s)
  else addObjectsLoopF A objects objects s

/-- The loop `for (auto object : m_objects)` of `isTraversable`, in binary64; `rs` is the
value of `m_robotRadius + m_safetyMargin`. -/
def collidesF (A : Binary64 K) (c : Coordinate) (rs : K) : List (ObjectF K) → Bool
  | [] => false
  | object :: rest =>
    if ltSumNan A (distanceBetweenF A c.X c.Y object.Origin.X object.Origin.Y) rs
        object.Radius = true then true
    else collidesF A c rs rest

/-- The method `PathFinder::isTraversable` in binary64: the coordinates and the grid
dimensions are converted exactly, every sum and difference is rounded. -/
def isTraversableF (A : Binary64 K) (s : PathFinderF K) (c : Coordinate) : Bool :=
  if A.fl ((c.X : K) - A.fl (s.m_robotRadius + s.m_safetyMargin)) < 0
      ∨ A.fl ((c.Y : K) - A.fl (s.m_robotRadius + s.m_safetyMargin)) < 0 then false
  else if A.fl ((c.X : K) + A.fl (s.m_robotRadius + s.m_safetyMargin)) ≥ (s.N : K)
      ∨ A.fl ((c.Y : K) + A.fl (s.m_robotRadius + s.m_safetyMargin)) ≥ (s.M : K) then false
  else !(collidesF A c (A.fl (s.m_robotRadius + s.m_safetyMargin)) s.m_objects)

/-- The planner after `SetMapSize(m, n)` on a new planner, with robot radius `r` and
safety margin `sm` stored and no obstacles. -/
def freshF (m n : ℕ) (r sm : K) : PathFinderF K :=
  { M := m, N := n
    m_map := (List.range m).map fun _ =>
      (List.range n).map fun _ => newCell CELL_UNOCCUPIED_CODE
    m_robotRadius := r, m_objects := [], m_heuristicWeight := 0, m_safetyMargin := sm }

/-- What the three tests of `AddObjects` let through on an `M` by `N` grid: an obstacle
with its origin inside the grid and a radius in `(0, min(M, N)]`, or an obstacle whose
radius is NaN and whose origin passes the unsigned tests `X > N - 1` and `Y > M - 1`. -/
def ObjectAcceptedF (M N : ℕ) (o : ObjectF K) : Prop :=
  match o.Radius with
  | some r => o.Origin.X < N ∧ o.Origin.Y < M ∧ 0 < r ∧ r ≤ min (M : K) (N : K)
  | none => (N = 0 ∨ o.Origin.X < N) ∧ (M = 0 ∨ o.Origin.Y < M)

/-- A planner before any call: an empty map, all numbers 0. -/
def blank : PathFinder K :=
  { M := 0, N := 0, m_map := [], m_robotRadius := 0, m_objects := [],
    m_heuristicWeight := 0, m_safetyMargin := 0 }

/-- A small planner for examples: `SetMapSize(4, 4)` then `SetRobotRadius(1.0)` on a new
planner; margin and weight keep their default 0, there are no obstacles. -/
def demoGrid : PathFinder K :=
  (SetRobotRadius (SetMapSize blank 4 4).2 1).2

/-- The planner `demoGrid` after `SetHeuristicWeight(DBL_MAX)`. -/
def demoHuge : PathFinder K :=
  (SetHeuristicWeight demoGrid DBL_MAX).2

instance instDecidableAdjacent : DecidableRel Adjacent := fun a b =>
  inferInstanceAs (Decidable
    (a ≠ b ∧ a.X ≤ b.X + 1 ∧ b.X ≤ a.X + 1 ∧ a.Y ≤ b.Y + 1 ∧ b.Y ≤ a.Y + 1))

end Model

/-- The real numbers with `Real.sqrt` are a model of `double`. -/
noncomputable instance instDoubleFieldReal : DoubleField ℝ where
  sqrt := Real.sqrt
  sqrt_nonneg := Real.sqrt_nonneg
  sqrt_mul_self := fun _ hx => Real.mul_self_sqrt hx

/-- A rounding to a nearest double exists: the doubles are finitely many. -/
noncomputable def nearest64 : Binary64 ℝ :=
  have hex : ∀ x : ℝ, ∃ d : ℝ, IsDouble d ∧ ∀ e : ℝ, IsDouble e → |x - d| ≤ |x - e| := by
    intro x
    have hfin : {d : ℝ | IsDouble d}.Finite := by
      apply Set.Finite.subset
        (((Set.finite_Icc (-(2 : ℤ) ^ 53) (2 ^ 53)).prod
          ((Set.finite_Iic (971 : ℕ)).prod (Set.finite_Iic (1074 : ℕ)))).image
          (fun q : ℤ × ℕ × ℕ => (q.1 : ℝ) * 2 ^ q.2.1 / 2 ^ q.2.2))
      rintro d ⟨m, a, b, hm, ha, hb, h⟩
      refine ⟨(m, a, b), ⟨⟨?_, ?_⟩, ha, hb⟩, ?_⟩
      · exact le_of_lt (abs_lt.1 hm).1
      · exact le_of_lt (abs_lt.1 hm).2
      · show (m : ℝ) * 2 ^ a / 2 ^ b = d
        rw [← h]
        field_simp
    have hne : hfin.toFinset.Nonempty :=
      ⟨0, hfin.mem_toFinset.2 ⟨0, 0, 0, by norm_num, by norm_num, by norm_num, by simp⟩⟩
    obtain ⟨d, hd, hmin⟩ := Finset.exists_min_image hfin.toFinset (fun e => |x - e|) hne
    exact ⟨d, hfin.mem_toFinset.1 hd, fun e he => hmin e (hfin.mem_toFinset.2 he)⟩
  { fl := fun x => Classical.choose (hex x)
    fl_double := fun x => (Classical.choose_spec (hex x)).1
    fl_nearest := fun x d hd => (Classical.choose_spec (hex x)).2 d hd }

/-! ## Theorems -/

section Basic

variable {K : Type} [DoubleField K]

theorem getCell_eq_some_iff {m : List (List (Cell K))} {c : Coordinate} {cell : Cell K} :
    getCell m c = some cell ↔ ∃ row, m[c.Y]? = some row ∧ row[c.X]? = some cell := by
  unfold getCell
  cases h : m[c.Y]? with
  | none => simp
  | some row => simp

theorem getCell_bounds {m : List (List (Cell K))} {M N : ℕ} {c : Coordinate} {cell : Cell K}
    (hd : Dims m M N) (hc : getCell m c = some cell) : c.Y < M ∧ c.X < N := by
  obtain ⟨row, hr, hx⟩ := getCell_eq_some_iff.1 hc
  obtain ⟨hy, hry⟩ := List.getElem?_eq_some_iff.1 hr
  obtain ⟨hx1, _⟩ := List.getElem?_eq_some_iff.1 hx
  have hmem : row ∈ m := by rw [← hry]; exact List.getElem_mem hy
  rw [hd.2 row hmem] at hx1
  exact ⟨hd.1 ▸ hy, hx1⟩

theorem getCell_of_bounds {m : List (List (Cell K))} {M N : ℕ} {c : Coordinate}
    (hd : Dims m M N) (hy : c.Y < M) (hx : c.X < N) : ∃ cell, getCell m c = some cell := by
  have hy1 : c.Y < m.length := hd.1 ▸ hy
  have hmem : m[c.Y] ∈ m := List.getElem_mem hy1
  have hx1 : c.X < (m[c.Y]).length := by rw [hd.2 _ hmem]; exact hx
  exact ⟨(m[c.Y])[c.X], getCell_eq_some_iff.2
    ⟨m[c.Y], List.getElem?_eq_getElem hy1, List.getElem?_eq_getElem hx1⟩⟩

theorem modifyCell_eq_some_iff {m m1 : List (List (Cell K))} {c : Coordinate}
    {f : Cell K → Cell K} :
    modifyCell m c f = some m1 ↔
      ∃ row cell, m[c.Y]? = some row ∧ row[c.X]? = some cell ∧
        m1 = m.set c.Y (row.set c.X (f cell)) := by
  cases h : m[c.Y]? with
  | none => simp [modifyCell, h]
  | some row =>
    cases h2 : row[c.X]? with
    | none =>
      simp only [modifyCell, h, h2]
      constructor
      · intro h3; cases h3
      · rintro ⟨row1, cell1, h4, h5, _⟩
        cases h4; rw [h2] at h5; cases h5
    | some cell =>
      simp only [modifyCell, h, h2, Option.some.injEq]
      constructor
      · intro h3; exact ⟨row, cell, rfl, h2, h3.symm⟩
      · rintro ⟨row1, cell1, h4, h5, h6⟩
        cases h4; rw [h2] at h5; cases h5; exact h6.symm

theorem modifyCell_of_getCell {m : List (List (Cell K))} {c : Coordinate} {cell : Cell K}
    (f : Cell K → Cell K) (hc : getCell m c = some cell) : ∃ m1, modifyCell m c f = some m1 := by
  obtain ⟨row, hr, hx⟩ := getCell_eq_some_iff.1 hc
  exact ⟨_, modifyCell_eq_some_iff.2 ⟨row, cell, hr, hx, rfl⟩⟩

theorem getCell_modifyCell_same {m m1 : List (List (Cell K))} {c : Coordinate}
    {f : Cell K → Cell K} (hm : modifyCell m c f = some m1) :
    ∃ cell, getCell m c = some cell ∧ getCell m1 c = some (f cell) := by
  obtain ⟨row, cell, hr, hx, rfl⟩ := modifyCell_eq_some_iff.1 hm
  refine ⟨cell, getCell_eq_some_iff.2 ⟨row, hr, hx⟩, getCell_eq_some_iff.2 ⟨row.set c.X (f cell), ?_, ?_⟩⟩
  · obtain ⟨hy, _⟩ := List.getElem?_eq_some_iff.1 hr
    simp [List.getElem?_set, hy]
  · obtain ⟨hx1, _⟩ := List.getElem?_eq_some_iff.1 hx
    simp [List.getElem?_set, hx1]

theorem getCell_modifyCell_other {m m1 : List (List (Cell K))} {c d : Coordinate}
    {f : Cell K → Cell K} (hm : modifyCell m c f = some m1) (hne : d ≠ c) :
    getCell m1 d = getCell m d := by
  obtain ⟨row, cell, hr, hx, rfl⟩ := modifyCell_eq_some_iff.1 hm
  unfold getCell
  by_cases hy : c.Y = d.Y
  · obtain ⟨hy1, _⟩ := List.getElem?_eq_some_iff.1 hr
    have hxne : c.X ≠ d.X := by
      intro hxe
      apply hne
      cases c; cases d; simp_all
    rw [List.getElem?_set, if_pos hy, if_pos hy1, ← hy, hr]
    simp [List.getElem?_set_ne hxne]
  · rw [List.getElem?_set_ne hy]

theorem dims_modifyCell {m m1 : List (List (Cell K))} {M N : ℕ} {c : Coordinate}
    {f : Cell K → Cell K} (hm : modifyCell m c f = some m1) (hd : Dims m M N) :
    Dims m1 M N := by
  obtain ⟨row, cell, hr, hx, rfl⟩ := modifyCell_eq_some_iff.1 hm
  refine ⟨by rw [List.length_set]; exact hd.1, ?_⟩
  intro r hrmem
  rcases List.mem_or_eq_of_mem_set hrmem with h | h
  · exact hd.2 r h
  · subst h
    rw [List.length_set]
    obtain ⟨hy, hry⟩ := List.getElem?_eq_some_iff.1 hr
    exact hd.2 row (hry ▸ List.getElem_mem hy)

theorem usub_one {n : ℕ} (h1 : 1 ≤ n) (h2 : n < U32) : usub n 1 = n - 1 := by
  unfold usub U32 at *
  split <;> omega

theorem usub_zero_one : usub 0 1 = U32 - 1 := by
  unfold usub U32
  rfl

theorem mem_paintCells {M N : ℕ} {c : Coordinate} :
    c ∈ paintCells M N ↔ c.Y < M ∧ c.X < N := by
  unfold paintCells
  simp only [List.mem_flatMap, List.mem_range, List.mem_map]
  constructor
  · rintro ⟨y, hy, x, hx, rfl⟩
    exact ⟨hy, hx⟩
  · rintro ⟨hy, hx⟩
    exact ⟨c.Y, hy, c.X, hx, rfl⟩

theorem paintObject_some (object : Object K) {M N : ℕ} :
    ∀ (cs : List Coordinate) (m : List (List (Cell K))), Dims m M N →
      (∀ c ∈ cs, c.Y < M ∧ c.X < N) →
      ∃ m1, paintObject object cs m = some m1 ∧ Dims m1 M N
  | [], m, hd, _ => ⟨m, rfl, hd⟩
  | c :: cs, m, hd, hcs => by
    have hc := hcs c (List.mem_cons_self _ _)
    have hrest : ∀ d ∈ cs, d.Y < M ∧ d.X < N := fun d hdm => hcs d (List.mem_cons_of_mem _ hdm)
    unfold paintObject
    split
    · obtain ⟨cell, hcell⟩ := getCell_of_bounds hd hc.1 hc.2
      obtain ⟨m1, hm1⟩ := modifyCell_of_getCell
        (fun cell => { cell with Val := CELL_OCCUPIED_CODE }) hcell
      rw [hm1]
      exact paintObject_some object cs m1 (dims_modifyCell hm1 hd) hrest
    · exact paintObject_some object cs m hd hrest

/-- The three tests `AddObjects` makes on an obstacle pass exactly on the valid ones. -/
theorem objectChecks_iff {M N : ℕ} (hM : M < U32) (hN : N < U32) (o : Object K) :
    (¬ o.Origin.X > usub N 1 ∧ ¬ o.Origin.Y > usub M 1 ∧
      ¬ (o.Radius > (M : K) ∨ o.Radius > (N : K) ∨ o.Radius ≤ 0)) ↔ ObjectValid M N o := by
  unfold ObjectValid
  constructor
  · rintro ⟨hx, hy, hr⟩
    push_neg at hr
    obtain ⟨hrM, hrN, hr0⟩ := hr
    have hM0 : 0 < M := by
      have : (0 : K) < (M : K) := lt_of_lt_of_le hr0 hrM
      exact_mod_cast this
    have hN0 : 0 < N := by
      have : (0 : K) < (N : K) := lt_of_lt_of_le hr0 hrN
      exact_mod_cast this
    rw [usub_one hN0 hN] at hx
    rw [usub_one hM0 hM] at hy
    exact ⟨by omega, by omega, hr0, le_min hrM hrN⟩
  · rintro ⟨hx, hy, hr0, hr⟩
    have hM0 : 1 ≤ M := by omega
    have hN0 : 1 ≤ N := by omega
    rw [usub_one hN0 hN, usub_one hM0 hM]
    refine ⟨by omega, by omega, ?_⟩
    push_neg
    exact ⟨le_trans hr (min_le_left _ _), le_trans hr (min_le_right _ _), hr0⟩

theorem addObjectsLoop_spec (all : List (Object K)) :
    ∀ (rest : List (Object K)) (s : PathFinder K), WellFormed s → s.M < U32 → s.N < U32 →
      ((∀ o ∈ rest, ObjectValid s.M s.N o) →
        ∃ s1, addObjectsLoop all rest s = Outcome.done (RetVal.SUCCESS, s1) ∧
          s1.m_objects = all ∧ s1.M = s.M ∧ s1.N = s.N ∧ WellFormed s1 ∧
          s1.m_robotRadius = s.m_robotRadius ∧ s1.m_safetyMargin = s.m_safetyMargin ∧
          s1.m_heuristicWeight = s.m_heuristicWeight) ∧
      ((¬ ∀ o ∈ rest, ObjectValid s.M s.N o) →
        ∃ s1, addObjectsLoop all rest s = Outcome.done (RetVal.FAIL_PARAM, s1))
  | [], s, hwf, _, _ => by
    refine ⟨fun _ => ⟨_, rfl, rfl, rfl, rfl, hwf, rfl, rfl, rfl⟩, fun h => ?_⟩
    exact absurd (fun o ho => by cases ho) h
  | object :: rest, s, hwf, hM, hN => by
    have hchk := objectChecks_iff (K := K) hM hN object
    by_cases hv : ObjectValid s.M s.N object
    · obtain ⟨h1, h2, h3⟩ := hchk.2 hv
      obtain ⟨m1, hm1, hd1⟩ := paintObject_some object (paintCells s.M s.N) s.m_map hwf
        (fun c hc => mem_paintCells.1 hc)
      have ih := addObjectsLoop_spec all rest { s with m_map := m1 } hd1 hM hN
      have hstep : addObjectsLoop all (object :: rest) s
          = addObjectsLoop all rest { s with m_map := m1 } := by
        rw [addObjectsLoop, if_neg h1, if_neg h2, if_neg h3, hm1]
      rw [hstep]
      constructor
      · intro hall
        exact ih.1 (fun o ho => hall o (List.mem_cons_of_mem _ ho))
      · intro hnall
        apply ih.2
        intro hall
        apply hnall
        intro o ho
        rcases List.mem_cons.1 ho with rfl | ho
        · exact hv
        · exact hall o ho
    · constructor
      · intro hall
        exact absurd (hall object (List.mem_cons_self _ _)) hv
      · intro _
        have hfail : ¬ (¬ object.Origin.X > usub s.N 1 ∧ ¬ object.Origin.Y > usub s.M 1 ∧
            ¬ (object.Radius > (s.M : K) ∨ object.Radius > (s.N : K) ∨ object.Radius ≤ 0)) :=
          fun h => hv (hchk.1 h)
        rw [addObjectsLoop]
        split
        · exact ⟨s, rfl⟩
        · split
          · exact ⟨s, rfl⟩
          · split
            · exact ⟨s, rfl⟩
            · rename_i h1 h2 h3
              exact absurd ⟨h1, h2, h3⟩ hfail

theorem setMapSize_wellFormed (s : PathFinder K) (m n : ℕ) (hm : m ≤ MAP_DIMENTION_LIMIT)
    (hn : n ≤ MAP_DIMENTION_LIMIT) : WellFormed (SetMapSize s m n).2 := by
  unfold SetMapSize
  rw [if_neg (by omega)]
  refine ⟨by simp, ?_⟩
  intro row hrow
  simp only [List.mem_map, List.mem_range] at hrow
  obtain ⟨_, _, rfl⟩ := hrow
  simp

theorem DBL_MAX_pos : (0 : K) < DBL_MAX := by
  have h : (2 : K) ^ 971 < 2 ^ 1024 := pow_lt_pow_right₀ one_lt_two (by omega)
  unfold DBL_MAX
  exact sub_pos.2 h

/-- A traversable cell of a planner with a positive radius and a non-negative margin
has both coordinates at least 1 and inside the grid. -/
theorem isTraversable_bounds {s : PathFinder K} {c : Coordinate}
    (hR : 0 < s.m_robotRadius) (hS : 0 ≤ s.m_safetyMargin) (ht : isTraversable s c = true) :
    1 ≤ c.X ∧ 1 ≤ c.Y ∧ c.X < s.N ∧ c.Y < s.M := by
  unfold isTraversable at ht
  split at ht
  · cases ht
  · split at ht
    · cases ht
    · rename_i h1 h2
      push_neg at h1 h2
      have hr : 0 < s.m_robotRadius + s.m_safetyMargin := by linarith
      have hx0 : (0 : K) < (c.X : K) := by linarith [h1.1]
      have hy0 : (0 : K) < (c.Y : K) := by linarith [h1.2]
      have hxN : (c.X : K) < (s.N : K) := by linarith [h2.1]
      have hyM : (c.Y : K) < (s.M : K) := by linarith [h2.2]
      refine ⟨?_, ?_, ?_, ?_⟩
      · have : 0 < c.X := by exact_mod_cast hx0
        omega
      · have : 0 < c.Y := by exact_mod_cast hy0
        omega
      · exact_mod_cast hxN
      · exact_mod_cast hyM

theorem constructPath_retVal {fuel : ℕ} {s s1 : PathFinder K} {dest start : Coordinate}
    {path p1 : List Coordinate} {r : RetVal}
    (h : constructPath fuel s dest start path = Outcome.done (r, s1, p1)) :
    r = RetVal.SUCCESS := by
  unfold constructPath at h
  split at h
  · cases h
  · cases h
  · split at h
    · cases h
    · split at h
      · cases h
      · cases h
        rfl

theorem findPathBody_retVal {pathFuel : ℕ} {dest start : Coordinate}
    {bestPath : List Coordinate} {s : PathFinder K} {openSet closedSet : List Coordinate}
    {r : RetVal} {s1 : PathFinder K} {p1 : List Coordinate}
    (h : findPathBody pathFuel dest start bestPath s openSet closedSet
      = LoopStep.finished (Outcome.done (r, s1, p1))) :
    r = RetVal.SUCCESS ∨ r = RetVal.FAIL_NO_PATH := by
  unfold findPathBody at h
  split at h
  · cases h
  · split at h
    · cases h
      exact Or.inr rfl
    · split at h
      · injection h with h
        exact Or.inl (constructPath_retVal h)
      · split at h
        · cases h
        · split at h
          · cases h
          · cases h

/-- The loop of `FindPath` returns nothing but SUCCESS and FAIL_NO_PATH. -/
theorem findPathLoop_retVal (pathFuel : ℕ) (dest start : Coordinate) (bestPath : List Coordinate)
    (fuel : ℕ) : ∀ (s : PathFinder K) (openSet closedSet : List Coordinate)
      (r : RetVal) (s1 : PathFinder K) (p1 : List Coordinate),
      findPathLoop pathFuel dest start bestPath fuel s openSet closedSet
        = Outcome.done (r, s1, p1) →
      r = RetVal.SUCCESS ∨ r = RetVal.FAIL_NO_PATH := by
  induction fuel with
  | zero =>
    intro s openSet closedSet r s1 p1 h
    rw [findPathLoop] at h
    cases h
  | succ fuel ih =>
    intro s openSet closedSet r s1 p1 h
    rw [findPathLoop] at h
    split at h
    · rename_i out hb
      subst h
      exact findPathBody_retVal hb
    · exact ih _ _ _ r s1 p1 h

theorem setMapSize_success (s : PathFinder K) {m n : ℕ} (hm : m ≤ MAP_DIMENTION_LIMIT)
    (hn : n ≤ MAP_DIMENTION_LIMIT) :
    SetMapSize s m n = (RetVal.SUCCESS,
      { s with
        M := m
        N := n
        m_map := (List.range m).map fun _ =>
          (List.range n).map fun _ => newCell CELL_UNOCCUPIED_CODE }) := by
  unfold SetMapSize
  rw [if_neg (by omega)]

/-- Every cell of the grid built by `SetMapSize` is `newCell '0'`. -/
theorem getCell_setMapSize (s : PathFinder K) {m n : ℕ} (hm : m ≤ MAP_DIMENTION_LIMIT)
    (hn : n ≤ MAP_DIMENTION_LIMIT) {c : Coordinate} {cell : Cell K}
    (hc : getCell (SetMapSize s m n).2.m_map c = some cell) :
    cell = newCell CELL_UNOCCUPIED_CODE := by
  rw [setMapSize_success s hm hn] at hc
  obtain ⟨row, hr, hx⟩ := getCell_eq_some_iff.1 hc
  have hrow : row ∈ (List.range m).map fun _ =>
      (List.range n).map fun _ => (newCell CELL_UNOCCUPIED_CODE : Cell K) :=
    List.mem_iff_getElem?.2 ⟨_, hr⟩
  simp only [List.mem_map, List.mem_range] at hrow
  obtain ⟨_, _, rfl⟩ := hrow
  have hcell : cell ∈ (List.range n).map fun _ => (newCell CELL_UNOCCUPIED_CODE : Cell K) :=
    List.mem_iff_getElem?.2 ⟨_, hx⟩
  simp only [List.mem_map, List.mem_range] at hcell
  obtain ⟨_, _, rfl⟩ := hcell
  rfl

theorem setMapSize_fresh (s : PathFinder K) {m n : ℕ} (hm : m ≤ MAP_DIMENTION_LIMIT)
    (hn : n ≤ MAP_DIMENTION_LIMIT) : Fresh (SetMapSize s m n).2 := by
  refine ⟨setMapSize_wellFormed s m n hm hn, ?_⟩
  intro c cell hc
  rw [getCell_setMapSize s hm hn hc]
  exact ⟨rfl, rfl⟩

/-- The square root of zero is zero. -/
theorem sqrt_zero_eq : DoubleField.sqrt (0 : K) = 0 := by
  have h := DoubleField.sqrt_mul_self (0 : K) le_rfl
  exact mul_self_eq_zero.1 h

/-- The distance from a cell to itself is zero. -/
theorem distanceBetween_self (c : Coordinate) : distanceBetween c c = (0 : K) := by
  have h : usub c.X c.X = 0 := by
    unfold usub U32
    split <;> omega
  have h2 : usub c.Y c.Y = 0 := by
    unfold usub U32
    split <;> omega
  unfold distanceBetween distanceBetween4
  simp only [h, h2, umul, uadd]
  simp [sqrt_zero_eq]

theorem collides_iff {c : Coordinate} {r : K} {objs : List (Object K)} :
    collides c r objs = true ↔ ∃ o ∈ objs, distanceBetween c o.Origin < r + o.Radius := by
  induction objs with
  | nil => simp [collides]
  | cons o rest ih =>
    rw [collides]
    split
    · rename_i h
      simp only [true_iff]
      exact ⟨o, List.mem_cons_self _ _, h⟩
    · rename_i h
      rw [ih]
      constructor
      · rintro ⟨o1, ho1, h1⟩
        exact ⟨o1, List.mem_cons_of_mem _ ho1, h1⟩
      · rintro ⟨o1, ho1, h1⟩
        rcases List.mem_cons.1 ho1 with rfl | ho1
        · exact absurd h1 h
        · exact ⟨o1, ho1, h1⟩

/-- The method `isTraversable` as a proposition over the model's own distance. -/
theorem isTraversable_iff {s : PathFinder K} {c : Coordinate} :
    isTraversable s c = true ↔
      (0 ≤ (c.X : K) - (s.m_robotRadius + s.m_safetyMargin) ∧
       0 ≤ (c.Y : K) - (s.m_robotRadius + s.m_safetyMargin) ∧
       (c.X : K) + (s.m_robotRadius + s.m_safetyMargin) < (s.N : K) ∧
       (c.Y : K) + (s.m_robotRadius + s.m_safetyMargin) < (s.M : K) ∧
       ∀ o ∈ s.m_objects,
         (s.m_robotRadius + s.m_safetyMargin) + o.Radius ≤ distanceBetween c o.Origin) := by
  unfold isTraversable
  split
  · rename_i h
    simp only [Bool.false_eq_true, false_iff]
    rintro ⟨h1, h2, _⟩
    rcases h with h | h
    · exact absurd h1 (not_le.2 h)
    · exact absurd h2 (not_le.2 h)
  · rename_i h
    push_neg at h
    split
    · rename_i h2
      simp only [Bool.false_eq_true, false_iff]
      rintro ⟨_, _, h3, h4, _⟩
      rcases h2 with h2 | h2
      · exact absurd h3 (not_lt.2 h2)
      · exact absurd h4 (not_lt.2 h2)
    · rename_i h2
      push_neg at h2
      rw [Bool.not_eq_true', ← Bool.not_eq_true, collides_iff]
      constructor
      · intro h3
        refine ⟨h.1, h.2, h2.1, h2.2, ?_⟩
        intro o ho
        by_contra h4
        exact h3 ⟨o, ho, not_le.1 h4⟩
      · rintro ⟨_, _, _, _, h3⟩ ⟨o, ho, h4⟩
        exact absurd (h3 o ho) (not_le.2 h4)

theorem AddObjects_success {s s1 : PathFinder K} {objects : List (Object K)}
    (hwf : WellFormed s) (hM : s.M < U32) (hN : s.N < U32)
    (h : AddObjects s objects = Outcome.done (RetVal.SUCCESS, s1)) :
    (∀ o ∈ objects, ObjectValid s.M s.N o) ∧
      s1.m_objects = objects ∧ s1.M = s.M ∧ s1.N = s.N ∧ WellFormed s1 ∧
      s1.m_robotRadius = s.m_robotRadius ∧ s1.m_safetyMargin = s.m_safetyMargin ∧
      s1.m_heuristicWeight = s.m_heuristicWeight := by
  unfold AddObjects at h
  split at h
  · cases h
  · have hloop := addObjectsLoop_spec objects objects s hwf hM hN
    by_cases hall : ∀ o ∈ objects, ObjectValid s.M s.N o
    · obtain ⟨s2, hs2, hrest⟩ := hloop.1 hall
      rw [hs2] at h
      cases h
      exact ⟨hall, hrest⟩
    · obtain ⟨s2, hs2⟩ := hloop.2 hall
      rw [hs2] at h
      cases h

/-- The wrapped square of the wrapped difference of two small numbers is the square
of their true difference. -/
theorem umul_usub_self {a b : ℕ} (ha : a ≤ 1028) (hb : b ≤ 1028) :
    ∃ d : ℕ, d ≤ 1028 ∧ umul (usub a b) (usub a b) = d * d ∧
      ((d : ℤ) = (a : ℤ) - b ∨ (d : ℤ) = (b : ℤ) - a) := by
  by_cases hab : b ≤ a
  · refine ⟨a - b, by omega, ?_, Or.inl (by omega)⟩
    have h1 : usub a b = a - b := by
      unfold usub U32
      split <;> omega
    have h2 : (a - b) * (a - b) ≤ 1028 * 1028 := Nat.mul_le_mul (by omega) (by omega)
    rw [h1]
    unfold umul U32
    exact Nat.mod_eq_of_lt (by omega)
  · refine ⟨b - a, by omega, ?_, Or.inr (by omega)⟩
    have h1 : usub a b = 4294967296 - (b - a) := by
      unfold usub U32
      split <;> omega
    have h2 : (b - a) * (b - a) ≤ 1028 * 1028 := Nat.mul_le_mul (by omega) (by omega)
    obtain ⟨k, hk1, hk2⟩ : ∃ k, 4294967296 - (b - a) = (b - a) + k ∧
        k + 2 * (b - a) = 4294967296 := ⟨4294967296 - 2 * (b - a), by omega, by omega⟩
    have h3 : ((b - a) + k) * ((b - a) + k) = k * (k + 2 * (b - a)) + (b - a) * (b - a) := by
      ring
    rw [h1, hk1]
    unfold umul U32
    rw [h3, hk2, Nat.mul_comm k, Nat.mul_add_mod]
    exact Nat.mod_eq_of_lt (by omega)

/-- Inside the grid limit the `uint32_t` arithmetic of `distanceBetween` does not wrap:
the result is the square root of the true squared distance. -/
theorem distanceBetween_exact {a b : Coordinate} (haX : a.X ≤ 1028) (haY : a.Y ≤ 1028)
    (hbX : b.X ≤ 1028) (hbY : b.Y ≤ 1028) :
    (distanceBetween a b : K)
      = DoubleField.sqrt (((a.X : K) - (b.X : K)) ^ 2 + ((a.Y : K) - (b.Y : K)) ^ 2) := by
  obtain ⟨d, hd, hdu, hdz⟩ := umul_usub_self haX hbX
  obtain ⟨e, he, heu, hez⟩ := umul_usub_self haY hbY
  have h1 : d * d ≤ 1028 * 1028 := Nat.mul_le_mul hd hd
  have h2 : e * e ≤ 1028 * 1028 := Nat.mul_le_mul he he
  have h3 : uadd (d * d) (e * e) = d * d + e * e := by
    unfold uadd U32
    exact Nat.mod_eq_of_lt (by omega)
  have hdK : ((d : K)) ^ 2 = ((a.X : K) - (b.X : K)) ^ 2 := by
    rcases hdz with h | h
    · have : (d : K) = (a.X : K) - (b.X : K) := by exact_mod_cast h
      rw [this]
    · have : (d : K) = (b.X : K) - (a.X : K) := by exact_mod_cast h
      rw [this]
      ring
  have heK : ((e : K)) ^ 2 = ((a.Y : K) - (b.Y : K)) ^ 2 := by
    rcases hez with h | h
    · have : (e : K) = (a.Y : K) - (b.Y : K) := by exact_mod_cast h
      rw [this]
    · have : (e : K) = (b.Y : K) - (a.Y : K) := by exact_mod_cast h
      rw [this]
      ring
  unfold distanceBetween distanceBetween4
  simp only [hdu, heu, h3]
  congr 1
  rw [← hdK, ← heK]
  push_cast
  ring

/-! ### Coordinates and the two sets -/

theorem Coordinate.eq_iff {a c : Coordinate} : a.eq c = true ↔ a = c := by
  cases a; cases c
  simp only [Coordinate.eq, Bool.and_eq_true, beq_iff_eq, Coordinate.mk.injEq]
  constructor
  · rintro ⟨h1, h2⟩; exact ⟨h1.symm, h2.symm⟩
  · rintro ⟨h1, h2⟩; exact ⟨h1.symm, h2.symm⟩

theorem Coordinate.ne_iff {a c : Coordinate} : a.ne c = true ↔ a ≠ c := by
  cases a; cases c
  simp only [Coordinate.ne, Bool.or_eq_true, bne_iff_ne, ne_eq, Coordinate.mk.injEq, not_and]
  constructor
  · rintro (h | h) h1 h2
    · exact h h1.symm
    · exact h h2.symm
  · intro h
    omega

theorem Coordinate.lt_iff {a c : Coordinate} :
    a.lt c = true ↔ (c.X < a.X ∨ (c.X = a.X ∧ c.Y < a.Y)) := by
  simp only [Coordinate.lt, Bool.or_eq_true, decide_eq_true_eq, Bool.and_eq_true,
    Bool.not_eq_true', decide_eq_false_iff_not, not_lt]
  constructor
  · rintro (h | ⟨h1, h2⟩)
    · exact Or.inl h
    · rcases Nat.lt_or_ge c.X a.X with h3 | h3
      · exact Or.inl h3
      · exact Or.inr ⟨by omega, h2⟩
  · rintro (h | ⟨h1, h2⟩)
    · exact Or.inl h
    · exact Or.inr ⟨by omega, h2⟩

/-- Two coordinates neither of which is less than the other are equal. -/
theorem Coordinate.eq_of_not_lt {a c : Coordinate} (h1 : a.lt c = false) (h2 : c.lt a = false) :
    a = c := by
  rw [← Bool.not_eq_true, Coordinate.lt_iff] at h1 h2
  cases a; cases c
  simp only [Coordinate.mk.injEq] at *
  omega

theorem Coordinate.lt_irrefl (a : Coordinate) : a.lt a = false := by
  rw [← Bool.not_eq_true, Coordinate.lt_iff]
  omega

theorem equiv_iff {c d : Coordinate} : (c.lt d = false ∧ d.lt c = false) ↔ c = d := by
  constructor
  · rintro ⟨h1, h2⟩
    exact Coordinate.eq_of_not_lt h1 h2
  · rintro rfl
    exact ⟨Coordinate.lt_irrefl c, Coordinate.lt_irrefl c⟩

theorem mem_setInsert {c d : Coordinate} {l : List Coordinate} :
    d ∈ setInsert c l ↔ d = c ∨ d ∈ l := by
  induction l with
  | nil => simp [setInsert]
  | cons e es ih =>
    rw [setInsert]
    split
    · simp
    · split
      · simp only [List.mem_cons, ih]
        tauto
      · rename_i h1 h2
        have hce : c = e := Coordinate.eq_of_not_lt (by simpa using h1) (by simpa using h2)
        subst hce
        simp

theorem mem_setErase {c d : Coordinate} {l : List Coordinate} :
    d ∈ setErase c l ↔ d ∈ l ∧ d ≠ c := by
  unfold setErase
  rw [List.mem_filter]
  constructor
  · rintro ⟨h1, h2⟩
    refine ⟨h1, ?_⟩
    rintro rfl
    simp [Coordinate.lt_irrefl] at h2
  · rintro ⟨h1, h2⟩
    refine ⟨h1, ?_⟩
    by_contra h3
    simp only [Bool.or_eq_true, not_or, Bool.not_eq_true] at h3
    exact h2 (Coordinate.eq_of_not_lt h3.1 h3.2).symm

theorem setContains_iff {c : Coordinate} {l : List Coordinate} :
    setContains c l = true ↔ c ∈ l := by
  unfold setContains
  rw [List.any_eq_true]
  constructor
  · rintro ⟨d, hd, h⟩
    simp only [Bool.and_eq_true, Bool.not_eq_true'] at h
    rw [Coordinate.eq_of_not_lt h.1 h.2]
    exact hd
  · intro h
    exact ⟨c, h, by simp [Coordinate.lt_irrefl]⟩

theorem setErase_of_not_mem {c : Coordinate} {l : List Coordinate} (h : c ∉ l) :
    setErase c l = l := by
  unfold setErase
  rw [List.filter_eq_self]
  intro d hd
  by_contra h3
  simp only [Bool.or_eq_true, not_or, Bool.not_eq_true] at h3
  exact h (Coordinate.eq_of_not_lt h3.1 h3.2 ▸ hd)

/-! ### Reading the search data of a cell -/

theorem gOf_of_getCell {m : List (List (Cell K))} {c : Coordinate} {cell : Cell K}
    (h : getCell m c = some cell) : gOf m c = cell.g_score := by
  unfold gOf; rw [h]

theorem fOf_of_getCell {m : List (List (Cell K))} {c : Coordinate} {cell : Cell K}
    (h : getCell m c = some cell) : fOf m c = cell.f_cost := by
  unfold fOf; rw [h]

theorem parentOf_of_getCell {m : List (List (Cell K))} {c : Coordinate} {cell : Cell K}
    (h : getCell m c = some cell) : parentOf m c = cell.Parent := by
  unfold parentOf; rw [h]

theorem gOf_modifyCell_other {m m1 : List (List (Cell K))} {c d : Coordinate}
    {f : Cell K → Cell K} (hm : modifyCell m c f = some m1) (hne : d ≠ c) :
    gOf m1 d = gOf m d := by
  unfold gOf; rw [getCell_modifyCell_other hm hne]

theorem fOf_modifyCell_other {m m1 : List (List (Cell K))} {c d : Coordinate}
    {f : Cell K → Cell K} (hm : modifyCell m c f = some m1) (hne : d ≠ c) :
    fOf m1 d = fOf m d := by
  unfold fOf; rw [getCell_modifyCell_other hm hne]

theorem parentOf_modifyCell_other {m m1 : List (List (Cell K))} {c d : Coordinate}
    {f : Cell K → Cell K} (hm : modifyCell m c f = some m1) (hne : d ≠ c) :
    parentOf m1 d = parentOf m d := by
  unfold parentOf; rw [getCell_modifyCell_other hm hne]

/-- A write that keeps g-cost, f-cost and parent of the cell keeps them everywhere. -/
theorem search_data_modifyCell {m m1 : List (List (Cell K))} {c : Coordinate}
    {f : Cell K → Cell K} (hm : modifyCell m c f = some m1)
    (hf : ∀ cell, (f cell).g_score = cell.g_score ∧ (f cell).f_cost = cell.f_cost ∧
      (f cell).Parent = cell.Parent) (d : Coordinate) :
    gOf m1 d = gOf m d ∧ fOf m1 d = fOf m d ∧ parentOf m1 d = parentOf m d := by
  by_cases hd : d = c
  · subst hd
    obtain ⟨cell, h1, h2⟩ := getCell_modifyCell_same hm
    rw [gOf_of_getCell h1, gOf_of_getCell h2, fOf_of_getCell h1, fOf_of_getCell h2,
      parentOf_of_getCell h1, parentOf_of_getCell h2]
    exact hf cell
  · exact ⟨gOf_modifyCell_other hm hd, fOf_modifyCell_other hm hd,
      parentOf_modifyCell_other hm hd⟩

/-! ### The scan for the next node -/

theorem selectCurrent_some (m : List (List (Cell K))) :
    ∀ (openSet : List Coordinate) (c0 : Coordinate),
      (∀ o ∈ openSet, ∃ cell, getCell m o = some cell) →
      (∃ cell, getCell m c0 = some cell) →
      ∃ cur, selectCurrent m c0 openSet = some cur
  | [], c0, _, _ => ⟨c0, rfl⟩
  | o :: rest, c0, ho, hc0 => by
    obtain ⟨a, ha⟩ := ho o (List.mem_cons_self _ _)
    obtain ⟨b, hb⟩ := hc0
    rw [selectCurrent, ha, hb]
    apply selectCurrent_some m rest _ (fun o1 ho1 => ho o1 (List.mem_cons_of_mem _ ho1))
    split
    · exact ⟨a, ha⟩
    · exact ⟨b, hb⟩

theorem selectCurrent_spec (m : List (List (Cell K))) :
    ∀ (openSet : List Coordinate) (c0 cur : Coordinate),
      selectCurrent m c0 openSet = some cur →
      (cur = c0 ∨ (cur ∈ openSet ∧ fOf m cur < fOf m c0)) ∧
        ∀ o ∈ openSet, fOf m cur ≤ fOf m o
  | [], c0, cur, h => by
    rw [selectCurrent] at h
    cases h
    exact ⟨Or.inl rfl, fun o ho => by cases ho⟩
  | o :: rest, c0, cur, h => by
    rw [selectCurrent] at h
    split at h
    · rename_i a b ha hb
      have ih := selectCurrent_spec m rest _ cur h
      have hle : fOf m cur ≤ fOf m (if a.f_cost < b.f_cost then o else c0) := by
        rcases ih.1 with h1 | h1
        · rw [h1]
        · exact le_of_lt h1.2
      split at ih
      · rename_i hlt
        rw [if_pos hlt] at hle
        rw [fOf_of_getCell ha] at ih hle
        obtain ⟨h1, h3⟩ := ih
        refine ⟨Or.inr ?_, ?_⟩
        · rw [fOf_of_getCell hb]
          rcases h1 with h1 | h1
          · rw [h1, fOf_of_getCell ha]
            exact ⟨List.mem_cons_self _ _, hlt⟩
          · exact ⟨List.mem_cons_of_mem _ h1.1, lt_trans h1.2 hlt⟩
        · intro o1 ho1
          rcases List.mem_cons.1 ho1 with rfl | ho1
          · rw [fOf_of_getCell ha]; exact hle
          · exact h3 o1 ho1
      · rename_i hlt
        rw [if_neg hlt] at hle
        obtain ⟨h1, h3⟩ := ih
        refine ⟨?_, ?_⟩
        · rcases h1 with h1 | h1
          · exact Or.inl h1
          · exact Or.inr ⟨List.mem_cons_of_mem _ h1.1, h1.2⟩
        · intro o1 ho1
          rcases List.mem_cons.1 ho1 with rfl | ho1
          · rw [fOf_of_getCell ha]
            rw [fOf_of_getCell hb] at hle
            exact le_trans hle (not_lt.1 hlt)
          · exact h3 o1 ho1
    · cases h

/-! ### The neighbours of a cell -/

theorem loopRange_neighbors {n : ℕ} (h1 : 1 ≤ n) (h2 : n ≤ 1028) :
    loopRange (usub n NEIGHBOR_RANGE) (uadd n NEIGHBOR_RANGE) = some [n - 1, n, n + 1] := by
  have hlo : usub n NEIGHBOR_RANGE = n - 1 := by
    unfold usub NEIGHBOR_RANGE U32
    split <;> omega
  have hhi : uadd n NEIGHBOR_RANGE = n + 1 := by
    unfold uadd NEIGHBOR_RANGE U32
    omega
  rw [hlo, hhi]
  unfold loopRange
  rw [if_neg (by omega), if_neg (by unfold U32; omega)]
  have h3 : n + 1 + 1 - (n - 1) = 3 := by omega
  rw [h3]
  have h4 : n - 1 + 1 = n := by omega
  have h5 : n - 1 + 1 + 1 = n + 1 := by omega
  simp [List.range', h4]

theorem getNeighbors_spec {c : Coordinate} (hx1 : 1 ≤ c.X) (hx2 : c.X ≤ 1028)
    (hy1 : 1 ≤ c.Y) (hy2 : c.Y ≤ 1028) :
    ∃ l, getNeighbors c = some l ∧
      ∀ d : Coordinate, d ∈ l ↔
        (c.X ≤ d.X + 1 ∧ d.X ≤ c.X + 1 ∧ c.Y ≤ d.Y + 1 ∧ d.Y ≤ c.Y + 1) := by
  have hg : getNeighbors c = some ([c.Y - 1, c.Y, c.Y + 1].flatMap fun y1 =>
      [c.X - 1, c.X, c.X + 1].map fun x => { X := x, Y := y1 }) := by
    unfold getNeighbors
    rw [loopRange_neighbors hy1 hy2, loopRange_neighbors hx1 hx2]
    rfl
  refine ⟨_, hg, ?_⟩
  intro d
  rw [List.mem_flatMap]
  constructor
  · rintro ⟨y, hy, hd⟩
    rw [List.mem_map] at hd
    obtain ⟨x, hx, rfl⟩ := hd
    simp only [List.mem_cons, List.mem_singleton, List.not_mem_nil, or_false] at hx hy
    show c.X ≤ x + 1 ∧ x ≤ c.X + 1 ∧ c.Y ≤ y + 1 ∧ y ≤ c.Y + 1
    refine ⟨?_, ?_, ?_, ?_⟩
    · rcases hx with h | h | h <;> omega
    · rcases hx with h | h | h <;> omega
    · rcases hy with h | h | h <;> omega
    · rcases hy with h | h | h <;> omega
  · rintro ⟨h1, h2, h3, h4⟩
    refine ⟨d.Y, ?_, ?_⟩
    · simp only [List.mem_cons, List.mem_singleton, List.not_mem_nil, or_false]
      omega
    · rw [List.mem_map]
      refine ⟨d.X, ?_, rfl⟩
      simp only [List.mem_cons, List.mem_singleton, List.not_mem_nil, or_false]
      omega

theorem getNeighbors_origin : getNeighbors {} = some [] := by
  have hlo : usub 0 NEIGHBOR_RANGE = 4294967295 := by
    unfold usub NEIGHBOR_RANGE U32
    rfl
  have hhi : uadd 0 NEIGHBOR_RANGE = 1 := by
    unfold uadd NEIGHBOR_RANGE U32
    rfl
  have hr : loopRange 4294967295 1 = some [] := by
    unfold loopRange
    rw [if_pos (by omega)]
  show getNeighbors { X := 0, Y := 0 } = some []
  unfold getNeighbors
  simp only [hlo, hhi, hr]
  rfl

/-! ### Numbers -/

theorem sqrt_pos_of_pos {x : K} (hx : 0 < x) : 0 < DoubleField.sqrt x := by
  rcases lt_or_eq_of_le (DoubleField.sqrt_nonneg x) with h | h
  · exact h
  · have h2 := DoubleField.sqrt_mul_self x (le_of_lt hx)
    rw [← h] at h2
    simp only [mul_zero] at h2
    exact absurd h2.symm (ne_of_gt hx)

theorem sqrt_le_of_le_sq {x b : K} (hx : 0 ≤ x) (hb : 0 ≤ b) (h : x ≤ b * b) :
    DoubleField.sqrt x ≤ b := by
  by_contra hc
  push_neg at hc
  have h2 := DoubleField.sqrt_mul_self x hx
  have h3 : b * b < DoubleField.sqrt x * DoubleField.sqrt x :=
    mul_self_lt_mul_self hb hc
  linarith

theorem le_sqrt_of_sq_le {x b : K} (hx : 0 ≤ x) (h : b * b ≤ x) :
    b ≤ DoubleField.sqrt x := by
  by_contra hc
  push_neg at hc
  have h2 := DoubleField.sqrt_mul_self x hx
  have h3 : DoubleField.sqrt x * DoubleField.sqrt x < b * b :=
    mul_self_lt_mul_self (DoubleField.sqrt_nonneg x) hc
  linarith

theorem sqrt_one_eq : DoubleField.sqrt (1 : K) = 1 := by
  apply le_antisymm
  · exact sqrt_le_of_le_sq zero_le_one zero_le_one (by norm_num)
  · exact le_sqrt_of_sq_le zero_le_one (by norm_num)

theorem distanceBetween_nonneg (a b : Coordinate) : (0 : K) ≤ distanceBetween a b := by
  unfold distanceBetween distanceBetween4
  exact DoubleField.sqrt_nonneg _

/-- The constant `DBL_MAX` is above every g-cost a grid of at most 1028 by 1028 cells
can hold. -/
theorem DBL_MAX_big : (4194304 : K) ≤ DBL_MAX := by
  have h1 : (2 : K) ^ 971 ≤ 2 ^ 1023 := pow_le_pow_right₀ one_le_two (by omega)
  have h2 : (2 : K) ^ 22 ≤ 2 ^ 1023 := pow_le_pow_right₀ one_le_two (by omega)
  have h3 : (2 : K) ^ 1024 = 2 * 2 ^ 1023 := by
    rw [show (1024 : ℕ) = 1023 + 1 from rfl, pow_succ]
    ring
  have h4 : (2 : K) ^ 22 = 4194304 := by norm_num
  unfold DBL_MAX
  rw [h3]
  rw [h4] at h2
  generalize (2 : K) ^ 1023 = a at *
  generalize (2 : K) ^ 971 = b at *
  linarith

/-- The distance the code computes between cells whose coordinates differ by at most 1
is the step cost: 0 from a cell to itself, else 1 or the square root of 2. -/
theorem distanceBetween_near {a b : Coordinate} (haX : a.X ≤ 1028) (haY : a.Y ≤ 1028)
    (hbX : b.X ≤ 1028) (hbY : b.Y ≤ 1028)
    (hn : a.X ≤ b.X + 1 ∧ b.X ≤ a.X + 1 ∧ a.Y ≤ b.Y + 1 ∧ b.Y ≤ a.Y + 1) :
    (distanceBetween a b : K) = if a = b then 0 else stepCost a b := by
  rw [distanceBetween_exact haX haY hbX hbY]
  have hx : ((a.X : K) - (b.X : K)) ^ 2 = if a.X = b.X then 0 else 1 := by
    rcases Nat.lt_trichotomy a.X b.X with h | h | h
    · have : b.X = a.X + 1 := by omega
      rw [if_neg (by omega), this]
      push_cast
      ring
    · rw [if_pos h, h]
      ring
    · have : a.X = b.X + 1 := by omega
      rw [if_neg (by omega), this]
      push_cast
      ring
  have hy : ((a.Y : K) - (b.Y : K)) ^ 2 = if a.Y = b.Y then 0 else 1 := by
    rcases Nat.lt_trichotomy a.Y b.Y with h | h | h
    · have : b.Y = a.Y + 1 := by omega
      rw [if_neg (by omega), this]
      push_cast
      ring
    · rw [if_pos h, h]
      ring
    · have : a.Y = b.Y + 1 := by omega
      rw [if_neg (by omega), this]
      push_cast
      ring
  rw [hx, hy]
  unfold stepCost
  by_cases h1 : a.X = b.X
  · by_cases h2 : a.Y = b.Y
    · have hab : a = b := by
        cases a; cases b
        simp_all
      rw [if_pos h1, if_pos h2, if_pos hab]
      simp [sqrt_zero_eq]
    · have hab : a ≠ b := fun h => h2 (by rw [h])
      rw [if_pos h1, if_neg h2, if_neg hab, if_pos (Or.inl h1)]
      simp [sqrt_one_eq]
  · have hab : a ≠ b := fun h => h1 (by rw [h])
    by_cases h2 : a.Y = b.Y
    · rw [if_neg h1, if_pos h2, if_neg hab, if_pos (Or.inr h2)]
      simp [sqrt_one_eq]
    · rw [if_neg h1, if_neg h2, if_neg hab, if_neg (by tauto)]
      norm_num

theorem stepCost_pos (a b : Coordinate) : (0 : K) < stepCost a b := by
  unfold stepCost
  split
  · exact zero_lt_one
  · exact sqrt_pos_of_pos (by norm_num)

theorem stepCost_le_two (a b : Coordinate) : (stepCost a b : K) ≤ 2 := by
  unfold stepCost
  split
  · norm_num
  · exact sqrt_le_of_le_sq (by norm_num) (by norm_num) (by norm_num)

theorem distanceBetween_near_le {a b : Coordinate} (haX : a.X ≤ 1028) (haY : a.Y ≤ 1028)
    (hbX : b.X ≤ 1028) (hbY : b.Y ≤ 1028)
    (hn : a.X ≤ b.X + 1 ∧ b.X ≤ a.X + 1 ∧ a.Y ≤ b.Y + 1 ∧ b.Y ≤ a.Y + 1) :
    (distanceBetween a b : K) ≤ 2 := by
  rw [distanceBetween_near haX haY hbX hbY hn]
  split
  · norm_num
  · exact stepCost_le_two a b

theorem distanceBetween_adjacent {a b : Coordinate} (haX : a.X ≤ 1028) (haY : a.Y ≤ 1028)
    (hbX : b.X ≤ 1028) (hbY : b.Y ≤ 1028) (hadj : Adjacent a b) :
    (distanceBetween a b : K) = stepCost a b := by
  rw [distanceBetween_near haX haY hbX hbY hadj.2, if_neg hadj.1]

/-- A set of cells of the grid has at most `M * N` members. -/
theorem card_le_grid {l : List Coordinate} {M N : ℕ}
    (h : ∀ c ∈ l, c.X < N ∧ c.Y < M) : l.toFinset.card ≤ M * N := by
  have h1 : l.toFinset.card ≤ (Finset.range N ×ˢ Finset.range M).card := by
    apply Finset.card_le_card_of_injOn (fun c => (c.X, c.Y))
    · intro c hc
      have hc1 := h c (List.mem_toFinset.1 hc)
      exact Finset.mem_product.2 ⟨Finset.mem_range.2 hc1.1, Finset.mem_range.2 hc1.2⟩
    · intro a _ b _ hab
      simp only [Prod.mk.injEq] at hab
      cases a; cases b
      simp_all
  rw [Finset.card_product, Finset.card_range, Finset.card_range] at h1
  rw [Nat.mul_comm]
  exact h1

/-! ### One neighbour of the current node -/

theorem relaxNeighbors_skip {s : PathFinder K} {dest start cur nb : Coordinate}
    {closedSet rest : List Coordinate} {m : List (List (Cell K))} {openSet : List Coordinate}
    (h : isTraversable s nb = false ∨ nb ∈ closedSet) :
    relaxNeighbors s dest start cur closedSet (nb :: rest) m openSet
      = relaxNeighbors s dest start cur closedSet rest m openSet := by
  rw [relaxNeighbors, if_pos]
  rcases h with h | h
  · exact Or.inl h
  · exact Or.inr (setContains_iff.2 h)

theorem relaxNeighbors_worse {s : PathFinder K} {dest start cur nb : Coordinate}
    {closedSet rest : List Coordinate} {m : List (List (Cell K))} {openSet : List Coordinate}
    {a b : Cell K} (ht : isTraversable s nb = true) (hc : nb ∉ closedSet)
    (ha : getCell m cur = some a) (hb : getCell m nb = some b)
    (hw : a.g_score + distanceBetween cur nb ≥ b.g_score) :
    relaxNeighbors s dest start cur closedSet (nb :: rest) m openSet
      = relaxNeighbors s dest start cur closedSet rest m openSet := by
  have hg : ¬ (isTraversable s nb = false ∨ setContains nb closedSet = true) := by
    rintro (h | h)
    · rw [ht] at h; cases h
    · exact hc (setContains_iff.1 h)
  rw [relaxNeighbors, if_neg hg, ha, hb]
  simp only
  rw [if_pos hw]

theorem relaxNeighbors_better {s : PathFinder K} {dest start cur nb : Coordinate}
    {closedSet rest : List Coordinate} {m m1 : List (List (Cell K))}
    {openSet : List Coordinate} {a b : Cell K} (ht : isTraversable s nb = true)
    (hc : nb ∉ closedSet) (ha : getCell m cur = some a) (hb : getCell m nb = some b)
    (hw : ¬ a.g_score + distanceBetween cur nb ≥ b.g_score)
    (hm : modifyCell m nb (fun cell =>
      { cell with
        Parent := cur
        g_score := a.g_score + distanceBetween cur nb
        f_cost := a.g_score + distanceBetween cur nb + heuristic s nb dest start })
      = some m1) :
    relaxNeighbors s dest start cur closedSet (nb :: rest) m openSet
      = relaxNeighbors s dest start cur closedSet rest m1
          (if nb ∈ openSet then openSet else setInsert nb openSet) := by
  have hg : ¬ (isTraversable s nb = false ∨ setContains nb closedSet = true) := by
    rintro (h | h)
    · rw [ht] at h; cases h
    · exact hc (setContains_iff.1 h)
  rw [relaxNeighbors, if_neg hg, ha, hb]
  simp only
  rw [if_neg hw, hm]
  simp only
  by_cases ho : nb ∈ openSet
  · rw [if_pos ho, if_pos (setContains_iff.2 ho)]
  · rw [if_neg ho, if_neg]
    exact fun h => ho (setContains_iff.1 h)

/-! ### The invariant while the neighbours are examined -/

theorem inv_closed_bounds {s : PathFinder K} {start dest cur : Coordinate}
    {m : List (List (Cell K))} {openSet closedSet todo : List Coordinate}
    (hR : 0 < s.m_robotRadius) (hS : 0 ≤ s.m_safetyMargin)
    (hinv : Inv s start dest m openSet closedSet cur todo) :
    ∀ c ∈ closedSet, c.X < s.N ∧ c.Y < s.M := by
  intro c hc
  obtain ⟨_, _, hsx, hsy⟩ := isTraversable_bounds hR hS hinv.start_trav
  rcases hinv.closed_trav c hc with h | h
  · subst h
    exact ⟨by show 0 < s.N; omega, by show 0 < s.M; omega⟩
  · obtain ⟨_, _, hx, hy⟩ := isTraversable_bounds hR hS h
    exact ⟨hx, hy⟩

/-- Twice the size of the closed set stays far below `DBL_MAX`. -/
theorem inv_card_bound {s : PathFinder K} {start dest cur : Coordinate}
    {m : List (List (Cell K))} {openSet closedSet todo : List Coordinate}
    (hR : 0 < s.m_robotRadius) (hS : 0 ≤ s.m_safetyMargin)
    (hM : s.M ≤ 1028) (hN : s.N ≤ 1028)
    (hinv : Inv s start dest m openSet closedSet cur todo) :
    2 * (closedSet.toFinset.card : K) ≤ 2113568 := by
  have h1 := card_le_grid (inv_closed_bounds hR hS hinv)
  have h2 : s.M * s.N ≤ 1028 * 1028 := Nat.mul_le_mul hM hN
  have h3 : closedSet.toFinset.card ≤ 1056784 := by omega
  have h4 : (closedSet.toFinset.card : K) ≤ 1056784 := by exact_mod_cast h3
  linarith

theorem inv_start_closed {s : PathFinder K} {start dest cur : Coordinate}
    {m : List (List (Cell K))} {openSet closedSet todo : List Coordinate}
    (hinv : Inv s start dest m openSet closedSet cur todo) (hcur : cur ∈ closedSet) :
    start ∈ closedSet := by
  rcases hinv.start_mem with h | ⟨_, h, _⟩
  · exact h
  · rw [h] at hcur
    cases hcur

/-- Dropping the head of `todo` once the edge to it is settled. -/
theorem inv_todo_tail {s : PathFinder K} {start dest cur nb : Coordinate}
    {m : List (List (Cell K))} {openSet closedSet rest : List Coordinate}
    (hinv : Inv s start dest m openSet closedSet cur (nb :: rest))
    (hnb : Adjacent cur nb → isTraversable s nb = true →
      (nb ∈ openSet ∨ nb ∈ closedSet) ∧
        (s.m_heuristicWeight = 0 ∨ cur = start →
          gOf m nb ≤ gOf m cur + distanceBetween cur nb)) :
    Inv s start dest m openSet closedSet cur rest :=
  { dims := hinv.dims
    open_trav := hinv.open_trav
    closed_trav := hinv.closed_trav
    dest_open := hinv.dest_open
    dest_trav := hinv.dest_trav
    start_trav := hinv.start_trav
    start_g := hinv.start_g
    start_mem := hinv.start_mem
    junk := hinv.junk
    parent := hinv.parent
    tracked := hinv.tracked
    gbound := hinv.gbound
    g_nonneg := hinv.g_nonneg
    fval := hinv.fval
    mono := hinv.mono
    edges := by
      intro c hc htc nb1 hadj htn
      rcases hinv.edges c hc htc nb1 hadj htn with ⟨h1, h2⟩ | h
      · rcases List.mem_cons.1 h2 with h3 | h3
        · subst h1; subst h3
          exact Or.inr (hnb hadj htn)
        · exact Or.inl ⟨h1, h3⟩
      · exact Or.inr h }

theorem inv_skip_closed {s : PathFinder K} {start dest cur nb : Coordinate}
    {m : List (List (Cell K))} {openSet closedSet rest : List Coordinate}
    (hinv : Inv s start dest m openSet closedSet cur (nb :: rest))
    (hctx : RelaxCtx s start m closedSet cur)
    (h : isTraversable s nb = false ∨ nb ∈ closedSet) :
    Inv s start dest m openSet closedSet cur rest := by
  apply inv_todo_tail hinv
  intro _ htn
  rcases h with h | h
  · rw [htn] at h; cases h
  · refine ⟨Or.inr h, fun hw => ?_⟩
    have h1 := hctx.cur_max hw nb h htn
    have h2 : (0 : K) ≤ distanceBetween cur nb := distanceBetween_nonneg cur nb
    linarith

theorem inv_skip_worse {s : PathFinder K} {start dest cur nb : Coordinate}
    {m : List (List (Cell K))} {openSet closedSet rest : List Coordinate}
    (hR : 0 < s.m_robotRadius) (hS : 0 ≤ s.m_safetyMargin)
    (hM : s.M ≤ 1028) (hN : s.N ≤ 1028)
    (hinv : Inv s start dest m openSet closedSet cur (nb :: rest))
    (hctx : RelaxCtx s start m closedSet cur)
    (hnear : cur.X ≤ nb.X + 1 ∧ nb.X ≤ cur.X + 1 ∧ cur.Y ≤ nb.Y + 1 ∧ nb.Y ≤ cur.Y + 1)
    (hw : gOf m cur + distanceBetween cur nb ≥ gOf m nb) :
    Inv s start dest m openSet closedSet cur rest := by
  apply inv_todo_tail hinv
  intro _ htn
  obtain ⟨_, _, hcx, hcy⟩ := isTraversable_bounds hR hS hctx.cur_trav
  obtain ⟨_, _, hnx, hny⟩ := isTraversable_bounds hR hS htn
  have hd : (distanceBetween cur nb : K) ≤ 2 :=
    distanceBetween_near_le (by omega) (by omega) (by omega) (by omega) hnear
  have hcard := inv_card_bound hR hS hM hN hinv
  have hbig : (4194304 : K) ≤ DBL_MAX := DBL_MAX_big
  have hg := hctx.cur_g
  refine ⟨hinv.tracked nb htn ?_, fun _ => hw⟩
  linarith

theorem mem_insert_unless {nb c : Coordinate} {openSet : List Coordinate} :
    c ∈ (if nb ∈ openSet then openSet else setInsert nb openSet) ↔ c ∈ openSet ∨ c = nb := by
  split
  · rename_i h
    constructor
    · exact fun h1 => Or.inl h1
    · rintro (h1 | rfl)
      · exact h1
      · exact h
  · rw [mem_setInsert]
    tauto

/-- The invariant after the cell `nb` has been given the parent `cur`, the g-cost `t`
and the f-cost `t + heuristic`, and been put into the open set. -/
theorem inv_update {s : PathFinder K} {start dest cur nb : Coordinate}
    {m m1 : List (List (Cell K))} {openSet closedSet rest : List Coordinate}
    (hR : 0 < s.m_robotRadius) (hS : 0 ≤ s.m_safetyMargin)
    (hM : s.M ≤ 1028) (hN : s.N ≤ 1028)
    (hinv : Inv s start dest m openSet closedSet cur (nb :: rest))
    (hctx : RelaxCtx s start m closedSet cur)
    (ht : isTraversable s nb = true) (hc : nb ∉ closedSet)
    (hnear : cur.X ≤ nb.X + 1 ∧ nb.X ≤ cur.X + 1 ∧ cur.Y ≤ nb.Y + 1 ∧ nb.Y ≤ cur.Y + 1)
    (hlt : gOf m cur + distanceBetween cur nb < gOf m nb)
    (hd1 : Dims m1 s.M s.N)
    (hg1 : gOf m1 nb = gOf m cur + distanceBetween cur nb)
    (hf1 : fOf m1 nb = gOf m cur + distanceBetween cur nb + heuristic s nb dest start)
    (hp1 : parentOf m1 nb = cur)
    (hother : ∀ d, d ≠ nb →
      gOf m1 d = gOf m d ∧ fOf m1 d = fOf m d ∧ parentOf m1 d = parentOf m d) :
    Inv s start dest m1 (if nb ∈ openSet then openSet else setInsert nb openSet)
        closedSet cur rest ∧
      RelaxCtx s start m1 closedSet cur := by
  have hstartC : start ∈ closedSet := inv_start_closed hinv hctx.cur_closed
  have hclosed_ne : ∀ c ∈ closedSet, c ≠ nb := fun c hcc h => hc (h ▸ hcc)
  have hcur_ne : cur ≠ nb := hclosed_ne cur hctx.cur_closed
  obtain ⟨hnb1, _, hnx, hny⟩ := isTraversable_bounds hR hS ht
  obtain ⟨_, _, hcx, hcy⟩ := isTraversable_bounds hR hS hctx.cur_trav
  have hdist2 : (distanceBetween cur nb : K) ≤ 2 :=
    distanceBetween_near_le (by omega) (by omega) (by omega) (by omega) hnear
  have hdist0 : (0 : K) ≤ distanceBetween cur nb := distanceBetween_nonneg cur nb
  have hgC : ∀ c ∈ closedSet, gOf m1 c = gOf m c := fun c hcc => (hother c (hclosed_ne c hcc)).1
  constructor
  · refine
      { dims := hd1
        open_trav := ?_
        closed_trav := hinv.closed_trav
        dest_open := hinv.dest_open
        dest_trav := hinv.dest_trav
        start_trav := hinv.start_trav
        start_g := ?_
        start_mem := Or.inl hstartC
        junk := ?_
        parent := ?_
        tracked := ?_
        gbound := ?_
        g_nonneg := ?_
        fval := ?_
        edges := ?_
        mono := ?_ }
    · intro c hco
      rcases mem_insert_unless.1 hco with h | h
      · exact hinv.open_trav c h
      · subst h
        exact ⟨ht, hc⟩
    · rw [hgC start hstartC]
      exact hinv.start_g
    · have hne : ({} : Coordinate) ≠ nb := by
        intro h
        rw [← h] at hnb1
        exact absurd hnb1 (by decide)
      rw [(hother {} hne).2.1]
      exact hinv.junk
    · intro c htc hmem hcs
      by_cases hcn : c = nb
      · subst hcn
        rw [hp1, hg1, (hother cur hcur_ne).1]
        exact ⟨hctx.cur_closed, hctx.cur_trav, ⟨hcur_ne, hnear⟩, rfl⟩
      · have hmem1 : c ∈ openSet ∨ c ∈ closedSet := by
          rcases hmem with h | h
          · rcases mem_insert_unless.1 h with h | h
            · exact Or.inl h
            · exact absurd h hcn
          · exact Or.inr h
        obtain ⟨hp, hpt, hpa, hpg⟩ := hinv.parent c htc hmem1 hcs
        rw [(hother c hcn).2.2, (hother c hcn).1, hgC _ hp]
        exact ⟨hp, hpt, hpa, hpg⟩
    · intro c htc hgc
      by_cases hcn : c = nb
      · exact Or.inl (mem_insert_unless.2 (Or.inr hcn))
      · rw [(hother c hcn).1] at hgc
        rcases hinv.tracked c htc hgc with h | h
        · exact Or.inl (mem_insert_unless.2 (Or.inl h))
        · exact Or.inr h
    · intro c htc hmem
      by_cases hcn : c = nb
      · subst hcn
        rw [hg1]
        have := hctx.cur_g
        linarith
      · rw [(hother c hcn).1]
        apply hinv.gbound c htc
        rcases hmem with h | h
        · rcases mem_insert_unless.1 h with h | h
          · exact Or.inl h
          · exact absurd h hcn
        · exact Or.inr h
    · intro c htc hmem
      by_cases hcn : c = nb
      · subst hcn
        rw [hg1]
        have := hinv.g_nonneg cur hctx.cur_trav (Or.inr hctx.cur_closed)
        linarith
      · rw [(hother c hcn).1]
        apply hinv.g_nonneg c htc
        rcases hmem with h | h
        · rcases mem_insert_unless.1 h with h | h
          · exact Or.inl h
          · exact absurd h hcn
        · exact Or.inr h
    · intro c hco hcs
      by_cases hcn : c = nb
      · subst hcn
        rw [hf1, hg1]
      · rw [(hother c hcn).2.1, (hother c hcn).1]
        rcases mem_insert_unless.1 hco with h | h
        · exact hinv.fval c h hcs
        · exact absurd h hcn
    · intro c hcc htc nb1 hadj htn
      rcases hinv.edges c hcc htc nb1 hadj htn with ⟨h1, h2⟩ | ⟨h1, h2⟩
      · rcases List.mem_cons.1 h2 with h3 | h3
        · subst h1; subst h3
          refine Or.inr ⟨Or.inl (mem_insert_unless.2 (Or.inr rfl)), fun _ => ?_⟩
          rw [hg1, (hother c hcur_ne).1]
        · exact Or.inl ⟨h1, h3⟩
      · refine Or.inr ⟨?_, fun hw => ?_⟩
        · rcases h1 with h | h
          · exact Or.inl (mem_insert_unless.2 (Or.inl h))
          · exact Or.inr h
        · rw [hgC c hcc]
          by_cases hn : nb1 = nb
          · subst hn
            rw [hg1]
            exact le_trans (le_of_lt hlt) (h2 hw)
          · rw [(hother nb1 hn).1]
            exact h2 hw
    · intro hw c hcc htc o ho
      rw [hgC c hcc]
      rcases mem_insert_unless.1 ho with h | h
      · by_cases hn : o = nb
        · subst hn
          rw [hg1]
          have := hctx.cur_max (Or.inl hw) c hcc htc
          linarith
        · rw [(hother o hn).1]
          exact hinv.mono hw c hcc htc o h
      · subst h
        rw [hg1]
        have := hctx.cur_max (Or.inl hw) c hcc htc
        linarith
  · refine
      { cur_closed := hctx.cur_closed
        cur_trav := hctx.cur_trav
        cur_g := ?_
        cur_max := ?_ }
    · rw [(hother cur hcur_ne).1]
      exact hctx.cur_g
    · intro hw c hcc htc
      rw [hgC c hcc, (hother cur hcur_ne).1]
      exact hctx.cur_max hw c hcc htc

/-- The loop over the neighbours keeps the invariant and never indexes out of range. -/
theorem relaxNeighbors_inv {s : PathFinder K} {start dest cur : Coordinate}
    {closedSet : List Coordinate}
    (hR : 0 < s.m_robotRadius) (hS : 0 ≤ s.m_safetyMargin)
    (hM : s.M ≤ 1028) (hN : s.N ≤ 1028) :
    ∀ (todo : List Coordinate) (m : List (List (Cell K))) (openSet : List Coordinate),
      Inv s start dest m openSet closedSet cur todo → RelaxCtx s start m closedSet cur →
      (∀ nb ∈ todo,
        cur.X ≤ nb.X + 1 ∧ nb.X ≤ cur.X + 1 ∧ cur.Y ≤ nb.Y + 1 ∧ nb.Y ≤ cur.Y + 1) →
      ∃ m1 open1, relaxNeighbors s dest start cur closedSet todo m openSet = some (m1, open1) ∧
        Inv s start dest m1 open1 closedSet cur [] ∧ RelaxCtx s start m1 closedSet cur := by
  intro todo
  induction todo with
  | nil =>
    intro m openSet hinv hctx _
    exact ⟨m, openSet, by rw [relaxNeighbors], hinv, hctx⟩
  | cons nb rest ih =>
    intro m openSet hinv hctx hnear
    have hnear1 := hnear nb (List.mem_cons_self _ _)
    have hnearR : ∀ nb1 ∈ rest, cur.X ≤ nb1.X + 1 ∧ nb1.X ≤ cur.X + 1 ∧
        cur.Y ≤ nb1.Y + 1 ∧ nb1.Y ≤ cur.Y + 1 :=
      fun nb1 h => hnear nb1 (List.mem_cons_of_mem _ h)
    by_cases hskip : isTraversable s nb = false ∨ nb ∈ closedSet
    · rw [relaxNeighbors_skip hskip]
      exact ih m openSet (inv_skip_closed hinv hctx hskip) hctx hnearR
    · push_neg at hskip
      obtain ⟨ht0, hc⟩ := hskip
      have ht : isTraversable s nb = true := by
        cases h : isTraversable s nb
        · exact absurd h ht0
        · rfl
      obtain ⟨_, _, hcx, hcy⟩ := isTraversable_bounds hR hS hctx.cur_trav
      obtain ⟨_, _, hnx, hny⟩ := isTraversable_bounds hR hS ht
      obtain ⟨a, ha⟩ := getCell_of_bounds hinv.dims hcy hcx
      obtain ⟨b, hb⟩ := getCell_of_bounds hinv.dims hny hnx
      have hga : gOf m cur = a.g_score := gOf_of_getCell ha
      have hgb : gOf m nb = b.g_score := gOf_of_getCell hb
      by_cases hw : a.g_score + distanceBetween cur nb ≥ b.g_score
      · rw [relaxNeighbors_worse ht hc ha hb hw]
        refine ih m openSet (inv_skip_worse hR hS hM hN hinv hctx hnear1 ?_) hctx hnearR
        rw [hga, hgb]
        exact hw
      · obtain ⟨m1, hm1⟩ := modifyCell_of_getCell (fun cell : Cell K =>
          { cell with
            Parent := cur
            g_score := a.g_score + distanceBetween cur nb
            f_cost := a.g_score + distanceBetween cur nb + heuristic s nb dest start }) hb
        rw [relaxNeighbors_better ht hc ha hb hw hm1]
        obtain ⟨b1, hb1, hb2⟩ := getCell_modifyCell_same hm1
        obtain ⟨hi1, hc1⟩ := inv_update hR hS hM hN hinv hctx ht hc hnear1
          (by rw [hga, hgb]; exact not_le.1 hw)
          (dims_modifyCell hm1 hinv.dims)
          (by rw [gOf_of_getCell hb2, hga])
          (by rw [fOf_of_getCell hb2, hga])
          (by rw [parentOf_of_getCell hb2])
          (fun d hd => ⟨gOf_modifyCell_other hm1 hd, fOf_modifyCell_other hm1 hd,
            parentOf_modifyCell_other hm1 hd⟩)
        exact ih m1 _ hi1 hc1 hnearR

theorem toFinset_setInsert (c : Coordinate) (l : List Coordinate) :
    (setInsert c l).toFinset = insert c l.toFinset := by
  ext d
  rw [List.mem_toFinset, mem_setInsert, Finset.mem_insert, List.mem_toFinset]

theorem card_setInsert_of_not_mem {c : Coordinate} {l : List Coordinate} (h : c ∉ l) :
    (setInsert c l).toFinset.card = l.toFinset.card + 1 := by
  rw [toFinset_setInsert, Finset.card_insert_of_not_mem]
  rw [List.mem_toFinset]
  exact h

theorem card_le_card_setInsert (c : Coordinate) (l : List Coordinate) :
    l.toFinset.card ≤ (setInsert c l).toFinset.card := by
  rw [toFinset_setInsert]
  exact Finset.card_le_card (Finset.subset_insert _ _)

/-- With weight 0 the f-cost of every member of the open set is its g-cost. -/
theorem inv_f_eq_g {s : PathFinder K} {start dest cur : Coordinate}
    {m : List (List (Cell K))} {openSet closedSet todo : List Coordinate}
    (hinv : Inv s start dest m openSet closedSet cur todo) (hw : s.m_heuristicWeight = 0) :
    ∀ o ∈ openSet, fOf m o = gOf m o := by
  intro o ho
  by_cases hos : o = start
  · subst hos
    rcases hinv.start_mem with h | ⟨_, _, h⟩
    · exact absurd h (hinv.open_trav o ho).2
    · rw [h, hinv.start_g]
  · rw [hinv.fval o ho hos]
    unfold heuristic
    rw [hw]
    ring

/-! ### The invariant from one pass of the loop to the next -/

theorem origin_not_traversable {s : PathFinder K} (hR : 0 < s.m_robotRadius)
    (hS : 0 ≤ s.m_safetyMargin) {c : Coordinate} (ht : isTraversable s c = true) :
    c ≠ {} := by
  intro h
  obtain ⟨h1, _⟩ := isTraversable_bounds hR hS ht
  rw [h] at h1
  exact absurd h1 (by decide)

/-- Moving the selected node from the open set to the closed set. -/
theorem inv_move {s : PathFinder K} {start dest cur cur0 : Coordinate}
    {m : List (List (Cell K))} {openSet closedSet : List Coordinate}
    (hinv : Inv s start dest m openSet closedSet cur0 []) (hcur : cur ∈ openSet)
    (hnd : cur ≠ dest) (nbs : List Coordinate) (hnbs : ∀ d, Adjacent cur d → d ∈ nbs)
    (hmin : ∀ o ∈ openSet, fOf m cur ≤ fOf m o) :
    Inv s start dest m (setErase cur openSet) (setInsert cur closedSet) cur nbs ∧
      RelaxCtx s start m (setInsert cur closedSet) cur := by
  obtain ⟨hct, hcn⟩ := hinv.open_trav cur hcur
  have hcard := card_setInsert_of_not_mem hcn
  have hcardK : ((setInsert cur closedSet).toFinset.card : K)
      = (closedSet.toFinset.card : K) + 1 := by
    rw [hcard]
    push_cast
    rfl
  have hsub : ∀ c, c ∈ openSet ∨ c ∈ closedSet →
      c ∈ setErase cur openSet ∨ c ∈ setInsert cur closedSet := by
    intro c h
    by_cases hcc : c = cur
    · exact Or.inr (mem_setInsert.2 (Or.inl hcc))
    · rcases h with h | h
      · exact Or.inl (mem_setErase.2 ⟨h, hcc⟩)
      · exact Or.inr (mem_setInsert.2 (Or.inr h))
  have hsup : ∀ c, c ∈ setErase cur openSet ∨ c ∈ setInsert cur closedSet →
      c ∈ openSet ∨ c ∈ closedSet := by
    intro c h
    rcases h with h | h
    · exact Or.inl (mem_setErase.1 h).1
    · rcases mem_setInsert.1 h with h | h
      · exact Or.inl (h ▸ hcur)
      · exact Or.inr h
  constructor
  · refine
      { dims := hinv.dims
        open_trav := ?_
        closed_trav := ?_
        dest_open := ?_
        dest_trav := hinv.dest_trav
        start_trav := hinv.start_trav
        start_g := hinv.start_g
        start_mem := ?_
        junk := hinv.junk
        parent := ?_
        tracked := ?_
        gbound := ?_
        g_nonneg := fun c htc hmem => hinv.g_nonneg c htc (hsup c hmem)
        fval := ?_
        edges := ?_
        mono := ?_ }
    · intro c hc
      obtain ⟨h1, h2⟩ := mem_setErase.1 hc
      refine ⟨(hinv.open_trav c h1).1, ?_⟩
      intro h3
      rcases mem_setInsert.1 h3 with h | h
      · exact h2 h
      · exact (hinv.open_trav c h1).2 h
    · intro c hc
      rcases mem_setInsert.1 hc with h | h
      · exact Or.inr (h ▸ hct)
      · exact hinv.closed_trav c h
    · intro h
      rcases mem_setInsert.1 h with h | h
      · exact hnd h.symm
      · exact hinv.dest_open h
    · rcases hinv.start_mem with h | ⟨h, _, _⟩
      · exact Or.inl (mem_setInsert.2 (Or.inr h))
      · rw [h, List.mem_singleton] at hcur
        exact Or.inl (mem_setInsert.2 (Or.inl hcur.symm))
    · intro c htc hmem hcs
      obtain ⟨h1, h2, h3, h4⟩ := hinv.parent c htc (hsup c hmem) hcs
      exact ⟨mem_setInsert.2 (Or.inr h1), h2, h3, h4⟩
    · intro c htc hg
      exact hsub c (hinv.tracked c htc hg)
    · intro c htc hmem
      have := hinv.gbound c htc (hsup c hmem)
      rw [hcardK]
      linarith
    · intro c hc hcs
      exact hinv.fval c (mem_setErase.1 hc).1 hcs
    · intro c hc htc nb hadj htn
      rcases mem_setInsert.1 hc with h | h
      · subst h
        exact Or.inl ⟨rfl, hnbs nb hadj⟩
      · rcases hinv.edges c h htc nb hadj htn with ⟨_, h2⟩ | ⟨h1, h2⟩
        · cases h2
        · exact Or.inr ⟨hsub nb h1, h2⟩
    · intro hw c hc htc o ho
      obtain ⟨ho1, _⟩ := mem_setErase.1 ho
      rcases mem_setInsert.1 hc with h | h
      · subst h
        rw [← inv_f_eq_g hinv hw c hcur, ← inv_f_eq_g hinv hw o ho1]
        exact hmin o ho1
      · exact hinv.mono hw c h htc o ho1
  · refine
      { cur_closed := mem_setInsert.2 (Or.inl rfl)
        cur_trav := hct
        cur_g := ?_
        cur_max := ?_ }
    · have := hinv.gbound cur hct (Or.inl hcur)
      rw [hcardK]
      linarith
    · intro hw c hc htc
      rcases mem_setInsert.1 hc with h | h
      · rw [h]
      · rcases hw with hw | hw
        · exact hinv.mono hw c h htc cur hcur
        · rcases hinv.start_mem with h1 | ⟨_, h1, _⟩
          · exact absurd (hw ▸ h1) hcn
          · rw [h1] at h
            cases h

/-- A pass in which no member of the open set has an f-cost below `DBL_MAX`: the
default coordinate (0,0) goes into the closed set and nothing else changes. -/
theorem inv_stuck {s : PathFinder K} {start dest cur0 : Coordinate}
    {m : List (List (Cell K))} {openSet closedSet : List Coordinate}
    (hR : 0 < s.m_robotRadius) (hS : 0 ≤ s.m_safetyMargin)
    (hinv : Inv s start dest m openSet closedSet cur0 [])
    (hstuck : ∀ o ∈ openSet, DBL_MAX ≤ fOf m o) :
    Inv s start dest m openSet (setInsert {} closedSet) {} [] := by
  have hne : ∀ c, isTraversable s c = true → c ∉ closedSet → c ∉ setInsert {} closedSet := by
    intro c htc hc h
    rcases mem_setInsert.1 h with h | h
    · exact origin_not_traversable hR hS htc h
    · exact hc h
  have hsup : ∀ c, isTraversable s c = true → c ∈ setInsert {} closedSet → c ∈ closedSet := by
    intro c htc h
    by_contra hc
    exact hne c htc hc h
  have hcardK : (closedSet.toFinset.card : K) ≤ ((setInsert {} closedSet).toFinset.card : K) := by
    exact_mod_cast card_le_card_setInsert {} closedSet
  refine
    { dims := hinv.dims
      open_trav := fun c hc => ⟨(hinv.open_trav c hc).1,
        hne c (hinv.open_trav c hc).1 (hinv.open_trav c hc).2⟩
      closed_trav := ?_
      dest_open := hne dest hinv.dest_trav hinv.dest_open
      dest_trav := hinv.dest_trav
      start_trav := hinv.start_trav
      start_g := hinv.start_g
      start_mem := ?_
      junk := hinv.junk
      parent := ?_
      tracked := ?_
      gbound := ?_
      g_nonneg := ?_
      fval := hinv.fval
      edges := ?_
      mono := ?_ }
  · intro c hc
    rcases mem_setInsert.1 hc with h | h
    · exact Or.inl h
    · exact hinv.closed_trav c h
  · rcases hinv.start_mem with h | ⟨h, _, h3⟩
    · exact Or.inl (mem_setInsert.2 (Or.inr h))
    · have h4 := hstuck start (by rw [h]; exact List.mem_singleton.2 rfl)
      rw [h3] at h4
      exact absurd h4 (not_le.2 DBL_MAX_pos)
  · intro c htc hmem hcs
    have hmem1 : c ∈ openSet ∨ c ∈ closedSet := by
      rcases hmem with h | h
      · exact Or.inl h
      · exact Or.inr (hsup c htc h)
    obtain ⟨h1, h2, h3, h4⟩ := hinv.parent c htc hmem1 hcs
    exact ⟨mem_setInsert.2 (Or.inr h1), h2, h3, h4⟩
  · intro c htc hg
    rcases hinv.tracked c htc hg with h | h
    · exact Or.inl h
    · exact Or.inr (mem_setInsert.2 (Or.inr h))
  · intro c htc hmem
    have hmem1 : c ∈ openSet ∨ c ∈ closedSet := by
      rcases hmem with h | h
      · exact Or.inl h
      · exact Or.inr (hsup c htc h)
    have := hinv.gbound c htc hmem1
    linarith
  · intro c htc hmem
    apply hinv.g_nonneg c htc
    rcases hmem with h | h
    · exact Or.inl h
    · exact Or.inr (hsup c htc h)
  · intro c hc htc nb hadj htn
    rcases hinv.edges c (hsup c htc hc) htc nb hadj htn with ⟨_, h2⟩ | ⟨h1, h2⟩
    · cases h2
    · refine Or.inr ⟨?_, h2⟩
      rcases h1 with h | h
      · exact Or.inl h
      · exact Or.inr (mem_setInsert.2 (Or.inr h))
  · intro hw c hc htc o ho
    exact hinv.mono hw c (hsup c htc hc) htc o ho

/-- The invariant depends on the planner only through its configuration, not its grid. -/
theorem inv_with_map {s : PathFinder K} {start dest cur : Coordinate}
    {m : List (List (Cell K))} {openSet closedSet todo : List Coordinate}
    (m1 : List (List (Cell K)))
    (hinv : Inv s start dest m openSet closedSet cur todo) :
    Inv { s with m_map := m1 } start dest m openSet closedSet cur todo :=
  { dims := hinv.dims
    open_trav := hinv.open_trav
    closed_trav := hinv.closed_trav
    dest_open := hinv.dest_open
    dest_trav := hinv.dest_trav
    start_trav := hinv.start_trav
    start_g := hinv.start_g
    start_mem := hinv.start_mem
    junk := hinv.junk
    parent := hinv.parent
    tracked := hinv.tracked
    gbound := hinv.gbound
    g_nonneg := hinv.g_nonneg
    fval := hinv.fval
    edges := hinv.edges
    mono := hinv.mono }

theorem inv_without_map {s : PathFinder K} {start dest cur : Coordinate}
    {m : List (List (Cell K))} {openSet closedSet todo : List Coordinate}
    (m1 : List (List (Cell K)))
    (hinv : Inv { s with m_map := m1 } start dest m openSet closedSet cur todo) :
    Inv s start dest m openSet closedSet cur todo :=
  { dims := hinv.dims
    open_trav := hinv.open_trav
    closed_trav := hinv.closed_trav
    dest_open := hinv.dest_open
    dest_trav := hinv.dest_trav
    start_trav := hinv.start_trav
    start_g := hinv.start_g
    start_mem := hinv.start_mem
    junk := hinv.junk
    parent := hinv.parent
    tracked := hinv.tracked
    gbound := hinv.gbound
    g_nonneg := hinv.g_nonneg
    fval := hinv.fval
    edges := hinv.edges
    mono := hinv.mono }

/-- One pass of the loop under the invariant: it returns FAIL_NO_PATH on an empty open
set, or hands the destination to `constructPath`, or goes on with the invariant kept;
in the last case the node closed is a member of the open set, or it is the default (0,0)
because no member of the open set has an f-cost below `DBL_MAX`. -/
theorem findPathBody_cases {s : PathFinder K} {start dest cur0 : Coordinate}
    {openSet closedSet : List Coordinate}
    (hR : 0 < s.m_robotRadius) (hS : 0 ≤ s.m_safetyMargin)
    (hM : s.M ≤ 1028) (hN : s.N ≤ 1028) (pathFuel : ℕ) (bestPath : List Coordinate)
    (hinv : Inv s start dest s.m_map openSet closedSet cur0 []) :
    (openSet = [] ∧ findPathBody pathFuel dest start bestPath s openSet closedSet
        = LoopStep.finished (Outcome.done (RetVal.FAIL_NO_PATH, s, bestPath))) ∨
    (dest ∈ openSet ∧ fOf s.m_map dest < DBL_MAX ∧
      (∀ o ∈ openSet, fOf s.m_map dest ≤ fOf s.m_map o) ∧
      findPathBody pathFuel dest start bestPath s openSet closedSet
        = LoopStep.finished (constructPath pathFuel s dest start bestPath)) ∨
    (∃ cur m1 open1,
      findPathBody pathFuel dest start bestPath s openSet closedSet
        = LoopStep.next { s with m_map := m1 } open1 (setInsert cur closedSet) ∧
      Inv s start dest m1 open1 (setInsert cur closedSet) cur [] ∧
      ((cur ∈ openSet ∧ cur ≠ dest ∧ fOf s.m_map cur < DBL_MAX) ∨
        (cur = {} ∧ openSet ≠ [] ∧ (∀ o ∈ openSet, DBL_MAX ≤ fOf s.m_map o) ∧
          m1 = s.m_map ∧ open1 = openSet))) := by
  obtain ⟨_, _, hsx, hsy⟩ := isTraversable_bounds hR hS hinv.start_trav
  have hopen_cell : ∀ o ∈ openSet, ∃ cell, getCell s.m_map o = some cell := by
    intro o ho
    obtain ⟨_, _, hx, hy⟩ := isTraversable_bounds hR hS (hinv.open_trav o ho).1
    exact getCell_of_bounds hinv.dims hy hx
  have horigin : ∃ cell, getCell s.m_map ({} : Coordinate) = some cell :=
    getCell_of_bounds (c := {}) hinv.dims (by show 0 < s.M; omega) (by show 0 < s.N; omega)
  obtain ⟨cur, hsel⟩ := selectCurrent_some s.m_map openSet {} hopen_cell horigin
  obtain ⟨hmem, hmin⟩ := selectCurrent_spec s.m_map openSet {} cur hsel
  have hlt : cur ∈ openSet → fOf s.m_map cur < DBL_MAX := by
    intro hcur
    rcases hmem with h | h
    · exact absurd h (origin_not_traversable hR hS (hinv.open_trav cur hcur).1)
    · rw [← hinv.junk]
      exact h.2
  by_cases hempty : openSet = []
  · left
    refine ⟨hempty, ?_⟩
    unfold findPathBody
    rw [hsel]
    simp only
    rw [if_pos (by rw [hempty]; rfl)]
  · have hne : ¬ openSet.isEmpty = true := by
      rw [List.isEmpty_iff]
      exact hempty
    by_cases hcur : cur ∈ openSet
    · by_cases hcd : cur = dest
      · right; left
        subst hcd
        refine ⟨hcur, hlt hcur, hmin, ?_⟩
        unfold findPathBody
        rw [hsel]
        simp only
        rw [if_neg hne, if_pos (Coordinate.eq_iff.2 rfl)]
      · right; right
        obtain ⟨hct, _⟩ := hinv.open_trav cur hcur
        obtain ⟨hx1, hy1, hxN, hyM⟩ := isTraversable_bounds hR hS hct
        obtain ⟨nbs, hnbs, hnbs_mem⟩ := getNeighbors_spec (c := cur) hx1 (by omega) hy1 (by omega)
        obtain ⟨hinv1, hctx1⟩ := inv_move hinv hcur hcd nbs
          (fun d hd => (hnbs_mem d).2 hd.2) hmin
        obtain ⟨m1, open1, hrel, hinv2, _⟩ := relaxNeighbors_inv hR hS hM hN nbs s.m_map
          (setErase cur openSet) hinv1 hctx1 (fun nb hnb => (hnbs_mem nb).1 hnb)
        refine ⟨cur, m1, open1, ?_, hinv2, Or.inl ⟨hcur, hcd, hlt hcur⟩⟩
        unfold findPathBody
        rw [hsel]
        simp only
        rw [if_neg hne, if_neg (by rw [Coordinate.eq_iff]; exact hcd), hnbs]
        simp only
        rw [hrel]
    · right; right
      have hc0 : cur = {} := by
        rcases hmem with h | h
        · exact h
        · exact absurd h.1 hcur
      subst hc0
      have hstuck : ∀ o ∈ openSet, DBL_MAX ≤ fOf s.m_map o := by
        intro o ho
        rw [← hinv.junk]
        exact hmin o ho
      have hnd : ¬ (({} : Coordinate).eq dest = true) := by
        rw [Coordinate.eq_iff]
        exact fun h => origin_not_traversable hR hS hinv.dest_trav h.symm
      refine ⟨{}, s.m_map, openSet, ?_, inv_stuck hR hS hinv hstuck,
        Or.inr ⟨rfl, hempty, hstuck, rfl, rfl⟩⟩
      unfold findPathBody
      rw [hsel]
      simp only
      rw [if_neg hne, if_neg hnd, getNeighbors_origin]
      simp only
      rw [relaxNeighbors, setErase_of_not_mem hcur]

/-! ### Walking the parents -/

/-- One step of the loop of `constructPath` at a cell of the grid other than `start`. -/
theorem walkParents_step {start c : Coordinate} {m : List (List (Cell K))} {M N : ℕ}
    (fuel : ℕ) (path : List Coordinate) (hd : Dims m M N) (hx : c.X < N) (hy : c.Y < M)
    (hne : c ≠ start) :
    ∃ m1, walkParents start (fuel + 1) c m path
        = walkParents start fuel (parentOf m c) m1 (path ++ [c]) ∧
      Dims m1 M N ∧ ∀ d, parentOf m1 d = parentOf m d := by
  obtain ⟨cell, hcell⟩ := getCell_of_bounds hd hy hx
  obtain ⟨m1, hm1⟩ := modifyCell_of_getCell
    (fun cell : Cell K => { cell with Val := CELL_BEST_PATH_CODE }) hcell
  obtain ⟨cell0, h0, h1⟩ := getCell_modifyCell_same hm1
  rw [hcell] at h0
  cases h0
  refine ⟨m1, ?_, dims_modifyCell hm1 hd, fun d =>
    (search_data_modifyCell hm1 (fun _ => ⟨rfl, rfl, rfl⟩) d).2.2⟩
  rw [walkParents, if_pos (Coordinate.ne_iff.2 hne), hm1]
  simp only
  rw [h1]
  simp only
  rw [parentOf_of_getCell hcell]

theorem walkParents_stop (start : Coordinate) (m : List (List (Cell K))) (fuel : ℕ)
    (path : List Coordinate) :
    walkParents start (fuel + 1) start m path = Outcome.done (m, path) := by
  rw [walkParents, if_neg]
  rw [Coordinate.ne_iff]
  exact fun h => h rfl

/-- What the invariant says about a tracked, traversable cell other than `start`. -/
theorem inv_parent_lt {s : PathFinder K} {start dest cur : Coordinate}
    {m : List (List (Cell K))} {openSet closedSet todo : List Coordinate}
    (hR : 0 < s.m_robotRadius) (hS : 0 ≤ s.m_safetyMargin)
    (hM : s.M ≤ 1028) (hN : s.N ≤ 1028)
    (hinv : Inv s start dest m openSet closedSet cur todo) {c : Coordinate}
    (htc : isTraversable s c = true) (hmem : c ∈ openSet ∨ c ∈ closedSet) (hcs : c ≠ start) :
    gOf m (parentOf m c) < gOf m c := by
  obtain ⟨_, hpt, hadj, hg⟩ := hinv.parent c htc hmem hcs
  obtain ⟨_, _, hx, hy⟩ := isTraversable_bounds hR hS htc
  obtain ⟨_, _, hpx, hpy⟩ := isTraversable_bounds hR hS hpt
  have hd : (distanceBetween (parentOf m c) c : K) = stepCost (parentOf m c) c :=
    distanceBetween_adjacent (by omega) (by omega) (by omega) (by omega) hadj
  have hpos : (0 : K) < stepCost (parentOf m c) c := stepCost_pos _ _
  rw [hg, hd]
  linarith

/-- If the walk from a tracked cell returns, it has collected the chain of parents. -/
theorem walkParents_chain {s : PathFinder K} {start dest cur : Coordinate}
    {m : List (List (Cell K))} {openSet closedSet todo : List Coordinate}
    (hR : 0 < s.m_robotRadius) (hS : 0 ≤ s.m_safetyMargin)
    (hinv : Inv s start dest m openSet closedSet cur todo) :
    ∀ (fuel : ℕ) (c : Coordinate) (m1 : List (List (Cell K))) (path : List Coordinate)
      (m2 : List (List (Cell K))) (p2 : List Coordinate),
      isTraversable s c = true → (c ∈ openSet ∨ c ∈ closedSet) →
      Dims m1 s.M s.N → (∀ d, parentOf m1 d = parentOf m d) →
      walkParents start fuel c m1 path = Outcome.done (m2, p2) →
      ∃ l, p2 = path ++ l ∧ ChainTo s m start c l ∧ Dims m2 s.M s.N := by
  intro fuel
  induction fuel with
  | zero =>
    intro c m1 path m2 p2 _ _ _ _ h
    rw [walkParents] at h
    cases h
  | succ fuel ih =>
    intro c m1 path m2 p2 htc hmem hd hpar h
    by_cases hcs : c = start
    · subst hcs
      rw [walkParents_stop] at h
      cases h
      exact ⟨[], by simp, ChainTo.base, hd⟩
    · obtain ⟨_, _, hx, hy⟩ := isTraversable_bounds hR hS htc
      obtain ⟨m3, hstep, hd3, hpar3⟩ := walkParents_step fuel path hd hx hy hcs
      rw [hstep, hpar c] at h
      obtain ⟨hp, hpt, hadj, hg⟩ := hinv.parent c htc hmem hcs
      obtain ⟨l, hl, hchain, hd2⟩ := ih (parentOf m c) m3 (path ++ [c]) m2 p2 hpt (Or.inr hp)
        hd3 (fun d => by rw [hpar3 d, hpar d]) h
      exact ⟨c :: l, by rw [hl]; simp, ChainTo.step hcs htc hadj hg hchain, hd2⟩

/-- With fuel above the number of closed cells of smaller g-cost the walk returns. -/
theorem walkParents_total {s : PathFinder K} {start dest cur : Coordinate}
    {m : List (List (Cell K))} {openSet closedSet todo : List Coordinate}
    (hR : 0 < s.m_robotRadius) (hS : 0 ≤ s.m_safetyMargin)
    (hM : s.M ≤ 1028) (hN : s.N ≤ 1028)
    (hinv : Inv s start dest m openSet closedSet cur todo) :
    ∀ (fuel : ℕ) (c : Coordinate) (m1 : List (List (Cell K))) (path : List Coordinate),
      isTraversable s c = true → (c ∈ openSet ∨ c ∈ closedSet) →
      Dims m1 s.M s.N → (∀ d, parentOf m1 d = parentOf m d) →
      (closedSet.toFinset.filter (fun d => gOf m d < gOf m c)).card < fuel →
      ∃ m2 p2, walkParents start fuel c m1 path = Outcome.done (m2, p2) := by
  intro fuel
  induction fuel with
  | zero =>
    intro c m1 path _ _ _ _ h
    exact absurd h (Nat.not_lt_zero _)
  | succ fuel ih =>
    intro c m1 path htc hmem hd hpar hrank
    by_cases hcs : c = start
    · subst hcs
      exact ⟨m1, path, walkParents_stop _ _ _ _⟩
    · obtain ⟨_, _, hx, hy⟩ := isTraversable_bounds hR hS htc
      obtain ⟨m3, hstep, hd3, hpar3⟩ := walkParents_step fuel path hd hx hy hcs
      rw [hstep, hpar c]
      obtain ⟨hp, hpt, _, _⟩ := hinv.parent c htc hmem hcs
      have hlt := inv_parent_lt hR hS hM hN hinv htc hmem hcs
      apply ih (parentOf m c) m3 (path ++ [c]) hpt (Or.inr hp) hd3
        (fun d => by rw [hpar3 d, hpar d])
      have hss : closedSet.toFinset.filter (fun d => gOf m d < gOf m (parentOf m c))
          ⊂ closedSet.toFinset.filter (fun d => gOf m d < gOf m c) := by
        rw [Finset.ssubset_iff_of_subset]
        · refine ⟨parentOf m c, ?_, ?_⟩
          · rw [Finset.mem_filter, List.mem_toFinset]
            exact ⟨hp, hlt⟩
          · rw [Finset.mem_filter]
            exact fun h => lt_irrefl _ h.2
        · intro d hdm
          rw [Finset.mem_filter] at hdm ⊢
          exact ⟨hdm.1, lt_trans hdm.2 hlt⟩
      have := Finset.card_lt_card hss
      omega

/-! ### The path that is returned -/

theorem pathLength_append_singleton (c p : Coordinate) :
    ∀ q : List Coordinate, q.getLast? = some p →
      (pathLength (q ++ [c]) : K) = pathLength q + stepCost p c
  | [], h => by cases h
  | [a], h => by
    simp only [List.getLast?_singleton, Option.some.injEq] at h
    subst h
    simp [pathLength]
  | a :: b :: rest, h => by
    have h1 : (b :: rest).getLast? = some p := by
      rw [List.getLast?_cons_cons] at h
      exact h
    have ih : (pathLength ((b :: rest) ++ [c]) : K) = pathLength (b :: rest) + stepCost p c :=
      pathLength_append_singleton c p (b :: rest) h1
    simp only [List.cons_append] at ih ⊢
    rw [pathLength, pathLength, ih]
    ring

/-- The chain of parents from `c`, reversed behind `start`, is a path of traversable,
8-adjacent cells from `start` to `c` whose length is the g-cost of `c`. -/
theorem chain_path {s : PathFinder K} {m : List (List (Cell K))} {start : Coordinate}
    (hR : 0 < s.m_robotRadius) (hS : 0 ≤ s.m_safetyMargin)
    (hM : s.M ≤ 1028) (hN : s.N ≤ 1028)
    (hst : isTraversable s start = true) {c : Coordinate} {l : List Coordinate}
    (h : ChainTo s m start c l) :
    isTraversable s c = true ∧ (∀ x ∈ l, isTraversable s x = true) ∧
      (start :: l.reverse).getLast? = some c ∧ List.Chain' Adjacent (start :: l.reverse) ∧
      gOf m c = gOf m start + pathLength (start :: l.reverse) := by
  induction h with
  | base =>
    refine ⟨hst, fun x hx => (by cases hx), rfl, List.chain'_singleton _, ?_⟩
    simp [pathLength]
  | @step c l hcs htc hadj hg _ ih =>
    obtain ⟨hpt, hall, hlast, hchain, hlen⟩ := ih
    have heq : start :: (c :: l).reverse = (start :: l.reverse) ++ [c] := by simp
    obtain ⟨_, _, hx, hy⟩ := isTraversable_bounds hR hS htc
    obtain ⟨_, _, hpx, hpy⟩ := isTraversable_bounds hR hS hpt
    have hd : (distanceBetween (parentOf m c) c : K) = stepCost (parentOf m c) c :=
      distanceBetween_adjacent (by omega) (by omega) (by omega) (by omega) hadj
    refine ⟨htc, ?_, ?_, ?_, ?_⟩
    · intro x hx1
      rcases List.mem_cons.1 hx1 with h | h
      · rw [h]; exact htc
      · exact hall x h
    · rw [heq, List.getLast?_append]
      rfl
    · rw [heq]
      apply List.Chain'.append hchain (List.chain'_singleton c)
      intro x hx1 y hy1
      rw [hlast] at hx1
      simp only [Option.mem_def, Option.some.injEq, List.head?_cons] at hx1 hy1
      subst hx1; subst hy1
      exact hadj
    · rw [heq, pathLength_append_singleton c _ _ hlast, hg, hlen, hd]
      ring

/-- A chain of parents gives a valid path, in the order `constructPath` returns it. -/
theorem chain_validPath {s : PathFinder K} {m : List (List (Cell K))} {start : Coordinate}
    (hR : 0 < s.m_robotRadius) (hS : 0 ≤ s.m_safetyMargin)
    (hM : s.M ≤ 1028) (hN : s.N ≤ 1028)
    (hst : isTraversable s start = true) {c : Coordinate} {l : List Coordinate}
    (h : ChainTo s m start c l) :
    ValidPath s start c (([] ++ l) ++ [start]).reverse := by
  obtain ⟨_, hall, hlast, hchain, _⟩ := chain_path hR hS hM hN hst h
  have heq : (([] ++ l) ++ [start]).reverse = start :: l.reverse := by simp
  rw [heq]
  refine ⟨rfl, hlast, ?_, hchain⟩
  intro x hx
  rcases List.mem_cons.1 hx with h1 | h1
  · rw [h1]; exact hst
  · exact hall x (List.mem_reverse.1 h1)

/-- The potential used for optimality: the g-cost of a closed cell, and the g-cost of
the destination for every other cell. -/
theorem potential_edge {s : PathFinder K} {start dest cur : Coordinate}
    {m : List (List (Cell K))} {openSet closedSet : List Coordinate}
    (hR : 0 < s.m_robotRadius) (hS : 0 ≤ s.m_safetyMargin)
    (hM : s.M ≤ 1028) (hN : s.N ≤ 1028)
    (hinv : Inv s start dest m openSet closedSet cur [])
    (hw : s.m_heuristicWeight = 0) (hdest : dest ∈ openSet)
    (hmin : ∀ o ∈ openSet, fOf m dest ≤ fOf m o) (a b : Coordinate)
    (hta : isTraversable s a = true) (htb : isTraversable s b = true) (hadj : Adjacent a b) :
    (if b ∈ closedSet then gOf m b else gOf m dest)
      ≤ (if a ∈ closedSet then gOf m a else gOf m dest) + stepCost a b := by
  have hpos : (0 : K) < stepCost a b := stepCost_pos a b
  have hgmin : ∀ o ∈ openSet, gOf m dest ≤ gOf m o := by
    intro o ho
    rw [← inv_f_eq_g hinv hw dest hdest, ← inv_f_eq_g hinv hw o ho]
    exact hmin o ho
  have hclosed_le : ∀ c ∈ closedSet, isTraversable s c = true → gOf m c ≤ gOf m dest :=
    fun c hc htc => hinv.mono hw c hc htc dest hdest
  obtain ⟨_, _, hax, hay⟩ := isTraversable_bounds hR hS hta
  obtain ⟨_, _, hbx, hby⟩ := isTraversable_bounds hR hS htb
  have hd : (distanceBetween a b : K) = stepCost a b :=
    distanceBetween_adjacent (by omega) (by omega) (by omega) (by omega) hadj
  by_cases ha : a ∈ closedSet
  · rw [if_pos ha]
    rcases hinv.edges a ha hta b hadj htb with ⟨_, h2⟩ | ⟨h1, h2⟩
    · cases h2
    · have h3 := h2 (Or.inl hw)
      rw [hd] at h3
      by_cases hb : b ∈ closedSet
      · rw [if_pos hb]
        exact h3
      · rw [if_neg hb]
        rcases h1 with h1 | h1
        · exact le_trans (hgmin b h1) h3
        · exact absurd h1 hb
  · rw [if_neg ha]
    by_cases hb : b ∈ closedSet
    · rw [if_pos hb]
      have := hclosed_le b hb htb
      linarith
    · rw [if_neg hb]
      linarith

theorem potential_path {s : PathFinder K} (pot : Coordinate → K)
    (hedge : ∀ a b, isTraversable s a = true → isTraversable s b = true → Adjacent a b →
      pot b ≤ pot a + stepCost a b) :
    ∀ (q : List Coordinate) (a b : Coordinate), q.head? = some a → q.getLast? = some b →
      (∀ c ∈ q, isTraversable s c = true) → List.Chain' Adjacent q →
      pot b ≤ pot a + pathLength q
  | [], _, _, h, _, _, _ => by cases h
  | [x], a, b, h1, h2, _, _ => by
    simp only [List.head?_cons, Option.some.injEq] at h1
    simp only [List.getLast?_singleton, Option.some.injEq] at h2
    subst h1; subst h2
    simp [pathLength]
  | x :: y :: rest, a, b, h1, h2, ht, hc => by
    simp only [List.head?_cons, Option.some.injEq] at h1
    subst h1
    rw [List.getLast?_cons_cons] at h2
    rw [List.chain'_cons] at hc
    have ih := potential_path pot hedge (y :: rest) y b rfl h2
      (fun c hcm => ht c (List.mem_cons_of_mem _ hcm)) hc.2
    have he := hedge x y (ht x (List.mem_cons_self _ _))
      (ht y (List.mem_cons_of_mem _ (List.mem_cons_self _ _))) hc.1
    rw [pathLength]
    linarith

/-- With weight 0, when the destination is selected its g-cost is at most the length of
every path from `start` to it. -/
theorem inv_optimal {s : PathFinder K} {start dest cur : Coordinate}
    {m : List (List (Cell K))} {openSet closedSet : List Coordinate}
    (hR : 0 < s.m_robotRadius) (hS : 0 ≤ s.m_safetyMargin)
    (hM : s.M ≤ 1028) (hN : s.N ≤ 1028)
    (hinv : Inv s start dest m openSet closedSet cur [])
    (hw : s.m_heuristicWeight = 0) (hdest : dest ∈ openSet)
    (hmin : ∀ o ∈ openSet, fOf m dest ≤ fOf m o) (q : List Coordinate)
    (hq : ValidPath s start dest q) : gOf m dest ≤ pathLength q := by
  obtain ⟨hhead, hlast, htrav, hchain⟩ := hq
  have h := potential_path (s := s)
    (fun c => if c ∈ closedSet then gOf m c else gOf m dest)
    (potential_edge hR hS hM hN hinv hw hdest hmin) q start dest hhead hlast htrav hchain
  simp only at h
  rw [if_neg (hinv.open_trav dest hdest).2] at h
  by_cases hs : start ∈ closedSet
  · rw [if_pos hs, hinv.start_g] at h
    linarith
  · rw [if_neg hs] at h
    rcases hinv.start_mem with h1 | ⟨h1, _, _⟩
    · exact absurd h1 hs
    · rw [h1, List.mem_singleton] at hdest
      rw [hdest, hinv.start_g] at h ⊢
      linarith

/-! ### `constructPath` and the loop as a whole -/

/-- If `constructPath` returns for the selected destination, it returns SUCCESS and the
reversed chain of parents. -/
theorem constructPath_chain {s : PathFinder K} {start dest cur : Coordinate}
    {openSet closedSet : List Coordinate}
    (hR : 0 < s.m_robotRadius) (hS : 0 ≤ s.m_safetyMargin)
    (hinv : Inv s start dest s.m_map openSet closedSet cur []) (hdest : dest ∈ openSet)
    {pathFuel : ℕ} {r : RetVal} {s1 : PathFinder K} {p1 : List Coordinate}
    (h : constructPath pathFuel s dest start [] = Outcome.done (r, s1, p1)) :
    r = RetVal.SUCCESS ∧
      ∃ l, ChainTo s s.m_map start dest l ∧ p1 = (([] ++ l) ++ [start]).reverse := by
  refine ⟨constructPath_retVal h, ?_⟩
  unfold constructPath at h
  split at h
  · cases h
  · cases h
  · rename_i m1 path1 hwalk
    obtain ⟨l, hl, hchain, _⟩ := walkParents_chain hR hS hinv pathFuel dest s.m_map [] m1 path1
      hinv.dest_trav (Or.inl hdest) hinv.dims (fun _ => rfl) hwalk
    split at h
    · cases h
    · split at h
      · cases h
      · cases h
        exact ⟨l, hchain, by rw [hl]⟩

/-- With enough fuel `constructPath` returns for the selected destination. -/
theorem constructPath_total {s : PathFinder K} {start dest cur : Coordinate}
    {openSet closedSet : List Coordinate}
    (hR : 0 < s.m_robotRadius) (hS : 0 ≤ s.m_safetyMargin)
    (hM : s.M ≤ 1028) (hN : s.N ≤ 1028)
    (hinv : Inv s start dest s.m_map openSet closedSet cur []) (hdest : dest ∈ openSet)
    {pathFuel : ℕ} (hfuel : closedSet.toFinset.card < pathFuel) :
    ∃ s1 p1, constructPath pathFuel s dest start []
      = Outcome.done (RetVal.SUCCESS, s1, p1) := by
  have hrank : (closedSet.toFinset.filter
      (fun d => gOf s.m_map d < gOf s.m_map dest)).card < pathFuel :=
    lt_of_le_of_lt (Finset.card_le_card (Finset.filter_subset _ _)) hfuel
  obtain ⟨m2, p2, hwalk⟩ := walkParents_total hR hS hM hN hinv pathFuel dest s.m_map []
    hinv.dest_trav (Or.inl hdest) hinv.dims (fun _ => rfl) hrank
  obtain ⟨_, _, _, hd2⟩ := walkParents_chain hR hS hinv pathFuel dest s.m_map [] m2 p2
    hinv.dest_trav (Or.inl hdest) hinv.dims (fun _ => rfl) hwalk
  obtain ⟨_, _, hdx, hdy⟩ := isTraversable_bounds hR hS hinv.dest_trav
  obtain ⟨_, _, hsx, hsy⟩ := isTraversable_bounds hR hS hinv.start_trav
  obtain ⟨cd, hcd⟩ := getCell_of_bounds hd2 hdy hdx
  obtain ⟨m3, hm3⟩ := modifyCell_of_getCell
    (fun cell : Cell K => { cell with Val := CELL_DESTINATION_CODE }) hcd
  obtain ⟨cs, hcs⟩ := getCell_of_bounds (dims_modifyCell hm3 hd2) hsy hsx
  obtain ⟨m4, hm4⟩ := modifyCell_of_getCell
    (fun cell : Cell K => { cell with Val := CELL_START_CODE }) hcs
  refine ⟨{ s with m_map := m4 }, (p2 ++ [start]).reverse, ?_⟩
  unfold constructPath
  rw [hwalk]
  simp only
  rw [hm3]
  simp only
  rw [hm4]

/-- Whenever the loop returns SUCCESS, the path returned is a valid path from `start`
to `dest`, and with weight 0 no valid path is shorter. -/
theorem findPathLoop_success {start dest : Coordinate} (pathFuel : ℕ) :
    ∀ (fuel : ℕ) (s : PathFinder K) (openSet closedSet : List Coordinate) (cur0 : Coordinate)
      (s1 : PathFinder K) (p1 : List Coordinate),
      0 < s.m_robotRadius → 0 ≤ s.m_safetyMargin → s.M ≤ 1028 → s.N ≤ 1028 →
      Inv s start dest s.m_map openSet closedSet cur0 [] →
      findPathLoop pathFuel dest start [] fuel s openSet closedSet
        = Outcome.done (RetVal.SUCCESS, s1, p1) →
      ValidPath s start dest p1 ∧
        (s.m_heuristicWeight = 0 →
          ∀ q, ValidPath s start dest q → (pathLength p1 : K) ≤ pathLength q) := by
  intro fuel
  induction fuel with
  | zero =>
    intro s openSet closedSet cur0 s1 p1 _ _ _ _ _ h
    rw [findPathLoop] at h
    cases h
  | succ fuel ih =>
    intro s openSet closedSet cur0 s1 p1 hR hS hM hN hinv h
    rw [findPathLoop] at h
    rcases findPathBody_cases hR hS hM hN pathFuel [] hinv with
      ⟨_, hb⟩ | ⟨hdest, _, hmin, hb⟩ | ⟨cur, m1, open1, hb, hinv1, _⟩
    · rw [hb] at h
      cases h
    · rw [hb] at h
      simp only at h
      obtain ⟨_, l, hchain, hp1⟩ := constructPath_chain hR hS hinv hdest h
      subst hp1
      refine ⟨chain_validPath hR hS hM hN hinv.start_trav hchain, ?_⟩
      intro hw q hq
      obtain ⟨_, _, _, _, hlen⟩ := chain_path hR hS hM hN hinv.start_trav hchain
      have hopt := inv_optimal hR hS hM hN hinv hw hdest hmin q hq
      have heq : (([] ++ l) ++ [start]).reverse = start :: l.reverse := by simp
      rw [heq]
      rw [hinv.start_g] at hlen
      linarith
    · rw [hb] at h
      simp only at h
      exact ih { s with m_map := m1 } open1 (setInsert cur closedSet) cur s1 p1 hR hS hM hN
        (inv_with_map m1 hinv1) h

/-! ### Entering the loop -/

theorem fresh_gOf {s : PathFinder K} (hf : Fresh s) (c : Coordinate) :
    gOf s.m_map c = DBL_MAX := by
  unfold gOf
  cases h : getCell s.m_map c with
  | none => rfl
  | some cell => exact (hf.2 c cell h).1

theorem fresh_fOf {s : PathFinder K} (hf : Fresh s) (c : Coordinate) :
    fOf s.m_map c = DBL_MAX := by
  unfold fOf
  cases h : getCell s.m_map c with
  | none => rfl
  | some cell => exact (hf.2 c cell h).2

/-- The invariant holds when `FindPath` enters its loop on a fresh grid. -/
theorem inv_init {s : PathFinder K} {start dest : Coordinate} (hf : Fresh s)
    (hR : 0 < s.m_robotRadius) (hS : 0 ≤ s.m_safetyMargin)
    (hts : isTraversable s start = true) (htd : isTraversable s dest = true)
    {m1 m2 : List (List (Cell K))}
    (hm1 : modifyCell s.m_map start (fun cell => { cell with f_cost := 0 }) = some m1)
    (hm2 : modifyCell m1 start (fun cell => { cell with g_score := 0 }) = some m2) :
    Inv s start dest m2 [start] [] {} [] := by
  obtain ⟨c0, _, hc1⟩ := getCell_modifyCell_same hm1
  obtain ⟨c1, hc1a, hc2⟩ := getCell_modifyCell_same hm2
  rw [hc1] at hc1a
  cases hc1a
  have hg : gOf m2 start = 0 := by rw [gOf_of_getCell hc2]
  have hfs : fOf m2 start = 0 := by rw [fOf_of_getCell hc2]
  have hgo : ∀ d, d ≠ start → gOf m2 d = DBL_MAX := by
    intro d hd
    rw [gOf_modifyCell_other hm2 hd, gOf_modifyCell_other hm1 hd, fresh_gOf hf]
  have hfo : ∀ d, d ≠ start → fOf m2 d = DBL_MAX := by
    intro d hd
    rw [fOf_modifyCell_other hm2 hd, fOf_modifyCell_other hm1 hd, fresh_fOf hf]
  refine
    { dims := dims_modifyCell hm2 (dims_modifyCell hm1 hf.1)
      open_trav := ?_
      closed_trav := fun c hc => by cases hc
      dest_open := fun h => by cases h
      dest_trav := htd
      start_trav := hts
      start_g := hg
      start_mem := Or.inr ⟨rfl, rfl, hfs⟩
      junk := ?_
      parent := ?_
      tracked := ?_
      gbound := ?_
      g_nonneg := ?_
      fval := ?_
      edges := fun c hc => by cases hc
      mono := fun _ c hc => by cases hc }
  · intro c hc
    rw [List.mem_singleton] at hc
    subst hc
    exact ⟨hts, fun h => by cases h⟩
  · exact hfo {} (fun h => origin_not_traversable hR hS hts h.symm)
  · intro c _ hmem hcs
    rcases hmem with h | h
    · exact absurd (List.mem_singleton.1 h) hcs
    · cases h
  · intro c _ hg1
    by_cases hcs : c = start
    · exact Or.inl (List.mem_singleton.2 hcs)
    · rw [hgo c hcs] at hg1
      exact absurd hg1 (lt_irrefl _)
  · intro c _ hmem
    rcases hmem with h | h
    · rw [List.mem_singleton.1 h, hg]
      simp
    · cases h
  · intro c _ hmem
    rcases hmem with h | h
    · rw [List.mem_singleton.1 h, hg]
    · cases h
  · intro c hc hcs
    exact absurd (List.mem_singleton.1 hc) hcs

/-- Past its guard, `FindPath` on a fresh grid is its loop started under the invariant. -/
theorem FindPath_enter {s : PathFinder K} {start dest : Coordinate} (hf : Fresh s)
    (hR : 0 < s.m_robotRadius) (hS : 0 ≤ s.m_safetyMargin)
    (hts : isTraversable s start = true) (htd : isTraversable s dest = true)
    (fuel : ℕ) (bestPath : List Coordinate) :
    ∃ m2, FindPath fuel s start dest bestPath
        = findPathLoop fuel dest start bestPath fuel { s with m_map := m2 } [start] [] ∧
      Inv s start dest m2 [start] [] {} [] := by
  obtain ⟨_, _, hx, hy⟩ := isTraversable_bounds hR hS hts
  obtain ⟨cell0, hcell0⟩ := getCell_of_bounds hf.1 hy hx
  obtain ⟨m1, hm1⟩ := modifyCell_of_getCell (fun cell : Cell K => { cell with f_cost := 0 }) hcell0
  obtain ⟨_, _, hc1⟩ := getCell_modifyCell_same hm1
  obtain ⟨m2, hm2⟩ := modifyCell_of_getCell (fun cell : Cell K => { cell with g_score := 0 }) hc1
  refine ⟨m2, ?_, inv_init hf hR hS hts htd hm1 hm2⟩
  unfold FindPath
  rw [if_neg (by simp [hts, htd])]
  simp only [hm1, hm2]

/-- A call of `FindPath` that returns anything but FAIL_PARAM had traversable endpoints. -/
theorem FindPath_guard {s s1 : PathFinder K} {start dest : Coordinate} {fuel : ℕ}
    {bestPath p1 : List Coordinate} {r : RetVal} (hr : r ≠ RetVal.FAIL_PARAM)
    (h : FindPath fuel s start dest bestPath = Outcome.done (r, s1, p1)) :
    isTraversable s start = true ∧ isTraversable s dest = true := by
  by_contra hc
  have hg : isTraversable s start = false ∨ isTraversable s dest = false := by
    cases h1 : isTraversable s start
    · exact Or.inl rfl
    · cases h2 : isTraversable s dest
      · exact Or.inr rfl
      · exact absurd ⟨h1, h2⟩ hc
  unfold FindPath at h
  rw [if_pos hg] at h
  cases h
  exact hr rfl

/-! ### Completeness and the pass that never ends -/

/-- With an empty open set the closed set holds every cell a path from `start` reaches,
and the destination is not in it. -/
theorem inv_no_path {s : PathFinder K} {start dest cur : Coordinate}
    {m : List (List (Cell K))} {closedSet : List Coordinate}
    (hinv : Inv s start dest m [] closedSet cur []) :
    ¬ ∃ q, ValidPath s start dest q := by
  rintro ⟨q, hhead, hlast, htrav, hchain⟩
  have hstart : start ∈ closedSet := by
    rcases hinv.start_mem with h | ⟨h, _, _⟩
    · exact h
    · cases h
  have hclos : ∀ (q : List Coordinate) (a : Coordinate), q.head? = some a → a ∈ closedSet →
      (∀ c ∈ q, isTraversable s c = true) → List.Chain' Adjacent q → ∀ x ∈ q, x ∈ closedSet := by
    intro q
    induction q with
    | nil => intro a h; cases h
    | cons x rest ih =>
      intro a h1 ha ht hc y hy
      simp only [List.head?_cons, Option.some.injEq] at h1
      subst h1
      rcases List.mem_cons.1 hy with h | h
      · rw [h]; exact ha
      · cases rest with
        | nil => cases h
        | cons b rest2 =>
          rw [List.chain'_cons] at hc
          have hb : b ∈ closedSet := by
            rcases hinv.edges x ha (ht x (List.mem_cons_self _ _)) b hc.1
              (ht b (List.mem_cons_of_mem _ (List.mem_cons_self _ _))) with ⟨_, h2⟩ | ⟨h1, _⟩
            · cases h2
            · rcases h1 with h1 | h1
              · cases h1
              · exact h1
          exact ih b rfl hb (fun c hcm => ht c (List.mem_cons_of_mem _ hcm)) hc.2 y h
  exact hinv.dest_open (hclos q start hhead hstart htrav hchain dest
    (List.mem_of_getLast?_eq_some hlast))

theorem sq_sub_le {x y : ℕ} (hx : x ≤ 1028) (hy : y ≤ 1028) :
    (((x : K) - (y : K)) ^ 2) ≤ 1056784 := by
  have h1 : (x : K) ≤ 1028 := by exact_mod_cast hx
  have h2 : (y : K) ≤ 1028 := by exact_mod_cast hy
  have h3 : (0 : K) ≤ (x : K) := Nat.cast_nonneg x
  have h4 : (0 : K) ≤ (y : K) := Nat.cast_nonneg y
  have h5 : ((x : K) - (y : K)) ^ 2 ≤ (1028 : K) ^ 2 := sq_le_sq' (by linarith) (by linarith)
  have h6 : (1028 : K) ^ 2 = 1056784 := by norm_num
  rw [h6] at h5
  exact h5

/-- Two cells of a grid inside the limit are at distance at most 2056. -/
theorem distanceBetween_le {a b : Coordinate} (haX : a.X ≤ 1028) (haY : a.Y ≤ 1028)
    (hbX : b.X ≤ 1028) (hbY : b.Y ≤ 1028) : (distanceBetween a b : K) ≤ 2056 := by
  rw [distanceBetween_exact haX haY hbX hbY]
  have h1 := sq_sub_le (K := K) haX hbX
  have h2 := sq_sub_le (K := K) haY hbY
  apply sqrt_le_of_le_sq (by positivity) (by norm_num)
  linarith

theorem one_le_sq_sub {x y : ℕ} (h : x ≠ y) : (1 : K) ≤ ((x : K) - (y : K)) ^ 2 := by
  rcases Nat.lt_or_gt_of_ne h with h1 | h1
  · have h2 : (x : K) + 1 ≤ (y : K) := by exact_mod_cast h1
    nlinarith
  · have h2 : (y : K) + 1 ≤ (x : K) := by exact_mod_cast h1
    nlinarith

/-- Two different cells of a grid inside the limit are at distance at least 1. -/
theorem one_le_distanceBetween {a b : Coordinate} (haX : a.X ≤ 1028) (haY : a.Y ≤ 1028)
    (hbX : b.X ≤ 1028) (hbY : b.Y ≤ 1028) (hab : a ≠ b) : (1 : K) ≤ distanceBetween a b := by
  rw [distanceBetween_exact haX haY hbX hbY]
  have hx : (0 : K) ≤ ((a.X : K) - (b.X : K)) ^ 2 := sq_nonneg _
  have hy : (0 : K) ≤ ((a.Y : K) - (b.Y : K)) ^ 2 := sq_nonneg _
  apply le_sqrt_of_sq_le (by positivity)
  by_cases h1 : a.X = b.X
  · have h2 : a.Y ≠ b.Y := by
      intro h2
      apply hab
      cases a; cases b
      simp_all
    have := one_le_sq_sub (K := K) h2
    linarith
  · have := one_le_sq_sub (K := K) h1
    linarith

/-- Below the weight bound every member of the open set has an f-cost below `DBL_MAX`. -/
theorem inv_f_lt {s : PathFinder K} {start dest cur : Coordinate}
    {m : List (List (Cell K))} {openSet closedSet todo : List Coordinate}
    (hR : 0 < s.m_robotRadius) (hS : 0 ≤ s.m_safetyMargin)
    (hM : s.M ≤ 1028) (hN : s.N ≤ 1028) (hw0 : 0 ≤ s.m_heuristicWeight)
    (hwb : 4112 * s.m_heuristicWeight + 2113568 < DBL_MAX)
    (hinv : Inv s start dest m openSet closedSet cur todo) :
    ∀ o ∈ openSet, fOf m o < DBL_MAX := by
  intro o ho
  by_cases hos : o = start
  · subst hos
    rcases hinv.start_mem with h | ⟨_, _, h⟩
    · exact absurd h (hinv.open_trav o ho).2
    · rw [h]
      exact DBL_MAX_pos
  · rw [hinv.fval o ho hos]
    obtain ⟨hto, _⟩ := hinv.open_trav o ho
    obtain ⟨_, _, hox, hoy⟩ := isTraversable_bounds hR hS hto
    obtain ⟨_, _, hsx, hsy⟩ := isTraversable_bounds hR hS hinv.start_trav
    obtain ⟨_, _, hdx, hdy⟩ := isTraversable_bounds hR hS hinv.dest_trav
    have h1 : (distanceBetween o start : K) ≤ 2056 :=
      distanceBetween_le (by omega) (by omega) (by omega) (by omega)
    have h2 : (distanceBetween o dest : K) ≤ 2056 :=
      distanceBetween_le (by omega) (by omega) (by omega) (by omega)
    have h3 := hinv.gbound o hto (Or.inl ho)
    have h4 := inv_card_bound hR hS hM hN hinv
    have h5 : s.m_heuristicWeight * (distanceBetween o start + distanceBetween o dest)
        ≤ s.m_heuristicWeight * 4112 :=
      mul_le_mul_of_nonneg_left (by linarith) hw0
    unfold heuristic
    linarith

/-- Below the weight bound and with enough fuel the loop returns: FAIL_NO_PATH when no
path exists, SUCCESS otherwise. -/
theorem findPathLoop_total {start dest : Coordinate} (pathFuel : ℕ) :
    ∀ (fuel : ℕ) (s : PathFinder K) (openSet closedSet : List Coordinate) (cur0 : Coordinate),
      0 < s.m_robotRadius → 0 ≤ s.m_safetyMargin → s.M ≤ 1028 → s.N ≤ 1028 →
      0 ≤ s.m_heuristicWeight → 4112 * s.m_heuristicWeight + 2113568 < DBL_MAX →
      Inv s start dest s.m_map openSet closedSet cur0 [] →
      s.M * s.N + 1 ≤ fuel + closedSet.toFinset.card → s.M * s.N < pathFuel →
      (∃ s1 p1, findPathLoop pathFuel dest start [] fuel s openSet closedSet
          = Outcome.done (RetVal.FAIL_NO_PATH, s1, p1) ∧ ¬ ∃ q, ValidPath s start dest q) ∨
      (∃ s1 p1, findPathLoop pathFuel dest start [] fuel s openSet closedSet
          = Outcome.done (RetVal.SUCCESS, s1, p1)) := by
  intro fuel
  induction fuel with
  | zero =>
    intro s openSet closedSet cur0 hR hS _ _ _ _ hinv hfuel _
    have := card_le_grid (inv_closed_bounds hR hS hinv)
    omega
  | succ fuel ih =>
    intro s openSet closedSet cur0 hR hS hM hN hw0 hwb hinv hfuel hpf
    have hcard := card_le_grid (inv_closed_bounds hR hS hinv)
    rw [findPathLoop]
    rcases findPathBody_cases hR hS hM hN pathFuel [] hinv with
      ⟨hempty, hb⟩ | ⟨hdest, _, _, hb⟩ | ⟨cur, m1, open1, hb, hinv1, hcase⟩
    · left
      subst hempty
      rw [hb]
      exact ⟨s, [], rfl, inv_no_path hinv⟩
    · right
      rw [hb]
      exact constructPath_total hR hS hM hN hinv hdest (by omega)
    · rw [hb]
      simp only
      rcases hcase with ⟨hcur, _, _⟩ | ⟨_, hne, hstuck, _, _⟩
      · have hc1 := card_setInsert_of_not_mem (hinv.open_trav cur hcur).2
        exact ih { s with m_map := m1 } open1 (setInsert cur closedSet) cur hR hS hM hN hw0 hwb
          (inv_with_map m1 hinv1) (by rw [hc1]; show s.M * s.N + 1 ≤ _; omega) hpf
      · exfalso
        obtain ⟨o, ho⟩ := List.exists_mem_of_ne_nil openSet hne
        exact absurd (inv_f_lt hR hS hM hN hw0 hwb hinv o ho) (not_lt.2 (hstuck o ho))

/-- Once every member of a non-empty open set has an f-cost of at least `DBL_MAX`, the
loop never returns. -/
theorem findPathLoop_stuck {start dest : Coordinate} (pathFuel : ℕ)
    (bestPath : List Coordinate) :
    ∀ (fuel : ℕ) (s : PathFinder K) (openSet closedSet : List Coordinate) (cur0 : Coordinate),
      0 < s.m_robotRadius → 0 ≤ s.m_safetyMargin → s.M ≤ 1028 → s.N ≤ 1028 →
      Inv s start dest s.m_map openSet closedSet cur0 [] → openSet ≠ [] →
      (∀ o ∈ openSet, DBL_MAX ≤ fOf s.m_map o) →
      findPathLoop pathFuel dest start bestPath fuel s openSet closedSet
        = Outcome.outOfFuel := by
  intro fuel
  induction fuel with
  | zero =>
    intro s openSet closedSet cur0 _ _ _ _ _ _ _
    rw [findPathLoop]
  | succ fuel ih =>
    intro s openSet closedSet cur0 hR hS hM hN hinv hne hstuck
    rw [findPathLoop]
    rcases findPathBody_cases hR hS hM hN pathFuel bestPath hinv with
      ⟨hempty, _⟩ | ⟨hdest, hlt, _, _⟩ | ⟨cur, m1, open1, hb, hinv1, hcase⟩
    · exact absurd hempty hne
    · exact absurd hlt (not_lt.2 (hstuck dest hdest))
    · rcases hcase with ⟨hcur, _, hlt⟩ | ⟨_, _, _, hm1, ho1⟩
      · exact absurd hlt (not_lt.2 (hstuck cur hcur))
      · rw [hb]
        simp only
        subst hm1; subst ho1
        exact ih { s with m_map := s.m_map } open1 (setInsert cur closedSet) cur hR hS hM hN
          (inv_with_map s.m_map hinv1) hne hstuck

/-! ### `FindPath` as a whole -/

/-- Below the weight bound and with fuel above the number of cells, `FindPath` on a fresh
grid with traversable endpoints returns FAIL_NO_PATH when no path exists and SUCCESS
otherwise. -/
theorem FindPath_total {s : PathFinder K} (hf : Fresh s)
    (hR : 0 < s.m_robotRadius) (hS : 0 ≤ s.m_safetyMargin)
    (hM : s.M ≤ 1028) (hN : s.N ≤ 1028) (hw0 : 0 ≤ s.m_heuristicWeight)
    (hwb : 4112 * s.m_heuristicWeight + 2113568 < DBL_MAX) {start dest : Coordinate}
    (hts : isTraversable s start = true) (htd : isTraversable s dest = true)
    (fuel : ℕ) (hfuel : s.M * s.N + 1 ≤ fuel) :
    (∃ s1 p1, FindPath fuel s start dest [] = Outcome.done (RetVal.FAIL_NO_PATH, s1, p1) ∧
        ¬ ∃ q, ValidPath s start dest q) ∨
      (∃ s1 p1, FindPath fuel s start dest [] = Outcome.done (RetVal.SUCCESS, s1, p1)) := by
  obtain ⟨m2, hloop, hinv⟩ := FindPath_enter hf hR hS hts htd fuel []
  rw [hloop]
  exact findPathLoop_total fuel fuel { s with m_map := m2 } [start] [] {} hR hS hM hN hw0 hwb
    (inv_with_map m2 hinv) (by show s.M * s.N + 1 ≤ _; simp; omega)
    (by show s.M * s.N < fuel; omega)

/-- Under the invariant, when no member of the open set has an f-cost below `DBL_MAX`
the scan ends on the default coordinate (0,0). -/
theorem selectCurrent_stuck {s : PathFinder K} {start dest cur0 : Coordinate}
    {openSet closedSet : List Coordinate}
    (hR : 0 < s.m_robotRadius) (hS : 0 ≤ s.m_safetyMargin)
    (hinv : Inv s start dest s.m_map openSet closedSet cur0 [])
    (hstuck : ∀ o ∈ openSet, DBL_MAX ≤ fOf s.m_map o) :
    selectCurrent s.m_map {} openSet = some {} := by
  obtain ⟨_, _, hsx, hsy⟩ := isTraversable_bounds hR hS hinv.start_trav
  have hopen_cell : ∀ o ∈ openSet, ∃ cell, getCell s.m_map o = some cell := by
    intro o ho
    obtain ⟨_, _, hx, hy⟩ := isTraversable_bounds hR hS (hinv.open_trav o ho).1
    exact getCell_of_bounds hinv.dims hy hx
  have horigin : ∃ cell, getCell s.m_map ({} : Coordinate) = some cell :=
    getCell_of_bounds (c := {}) hinv.dims (by show 0 < s.M; omega) (by show 0 < s.N; omega)
  obtain ⟨cur, hsel⟩ := selectCurrent_some s.m_map openSet {} hopen_cell horigin
  obtain ⟨hmem, _⟩ := selectCurrent_spec s.m_map openSet {} cur hsel
  rcases hmem with h | ⟨h1, h2⟩
  · rw [hsel, h]
  · rw [hinv.junk] at h2
    exact absurd h2 (not_lt.2 (hstuck cur h1))

/-- With a heuristic weight of at least `DBL_MAX`, different traversable endpoints and a
traversable neighbour of `start`, the first pass of the loop leaves a non-empty open set
in which no member has an f-cost below `DBL_MAX`. -/
theorem FindPath_huge_weight {s : PathFinder K} (hf : Fresh s)
    (hR : 0 < s.m_robotRadius) (hS : 0 ≤ s.m_safetyMargin)
    (hM : s.M ≤ 1028) (hN : s.N ≤ 1028) (hw : DBL_MAX ≤ s.m_heuristicWeight)
    {start dest nb : Coordinate}
    (hts : isTraversable s start = true) (htd : isTraversable s dest = true)
    (hsd : start ≠ dest) (hadj : Adjacent start nb) (htn : isTraversable s nb = true)
    (fuel : ℕ) (bestPath : List Coordinate) :
    ∃ (t : PathFinder K) (open1 closed1 : List Coordinate),
      FindPath (fuel + 1) s start dest bestPath
        = findPathLoop (fuel + 1) dest start bestPath fuel t open1 closed1 ∧
      Inv t start dest t.m_map open1 closed1 start [] ∧
      (0 < t.m_robotRadius ∧ 0 ≤ t.m_safetyMargin ∧ t.M ≤ 1028 ∧ t.N ≤ 1028) ∧
      open1 ≠ [] ∧ ∀ o ∈ open1, DBL_MAX ≤ fOf t.m_map o := by
  obtain ⟨m2, hloop, hinv⟩ := FindPath_enter hf hR hS hts htd (fuel + 1) bestPath
  have hinv2 : Inv { s with m_map := m2 } start dest m2 [start] [] {} [] := inv_with_map m2 hinv
  have hwpos : (0 : K) ≤ s.m_heuristicWeight := le_trans (le_of_lt DBL_MAX_pos) hw
  rcases findPathBody_cases (s := { s with m_map := m2 }) hR hS hM hN (fuel + 1) bestPath hinv2
    with ⟨hempty, _⟩ | ⟨hdest, _, _, _⟩ | ⟨cur, m1, open1, hb, hinv1, hcase⟩
  · cases hempty
  · exact absurd (List.mem_singleton.1 hdest).symm hsd
  · rcases hcase with ⟨hcur, _, _⟩ | ⟨_, _, hstuck, _, _⟩
    · have hcs : cur = start := List.mem_singleton.1 hcur
      subst hcs
      refine ⟨{ s with m_map := m1 }, open1, setInsert cur [], ?_,
        inv_with_map m1 (inv_without_map m2 hinv1),
        ⟨hR, hS, hM, hN⟩, ?_, ?_⟩
      · rw [hloop, findPathLoop, hb]
      · have hc : cur ∈ setInsert cur [] := mem_setInsert.2 (Or.inl rfl)
        rcases hinv1.edges cur hc hts nb hadj htn with ⟨_, h2⟩ | ⟨h1, _⟩
        · cases h2
        · rcases h1 with h1 | h1
          · exact List.ne_nil_of_mem h1
          · rcases mem_setInsert.1 h1 with h | h
            · exact absurd h.symm hadj.1
            · cases h
      · intro o ho
        obtain ⟨hto, hoc⟩ := hinv1.open_trav o ho
        have hos : o ≠ cur := fun h => hoc (mem_setInsert.2 (Or.inl h))
        show DBL_MAX ≤ fOf m1 o
        rw [hinv1.fval o ho hos]
        obtain ⟨_, _, hox, hoy⟩ := isTraversable_bounds hR hS hto
        obtain ⟨_, _, hsx, hsy⟩ := isTraversable_bounds hR hS hts
        have h1 : (1 : K) ≤ distanceBetween o cur :=
          one_le_distanceBetween (by show o.X ≤ 1028; omega) (by show o.Y ≤ 1028; omega)
            (by show cur.X ≤ 1028; omega) (by show cur.Y ≤ 1028; omega) hos
        have h2 : (0 : K) ≤ distanceBetween o dest := distanceBetween_nonneg o dest
        have h3 := hinv1.g_nonneg o hto (Or.inl ho)
        have h4 : s.m_heuristicWeight * 1
            ≤ s.m_heuristicWeight * (distanceBetween o cur + distanceBetween o dest) :=
          mul_le_mul_of_nonneg_left (by linarith) hwpos
        have h5 : heuristic { s with m_map := m2 } o dest cur
            = s.m_heuristicWeight * (distanceBetween o cur + distanceBetween o dest) := rfl
        rw [h5]
        generalize (DBL_MAX : K) = big at *
        linarith
    · have h1 := hstuck start (List.mem_singleton.2 rfl)
      rcases hinv2.start_mem with h | ⟨_, _, h⟩
      · cases h
      · have h2 : fOf m2 start = 0 := h
        have h3 : (DBL_MAX : K) ≤ 0 := by
          rw [← h2]
          exact h1
        exact absurd h3 (not_le.2 DBL_MAX_pos)

/-- With a heuristic weight of at least `DBL_MAX`, different traversable endpoints and a
traversable neighbour of `start`, `FindPath` on a fresh grid never returns. -/
theorem FindPath_never_returns {s : PathFinder K} (hf : Fresh s)
    (hR : 0 < s.m_robotRadius) (hS : 0 ≤ s.m_safetyMargin)
    (hM : s.M ≤ 1028) (hN : s.N ≤ 1028) (hw : DBL_MAX ≤ s.m_heuristicWeight)
    {start dest nb : Coordinate}
    (hts : isTraversable s start = true) (htd : isTraversable s dest = true)
    (hsd : start ≠ dest) (hadj : Adjacent start nb) (htn : isTraversable s nb = true)
    (fuel : ℕ) (bestPath : List Coordinate) :
    FindPath fuel s start dest bestPath = Outcome.outOfFuel := by
  cases fuel with
  | zero =>
    obtain ⟨m2, hloop, _⟩ := FindPath_enter hf hR hS hts htd 0 bestPath
    rw [hloop, findPathLoop]
  | succ fuel =>
    obtain ⟨t, open1, closed1, hrun, hinv, ⟨hRt, hSt, hMt, hNt⟩, hne, hstuck⟩ :=
      FindPath_huge_weight hf hR hS hM hN hw hts htd hsd hadj htn fuel bestPath
    rw [hrun]
    exact findPathLoop_stuck (fuel + 1) bestPath fuel t open1 closed1 start hRt hSt hMt hNt
      hinv hne hstuck

/-! ### The example planners -/

theorem demoGrid_eq : (demoGrid : PathFinder K) =
    { M := 4
      N := 4
      m_map := (List.range 4).map fun _ =>
        (List.range 4).map fun _ => newCell CELL_UNOCCUPIED_CODE
      m_robotRadius := 1
      m_objects := []
      m_heuristicWeight := 0
      m_safetyMargin := 0 } := by
  unfold demoGrid
  rw [setMapSize_success _ (by decide) (by decide)]
  unfold SetRobotRadius blank
  norm_num

theorem demoGrid_fresh : Fresh (demoGrid : PathFinder K) := by
  have h := setMapSize_fresh (blank : PathFinder K) (m := 4) (n := 4) (by decide) (by decide)
  rw [setMapSize_success _ (by decide) (by decide)] at h
  rw [demoGrid_eq]
  exact h

theorem demoGrid_traversable {c : Coordinate}
    (h : 1 ≤ c.X ∧ c.X ≤ 2 ∧ 1 ≤ c.Y ∧ c.Y ≤ 2) :
    isTraversable (demoGrid : PathFinder K) c = true := by
  obtain ⟨h1, h2, h3, h4⟩ := h
  have hx1 : (1 : K) ≤ (c.X : K) := by exact_mod_cast h1
  have hx2 : (c.X : K) ≤ 2 := by exact_mod_cast h2
  have hy1 : (1 : K) ≤ (c.Y : K) := by exact_mod_cast h3
  have hy2 : (c.Y : K) ≤ 2 := by exact_mod_cast h4
  rw [isTraversable_iff, demoGrid_eq]
  simp only [List.not_mem_nil, false_imp_iff, implies_true, and_true, Nat.cast_ofNat]
  refine ⟨by linarith, by linarith, by linarith, by linarith⟩

theorem demoHuge_eq : (demoHuge : PathFinder K) =
    { (demoGrid : PathFinder K) with m_heuristicWeight := DBL_MAX } := by
  unfold demoHuge SetHeuristicWeight
  rw [if_neg (not_lt.2 (le_of_lt DBL_MAX_pos))]

theorem demoHuge_fresh : Fresh (demoHuge : PathFinder K) := by
  rw [demoHuge_eq]
  exact demoGrid_fresh

theorem demoHuge_traversable {c : Coordinate}
    (h : 1 ≤ c.X ∧ c.X ≤ 2 ∧ 1 ≤ c.Y ∧ c.Y ≤ 2) :
    isTraversable (demoHuge : PathFinder K) c = true := by
  rw [demoHuge_eq]
  exact demoGrid_traversable h

/-- The configuration of `demoGrid`: radius 1, margin 0, 4 rows, 4 columns, weight 0. -/
theorem demoGrid_config :
    (0 : K) < (demoGrid : PathFinder K).m_robotRadius ∧
      (0 : K) ≤ (demoGrid : PathFinder K).m_safetyMargin ∧
      (demoGrid : PathFinder K).M = 4 ∧ (demoGrid : PathFinder K).N = 4 ∧
      (demoGrid : PathFinder K).m_heuristicWeight = 0 := by
  rw [demoGrid_eq]
  exact ⟨zero_lt_one, le_rfl, rfl, rfl, rfl⟩

theorem demoHuge_config :
    (0 : K) < (demoHuge : PathFinder K).m_robotRadius ∧
      (0 : K) ≤ (demoHuge : PathFinder K).m_safetyMargin ∧
      (demoHuge : PathFinder K).M = 4 ∧ (demoHuge : PathFinder K).N = 4 ∧
      (demoHuge : PathFinder K).m_heuristicWeight = DBL_MAX := by
  rw [demoHuge_eq, demoGrid_eq]
  exact ⟨zero_lt_one, le_rfl, rfl, rfl, rfl⟩

/-- In `demoGrid` the two cells (1,1) and (2,2) form a path. -/
theorem demoGrid_path :
    ValidPath (demoGrid : PathFinder K) { X := 1, Y := 1 } { X := 2, Y := 2 }
      [{ X := 1, Y := 1 }, { X := 2, Y := 2 }] := by
  refine ⟨rfl, rfl, ?_, ?_⟩
  swap
  · simp only [List.chain'_cons, List.chain'_singleton, and_true]
    decide
  intro c hc
  simp only [List.mem_cons, List.mem_singleton, List.not_mem_nil, or_false] at hc
  rcases hc with rfl | rfl
  · exact demoGrid_traversable (by decide)
  · exact demoGrid_traversable (by decide)

/-- Weight 0 is below the weight bound. -/
theorem weight_zero_bound : (4112 : K) * 0 + 2113568 < DBL_MAX := by
  have h := DBL_MAX_big (K := K)
  generalize (DBL_MAX : K) = big at *
  linarith

theorem demoHuge_path (a b : Coordinate)
    (ha : 1 ≤ a.X ∧ a.X ≤ 2 ∧ 1 ≤ a.Y ∧ a.Y ≤ 2) (hb : 1 ≤ b.X ∧ b.X ≤ 2 ∧ 1 ≤ b.Y ∧ b.Y ≤ 2)
    (hab : Adjacent a b) : ValidPath (demoHuge : PathFinder K) a b [a, b] := by
  refine ⟨rfl, rfl, ?_, ?_⟩
  · intro c hc
    simp only [List.mem_cons, List.mem_singleton, List.not_mem_nil, or_false] at hc
    rcases hc with rfl | rfl
    · exact demoHuge_traversable ha
    · exact demoHuge_traversable hb
  · simp only [List.chain'_cons, List.chain'_singleton, and_true]
    exact hab

/-- In `demoHuge`, between two different adjacent cells of the inner square, `FindPath`
never returns, and after its first pass the loop is in a state with a non-empty open set
from which the scan selects the default coordinate (0,0), not a member of the open set,
and the pass only puts (0,0) into the closed set. -/
theorem demoHuge_run (a b : Coordinate)
    (ha : 1 ≤ a.X ∧ a.X ≤ 2 ∧ 1 ≤ a.Y ∧ a.Y ≤ 2) (hb : 1 ≤ b.X ∧ b.X ≤ 2 ∧ 1 ≤ b.Y ∧ b.Y ≤ 2)
    (hab : Adjacent a b) (fuel : ℕ) :
    FindPath fuel (demoHuge : PathFinder K) a b [] = Outcome.outOfFuel ∧
    ∃ (t : PathFinder K) (open1 closed1 : List Coordinate),
      FindPath (fuel + 1) (demoHuge : PathFinder K) a b []
        = findPathLoop (fuel + 1) b a [] fuel t open1 closed1 ∧
      open1 ≠ [] ∧ ({} : Coordinate) ∉ open1 ∧
      selectCurrent t.m_map {} open1 = some {} ∧
      findPathBody (fuel + 1) b a [] t open1 closed1
        = LoopStep.next t open1 (setInsert {} closed1) := by
  obtain ⟨hR, hS, hM, hN, hw⟩ := demoHuge_config (K := K)
  have hM1 : (demoHuge : PathFinder K).M ≤ 1028 := by rw [hM]; decide
  have hN1 : (demoHuge : PathFinder K).N ≤ 1028 := by rw [hN]; decide
  have hta := demoHuge_traversable (K := K) ha
  have htb := demoHuge_traversable (K := K) hb
  refine ⟨FindPath_never_returns demoHuge_fresh hR hS hM1 hN1 (le_of_eq hw.symm) hta htb
    hab.1 hab htb fuel [], ?_⟩
  obtain ⟨t, open1, closed1, hrun, hinv, ⟨hRt, hSt, hMt, hNt⟩, hne, hstuck⟩ :=
    FindPath_huge_weight demoHuge_fresh hR hS hM1 hN1 (le_of_eq hw.symm) hta htb
      hab.1 hab htb fuel []
  refine ⟨t, open1, closed1, hrun, hne, ?_, selectCurrent_stuck hRt hSt hinv hstuck, ?_⟩
  · intro h
    exact origin_not_traversable hRt hSt (hinv.open_trav {} h).1 rfl
  · rcases findPathBody_cases hRt hSt hMt hNt (fuel + 1) [] hinv with
      ⟨hempty, _⟩ | ⟨hdest, hlt, _, _⟩ | ⟨cur, m1, o1, hb1, _, hcase⟩
    · exact absurd hempty hne
    · exact absurd hlt (not_lt.2 (hstuck b hdest))
    · rcases hcase with ⟨hcur, _, hlt⟩ | ⟨hc0, _, _, hm1, ho1⟩
      · exact absurd hlt (not_lt.2 (hstuck cur hcur))
      · rw [hb1, hc0, hm1, ho1]

/-! ### Which of several members with the same f-cost the scan selects -/

/-- The scan returns its starting value, or the first member in iteration order among
those of smallest f-cost. -/
theorem selectCurrent_first (m : List (List (Cell K))) :
    ∀ (openSet : List Coordinate) (c0 cur : Coordinate),
      selectCurrent m c0 openSet = some cur →
      (cur = c0 ∧ ∀ o ∈ openSet, fOf m c0 ≤ fOf m o) ∨
        ∃ pre post, openSet = pre ++ cur :: post ∧ (∀ o ∈ pre, fOf m cur < fOf m o) ∧
          (∀ o ∈ post, fOf m cur ≤ fOf m o) ∧ fOf m cur < fOf m c0
  | [], c0, cur, h => by
    rw [selectCurrent] at h
    cases h
    exact Or.inl ⟨rfl, fun o ho => by cases ho⟩
  | o :: rest, c0, cur, h => by
    rw [selectCurrent] at h
    split at h
    · rename_i a b ha hb
      have ih := selectCurrent_first m rest _ cur h
      by_cases hlt : a.f_cost < b.f_cost
      · rw [if_pos hlt] at ih
        have hlt2 : fOf m o < fOf m c0 := by
          rw [fOf_of_getCell ha, fOf_of_getCell hb]
          exact hlt
        rcases ih with ⟨h1, h2⟩ | ⟨pre, post, h1, h2, h3, h4⟩
        · subst h1
          exact Or.inr ⟨[], rest, rfl, fun o1 ho1 => (by cases ho1), h2, hlt2⟩
        · refine Or.inr ⟨o :: pre, post, by rw [h1]; rfl, ?_, h3, lt_trans h4 hlt2⟩
          intro o1 ho1
          rcases List.mem_cons.1 ho1 with rfl | ho1
          · exact h4
          · exact h2 o1 ho1
      · rw [if_neg hlt] at ih
        have hge : fOf m c0 ≤ fOf m o := by
          rw [fOf_of_getCell ha, fOf_of_getCell hb]
          exact not_lt.1 hlt
        rcases ih with ⟨h1, h2⟩ | ⟨pre, post, h1, h2, h3, h4⟩
        · refine Or.inl ⟨h1, ?_⟩
          intro o1 ho1
          rcases List.mem_cons.1 ho1 with rfl | ho1
          · exact hge
          · exact h2 o1 ho1
        · refine Or.inr ⟨o :: pre, post, by rw [h1]; rfl, ?_, h3, h4⟩
          intro o1 ho1
          rcases List.mem_cons.1 ho1 with rfl | ho1
          · exact lt_of_lt_of_le h4 hge
          · exact h2 o1 ho1
    · cases h

/-- The model of `std::set::insert` keeps the list in the order of `operator<`. -/
theorem setInsert_sorted (c : Coordinate) :
    ∀ l : List Coordinate, l.Pairwise (fun a b => a.lt b = true) →
      (setInsert c l).Pairwise (fun a b => a.lt b = true)
  | [], _ => by simp [setInsert]
  | d :: ds, h => by
    rw [setInsert]
    rw [List.pairwise_cons] at h
    split
    · rename_i hcd
      rw [List.pairwise_cons]
      refine ⟨?_, List.pairwise_cons.2 h⟩
      intro e he
      rcases List.mem_cons.1 he with rfl | he
      · exact hcd
      · have hde := h.1 e he
        rw [Coordinate.lt_iff] at hcd hde ⊢
        omega
    · split
      · rename_i hdc
        rw [List.pairwise_cons]
        refine ⟨?_, setInsert_sorted c ds h.2⟩
        intro e he
        rcases mem_setInsert.1 he with rfl | he
        · exact hdc
        · exact h.1 e he
      · exact List.pairwise_cons.2 h

theorem DBL_MAX_one_lt : (1 : K) < DBL_MAX :=
  lt_of_lt_of_le (by norm_num) DBL_MAX_big

/-- On `tieGrid` the scan over the open set {(1,1), (2,2)}, iterated in the order of the
set, selects (2,2). -/
theorem tieGrid_select :
    selectCurrent (tieGrid : List (List (Cell K))) {}
      [{ X := 2, Y := 2 }, { X := 1, Y := 1 }] = some { X := 2, Y := 2 } := by
  have h0 : getCell (tieGrid : List (List (Cell K))) {} = some (newCell CELL_UNOCCUPIED_CODE) := rfl
  have h1 : getCell (tieGrid : List (List (Cell K))) { X := 1, Y := 1 }
      = some { (newCell CELL_UNOCCUPIED_CODE : Cell K) with f_cost := 1 } := rfl
  have h2 : getCell (tieGrid : List (List (Cell K))) { X := 2, Y := 2 }
      = some { (newCell CELL_UNOCCUPIED_CODE : Cell K) with f_cost := 1 } := rfl
  rw [selectCurrent, h2, h0]
  have hlt : ({ (newCell CELL_UNOCCUPIED_CODE : Cell K) with f_cost := 1 } : Cell K).f_cost
      < (newCell CELL_UNOCCUPIED_CODE : Cell K).f_cost := DBL_MAX_one_lt
  simp only [if_pos hlt]
  rw [selectCurrent, h1, h2]
  simp only [lt_self_iff_false, if_false]
  rfl

theorem tieGrid_fOf :
    fOf (tieGrid : List (List (Cell K))) { X := 1, Y := 1 } = 1 ∧
    fOf (tieGrid : List (List (Cell K))) { X := 2, Y := 2 } = 1 ∧
    fOf (tieGrid : List (List (Cell K))) {} = DBL_MAX :=
  ⟨rfl, rfl, rfl⟩

/-- Examining neighbours keeps the open set in the order of `operator<`. -/
theorem relaxNeighbors_sorted {s : PathFinder K} {dest start cur : Coordinate}
    {closedSet : List Coordinate} :
    ∀ (todo : List Coordinate) (m : List (List (Cell K))) (openSet : List Coordinate)
      (m1 : List (List (Cell K))) (open1 : List Coordinate),
      openSet.Pairwise (fun a b => a.lt b = true) →
      relaxNeighbors s dest start cur closedSet todo m openSet = some (m1, open1) →
      open1.Pairwise (fun a b => a.lt b = true)
  | [], m, openSet, m1, open1, hs, h => by
    rw [relaxNeighbors] at h
    cases h
    exact hs
  | nb :: rest, m, openSet, m1, open1, hs, h => by
    by_cases hg : isTraversable s nb = false ∨ nb ∈ closedSet
    · rw [relaxNeighbors_skip hg] at h
      exact relaxNeighbors_sorted rest m openSet m1 open1 hs h
    · push_neg at hg
      have ht : isTraversable s nb = true := by
        cases h1 : isTraversable s nb
        · exact absurd h1 hg.1
        · rfl
      have hg2 : ¬ (isTraversable s nb = false ∨ setContains nb closedSet = true) := by
        rintro (h1 | h1)
        · exact hg.1 h1
        · exact hg.2 (setContains_iff.1 h1)
      cases ha : getCell m cur with
      | none =>
        rw [relaxNeighbors, if_neg hg2, ha] at h
        cases h
      | some a =>
        cases hb : getCell m nb with
        | none =>
          rw [relaxNeighbors, if_neg hg2, ha, hb] at h
          cases h
        | some b =>
          by_cases hw : a.g_score + distanceBetween cur nb ≥ b.g_score
          · rw [relaxNeighbors_worse ht hg.2 ha hb hw] at h
            exact relaxNeighbors_sorted rest m openSet m1 open1 hs h
          · cases hm : modifyCell m nb (fun cell : Cell K =>
                { cell with
                  Parent := cur
                  g_score := a.g_score + distanceBetween cur nb
                  f_cost := a.g_score + distanceBetween cur nb + heuristic s nb dest start }) with
            | none =>
              rw [relaxNeighbors, if_neg hg2, ha, hb] at h
              simp only at h
              rw [if_neg hw, hm] at h
              cases h
            | some m2 =>
              rw [relaxNeighbors_better ht hg.2 ha hb hw hm] at h
              refine relaxNeighbors_sorted rest m2 _ m1 open1 ?_ h
              split
              · exact hs
              · exact setInsert_sorted nb openSet hs

/-- One pass of the loop keeps the open set in the order of `operator<`. -/
theorem findPathBody_sorted {pathFuel : ℕ} {dest start : Coordinate}
    {bestPath : List Coordinate} {s s1 : PathFinder K} {openSet closedSet open1 closed1 :
      List Coordinate}
    (hs : openSet.Pairwise (fun a b => a.lt b = true))
    (h : findPathBody pathFuel dest start bestPath s openSet closedSet
      = LoopStep.next s1 open1 closed1) :
    open1.Pairwise (fun a b => a.lt b = true) := by
  unfold findPathBody at h
  split at h
  · cases h
  · split at h
    · cases h
    · split at h
      · cases h
      · split at h
        · cases h
        · split at h
          · cases h
          · rename_i hrelax
            cases h
            refine relaxNeighbors_sorted _ _ _ _ _ ?_ hrelax
            unfold setErase
            exact List.Pairwise.sublist (List.filter_sublist _) hs

/-- Among several members of a sorted open set with the f-cost of the selected member,
the selected one comes first in the order of `operator<`. -/
theorem selectCurrent_before {m : List (List (Cell K))} {openSet : List Coordinate}
    {c0 cur o : Coordinate}
    (hsorted : openSet.Pairwise (fun a b => a.lt b = true))
    (h0 : c0 ∉ openSet) (hsel : selectCurrent m c0 openSet = some cur)
    (hcur : cur ∈ openSet) (ho : o ∈ openSet) (hne : o ≠ cur)
    (htie : fOf m o = fOf m cur) : cur.lt o = true := by
  rcases selectCurrent_first m openSet c0 cur hsel with ⟨h1, _⟩ | ⟨pre, post, h1, h2, _, _⟩
  · exact absurd (h1 ▸ hcur) h0
  · subst h1
    rw [List.pairwise_append] at hsorted
    have hpost := (List.pairwise_cons.1 hsorted.2.1).1
    rcases List.mem_append.1 ho with hp | hp
    · exact absurd htie (ne_of_gt (h2 o hp))
    · rcases List.mem_cons.1 hp with hp | hp
      · exact absurd hp hne
      · exact hpost o hp

/-- The first pass of `FindPath` on a fresh grid, for different endpoints: it closes
`start`, keeps the invariant, and leaves the open set in the order of `operator<`. -/
theorem FindPath_first_pass {s : PathFinder K} (hf : Fresh s)
    (hR : 0 < s.m_robotRadius) (hS : 0 ≤ s.m_safetyMargin)
    (hM : s.M ≤ 1028) (hN : s.N ≤ 1028) {start dest : Coordinate}
    (hts : isTraversable s start = true) (htd : isTraversable s dest = true)
    (hsd : start ≠ dest) (fuel : ℕ) (bestPath : List Coordinate) :
    ∃ (m1 : List (List (Cell K))) (open1 : List Coordinate),
      FindPath (fuel + 1) s start dest bestPath
        = findPathLoop (fuel + 1) dest start bestPath fuel { s with m_map := m1 } open1
            (setInsert start []) ∧
      Inv s start dest m1 open1 (setInsert start []) start [] ∧
      open1.Pairwise (fun a b => a.lt b = true) := by
  obtain ⟨m2, hloop, hinv⟩ := FindPath_enter hf hR hS hts htd (fuel + 1) bestPath
  have hinv2 : Inv { s with m_map := m2 } start dest m2 [start] [] {} [] := inv_with_map m2 hinv
  rcases findPathBody_cases (s := { s with m_map := m2 }) hR hS hM hN (fuel + 1) bestPath hinv2
    with ⟨hempty, _⟩ | ⟨hdest, _, _, _⟩ | ⟨cur, m1, open1, hb, hinv1, hcase⟩
  · cases hempty
  · exact absurd (List.mem_singleton.1 hdest).symm hsd
  · rcases hcase with ⟨hcur, _, _⟩ | ⟨_, _, hstuck, _, _⟩
    · have hcs : cur = start := List.mem_singleton.1 hcur
      subst hcs
      refine ⟨m1, open1, ?_, inv_without_map m2 hinv1,
        findPathBody_sorted (List.pairwise_singleton _ _) hb⟩
      rw [hloop, findPathLoop, hb]
    · have h1 := hstuck start (List.mem_singleton.2 rfl)
      rcases hinv2.start_mem with h | ⟨_, _, h⟩
      · cases h
      · have h2 : fOf m2 start = 0 := h
        have h3 : (DBL_MAX : K) ≤ 0 := by
          rw [← h2]
          exact h1
        exact absurd h3 (not_le.2 DBL_MAX_pos)

theorem demoGrid_trav_bounds {c : Coordinate}
    (ht : isTraversable (demoGrid : PathFinder K) c = true) :
    1 ≤ c.X ∧ c.X ≤ 2 ∧ 1 ≤ c.Y ∧ c.Y ≤ 2 := by
  rw [isTraversable_iff, demoGrid_eq] at ht
  obtain ⟨h1, h2, h3, h4, _⟩ := ht
  simp only [add_zero, Nat.cast_ofNat] at h1 h2 h3 h4
  have hx1 : (1 : K) ≤ (c.X : K) := by linarith
  have hx2 : (c.X : K) < 3 := by linarith
  have hy1 : (1 : K) ≤ (c.Y : K) := by linarith
  have hy2 : (c.Y : K) < 3 := by linarith
  have hx1n : 1 ≤ c.X := by exact_mod_cast hx1
  have hx2n : c.X < 3 := by exact_mod_cast hx2
  have hy1n : 1 ≤ c.Y := by exact_mod_cast hy1
  have hy2n : c.Y < 3 := by exact_mod_cast hy2
  omega

/-- In the 4 by 4 example planner, after the first pass of `FindPath((2,1), (1,2))` the
open set holds (1,1) and (2,2), both with the smallest f-cost, and the scan of the second
pass selects (2,2). -/
theorem demoGrid_tie :
    ∃ (m1 : List (List (Cell K))) (open1 : List Coordinate),
      FindPath 17 (demoGrid : PathFinder K) { X := 2, Y := 1 } { X := 1, Y := 2 } []
        = findPathLoop 17 { X := 1, Y := 2 } { X := 2, Y := 1 } [] 16
            { (demoGrid : PathFinder K) with m_map := m1 } open1
            (setInsert { X := 2, Y := 1 } []) ∧
      ({ X := 1, Y := 1 } : Coordinate) ∈ open1 ∧ ({ X := 2, Y := 2 } : Coordinate) ∈ open1 ∧
      fOf m1 { X := 1, Y := 1 } = fOf m1 { X := 2, Y := 2 } ∧
      (∀ o ∈ open1, fOf m1 { X := 1, Y := 1 } ≤ fOf m1 o) ∧
      selectCurrent m1 {} open1 = some { X := 2, Y := 2 } := by
  obtain ⟨hR, hS, hM, hN, hw⟩ := demoGrid_config (K := K)
  have hM1 : (demoGrid : PathFinder K).M ≤ 1028 := by rw [hM]; decide
  have hN1 : (demoGrid : PathFinder K).N ≤ 1028 := by rw [hN]; decide
  have hts := demoGrid_traversable (K := K) (c := { X := 2, Y := 1 }) (by decide)
  have htd := demoGrid_traversable (K := K) (c := { X := 1, Y := 2 }) (by decide)
  obtain ⟨m1, open1, hrun, hinv, hsorted⟩ := FindPath_first_pass demoGrid_fresh hR hS hM1 hN1
    hts htd (by decide) 16 ([] : List Coordinate)
  have hclosed : ∀ c, c ∈ setInsert ({ X := 2, Y := 1 } : Coordinate) [] ↔
      c = { X := 2, Y := 1 } := by
    intro c
    rw [mem_setInsert]
    simp
  have hmem : ∀ nb, Adjacent ({ X := 2, Y := 1 } : Coordinate) nb →
      isTraversable (demoGrid : PathFinder K) nb = true → nb ∈ open1 := by
    intro nb hadj hnb
    rcases hinv.edges _ ((hclosed _).2 rfl) hts nb hadj hnb with ⟨_, h2⟩ | ⟨h1, _⟩
    · cases h2
    · rcases h1 with h1 | h1
      · exact h1
      · exact absurd ((hclosed nb).1 h1).symm hadj.1
  have hfval : ∀ c ∈ open1, fOf m1 c = distanceBetween ({ X := 2, Y := 1 } : Coordinate) c := by
    intro c hc
    obtain ⟨htc, hcc⟩ := hinv.open_trav c hc
    have hcs : c ≠ { X := 2, Y := 1 } := fun h => hcc ((hclosed c).2 h)
    obtain ⟨hp, _, _, hg⟩ := hinv.parent c htc (Or.inl hc) hcs
    rw [(hclosed _).1 hp] at hg
    rw [hinv.fval c hc hcs, hg, hinv.start_g]
    unfold heuristic
    rw [hw]
    ring
  have h11 : ({ X := 1, Y := 1 } : Coordinate) ∈ open1 :=
    hmem _ (by decide) (demoGrid_traversable (by decide))
  have h22 : ({ X := 2, Y := 2 } : Coordinate) ∈ open1 :=
    hmem _ (by decide) (demoGrid_traversable (by decide))
  have hd11 : (distanceBetween ({ X := 2, Y := 1 } : Coordinate) { X := 1, Y := 1 } : K) = 1 := by
    rw [distanceBetween_adjacent (by decide) (by decide) (by decide) (by decide) (by decide)]
    unfold stepCost
    rw [if_pos (Or.inr rfl)]
  have hd22 : (distanceBetween ({ X := 2, Y := 1 } : Coordinate) { X := 2, Y := 2 } : K) = 1 := by
    rw [distanceBetween_adjacent (by decide) (by decide) (by decide) (by decide) (by decide)]
    unfold stepCost
    rw [if_pos (Or.inl rfl)]
  have hf11 : fOf m1 { X := 1, Y := 1 } = 1 := by rw [hfval _ h11, hd11]
  have hf22 : fOf m1 { X := 2, Y := 2 } = 1 := by rw [hfval _ h22, hd22]
  have hbound : ∀ c ∈ open1, 1 ≤ c.X ∧ c.X ≤ 2 ∧ 1 ≤ c.Y ∧ c.Y ≤ 2 ∧
      c ≠ { X := 2, Y := 1 } := by
    intro c hc
    obtain ⟨htc, hcc⟩ := hinv.open_trav c hc
    obtain ⟨h1, h2, h3, h4⟩ := demoGrid_trav_bounds htc
    exact ⟨h1, h2, h3, h4, fun h => hcc ((hclosed c).2 h)⟩
  have hmin : ∀ o ∈ open1, fOf m1 { X := 1, Y := 1 } ≤ fOf m1 o := by
    intro o ho
    obtain ⟨h1, h2, h3, h4, h5⟩ := hbound o ho
    rw [hf11, hfval o ho]
    exact one_le_distanceBetween (by decide) (by decide) (by show o.X ≤ 1028; omega)
      (by show o.Y ≤ 1028; omega) (fun h => h5 h.symm)
  have hcells : ∀ o ∈ open1, ∃ cell, getCell m1 o = some cell := by
    intro o ho
    obtain ⟨h1, h2, h3, h4, _⟩ := hbound o ho
    exact getCell_of_bounds hinv.dims (by rw [hM]; omega) (by rw [hN]; omega)
  have horigin : ∃ cell, getCell m1 ({} : Coordinate) = some cell :=
    getCell_of_bounds (c := {}) hinv.dims (by rw [hM]; decide) (by rw [hN]; decide)
  obtain ⟨cur, hsel⟩ := selectCurrent_some m1 open1 {} hcells horigin
  obtain ⟨hsp1, hsp2⟩ := selectCurrent_spec m1 open1 {} cur hsel
  have hcur : cur ∈ open1 := by
    rcases hsp1 with h | h
    · have h1 := hsp2 _ h11
      rw [h, hinv.junk, hf11] at h1
      exact absurd h1 (not_le.2 DBL_MAX_one_lt)
    · exact h.1
  have h0 : ({} : Coordinate) ∉ open1 := fun h =>
    origin_not_traversable hR hS (hinv.open_trav _ h).1 rfl
  have hcur1 : fOf m1 cur = 1 :=
    le_antisymm (by rw [← hf11]; exact hsp2 _ h11) (by rw [← hf11]; exact hmin cur hcur)
  refine ⟨m1, open1, hrun, h11, h22, by rw [hf11, hf22], hmin, ?_⟩
  rw [hsel]
  congr 1
  by_contra hne
  have hlt := selectCurrent_before hsorted h0 hsel hcur h22 (fun h => hne h.symm)
    (by rw [hf22, hcur1])
  rw [Coordinate.lt_iff] at hlt
  obtain ⟨_, h2, _, h4, _⟩ := hbound cur hcur
  have hlt2 : 2 < cur.X ∨ (2 = cur.X ∧ 2 < cur.Y) := hlt
  omega

/-! ### What `AddObjects` paints -/

/-- The painting loops of one object, cell by cell: a visited cell within the radius gets
the marker '1' and keeps its other members, every other cell is unchanged. -/
theorem paintObject_cell (object : Object K) :
    ∀ (cs : List Coordinate) (m m1 : List (List (Cell K))),
      paintObject object cs m = some m1 →
      ∀ d cell, getCell m d = some cell →
        ∃ cell1, getCell m1 d = some cell1 ∧
          ((d ∈ cs ∧ distanceBetween4 object.Origin.X object.Origin.Y d.X d.Y ≤ object.Radius) →
            cell1 = { cell with Val := CELL_OCCUPIED_CODE }) ∧
          (¬ (d ∈ cs ∧ distanceBetween4 object.Origin.X object.Origin.Y d.X d.Y ≤ object.Radius) →
            cell1 = cell)
  | [], m, m1, h, d, cell, hd => by
    rw [paintObject] at h
    cases h
    exact ⟨cell, hd, fun hc => (by cases hc.1), fun _ => rfl⟩
  | c :: cs, m, m1, h, d, cell, hd => by
    rw [paintObject] at h
    split at h
    · rename_i htest
      split at h
      · cases h
      · rename_i m2 hm2
        by_cases hdc : d = c
        · subst hdc
          obtain ⟨cell0, h0, h2⟩ := getCell_modifyCell_same hm2
          rw [hd] at h0
          cases h0
          obtain ⟨cell1, hc1, hp, hn⟩ := paintObject_cell object cs m2 m1 h d _ h2
          have hval : cell1 = { cell with Val := CELL_OCCUPIED_CODE } := by
            by_cases hq : d ∈ cs ∧
                distanceBetween4 object.Origin.X object.Origin.Y d.X d.Y ≤ object.Radius
            · exact hp hq
            · exact hn hq
          exact ⟨cell1, hc1, fun _ => hval,
            fun hq => absurd ⟨List.mem_cons_self _ _, htest⟩ hq⟩
        · have h2 : getCell m2 d = some cell := by
            rw [getCell_modifyCell_other hm2 hdc]
            exact hd
          obtain ⟨cell1, hc1, hp, hn⟩ := paintObject_cell object cs m2 m1 h d cell h2
          refine ⟨cell1, hc1, fun hq => hp ⟨?_, hq.2⟩, fun hq => hn fun hq2 => hq ⟨?_, hq2.2⟩⟩
          · rcases List.mem_cons.1 hq.1 with h3 | h3
            · exact absurd h3 hdc
            · exact h3
          · exact List.mem_cons_of_mem _ hq2.1
    · rename_i htest
      obtain ⟨cell1, hc1, hp, hn⟩ := paintObject_cell object cs m m1 h d cell hd
      refine ⟨cell1, hc1, fun hq => hp ⟨?_, hq.2⟩, fun hq => hn fun hq2 => hq ⟨?_, hq2.2⟩⟩
      · rcases List.mem_cons.1 hq.1 with h3 | h3
        · subst h3
          exact absurd hq.2 htest
        · exact h3
      · exact List.mem_cons_of_mem _ hq2.1

/-- The loop over the obstacles, cell by cell: whatever the loop returns, a cell keeps its
g-cost, f-cost and parent and its marker is the old one or '1'; when the loop returns
SUCCESS the marker is '1' exactly for the cells within the radius of one of the obstacles
(measured by the `distanceBetween` of the source) and otherwise the old one. -/
theorem addObjectsLoop_cell (all : List (Object K)) :
    ∀ (rest : List (Object K)) (s s1 : PathFinder K) (r : RetVal),
      addObjectsLoop all rest s = Outcome.done (r, s1) → WellFormed s →
      ∀ d cell, getCell s.m_map d = some cell →
        ∃ cell1, getCell s1.m_map d = some cell1 ∧
          (cell1 = cell ∨ cell1 = { cell with Val := CELL_OCCUPIED_CODE }) ∧
          (r = RetVal.SUCCESS →
            ((∃ o ∈ rest, distanceBetween4 o.Origin.X o.Origin.Y d.X d.Y ≤ o.Radius) →
              cell1 = { cell with Val := CELL_OCCUPIED_CODE }) ∧
            (¬ (∃ o ∈ rest, distanceBetween4 o.Origin.X o.Origin.Y d.X d.Y ≤ o.Radius) →
              cell1 = cell))
  | [], s, s1, r, h, _, d, cell, hd => by
    rw [addObjectsLoop] at h
    cases h
    refine ⟨cell, hd, Or.inl rfl, fun _ => ⟨?_, fun _ => rfl⟩⟩
    rintro ⟨o, ho, _⟩
    cases ho
  | object :: rest, s, s1, r, h, hwf, d, cell, hd => by
    rw [addObjectsLoop] at h
    split at h
    · cases h
      exact ⟨cell, hd, Or.inl rfl, fun hr => (by cases hr)⟩
    · split at h
      · cases h
        exact ⟨cell, hd, Or.inl rfl, fun hr => (by cases hr)⟩
      · split at h
        · cases h
          exact ⟨cell, hd, Or.inl rfl, fun hr => (by cases hr)⟩
        · split at h
          · cases h
          · rename_i m1 hm1
            obtain ⟨m2, hm2, hd2⟩ := paintObject_some object (paintCells s.M s.N) s.m_map hwf
              (fun c hc => mem_paintCells.1 hc)
            rw [hm1] at hm2
            cases hm2
            obtain ⟨cellA, hA, hAp, hAn⟩ :=
              paintObject_cell object (paintCells s.M s.N) s.m_map m1 hm1 d cell hd
            have hmem : d ∈ paintCells s.M s.N := mem_paintCells.2 (getCell_bounds hwf hd)
            obtain ⟨cell1, h1, h1or, h1s⟩ :=
              addObjectsLoop_cell all rest { s with m_map := m1 } s1 r h hd2 d cellA hA
            have hAor : cellA = cell ∨ cellA = { cell with Val := CELL_OCCUPIED_CODE } := by
              by_cases hq : d ∈ paintCells s.M s.N ∧
                  distanceBetween4 object.Origin.X object.Origin.Y d.X d.Y ≤ object.Radius
              · exact Or.inr (hAp hq)
              · exact Or.inl (hAn hq)
            refine ⟨cell1, h1, ?_, ?_⟩
            · rcases h1or with h3 | h3 <;> rcases hAor with h4 | h4
              · exact Or.inl (h3.trans h4)
              · exact Or.inr (h3.trans h4)
              · exact Or.inr (by rw [h3, h4])
              · exact Or.inr (by rw [h3, h4])
            · intro hr
              obtain ⟨hp, hn⟩ := h1s hr
              constructor
              · rintro ⟨o, ho, hq⟩
                by_cases hrest : ∃ o ∈ rest,
                    distanceBetween4 o.Origin.X o.Origin.Y d.X d.Y ≤ o.Radius
                · rw [hp hrest]
                  rcases hAor with h4 | h4 <;> rw [h4]
                · rw [hn hrest]
                  rcases List.mem_cons.1 ho with h5 | h5
                  · subst h5
                    exact hAp ⟨hmem, hq⟩
                  · exact absurd ⟨o, h5, hq⟩ hrest
              · intro hq
                have hrest : ¬ ∃ o ∈ rest,
                    distanceBetween4 o.Origin.X o.Origin.Y d.X d.Y ≤ o.Radius := by
                  rintro ⟨o, ho, h6⟩
                  exact hq ⟨o, List.mem_cons_of_mem _ ho, h6⟩
                rw [hn hrest]
                apply hAn
                rintro ⟨_, h6⟩
                exact hq ⟨object, List.mem_cons_self _ _, h6⟩

/-- A successful `AddObjects` leaves a grid on which no search has written in that state. -/
theorem AddObjects_fresh {s s1 : PathFinder K} {objects : List (Object K)}
    (hf : Fresh s) (hM : s.M < U32) (hN : s.N < U32)
    (h : AddObjects s objects = Outcome.done (RetVal.SUCCESS, s1)) : Fresh s1 := by
  obtain ⟨_, _, hM1, hN1, hwf1, _⟩ := AddObjects_success hf.1 hM hN h
  refine ⟨hwf1, ?_⟩
  intro c cell1 hc1
  have hb := getCell_bounds hwf1 hc1
  rw [hM1, hN1] at hb
  obtain ⟨cell, hcell⟩ := getCell_of_bounds hf.1 hb.1 hb.2
  unfold AddObjects at h
  split at h
  · cases h
  · obtain ⟨cell2, h2, hor, _⟩ := addObjectsLoop_cell objects objects s s1 _ h hf.1 c cell hcell
    rw [hc1] at h2
    cases h2
    obtain ⟨hg, hfc⟩ := hf.2 c cell hcell
    rcases hor with h3 | h3 <;> rw [h3] <;> exact ⟨hg, hfc⟩

/-- A list of at most 1028 valid obstacles is accepted. -/
theorem AddObjects_accepts {s : PathFinder K} (objects : List (Object K))
    (hwf : WellFormed s) (hM : s.M < U32) (hN : s.N < U32) (hlen : objects.length ≤ 1028)
    (hall : ∀ o ∈ objects, ObjectValid s.M s.N o) :
    ∃ s1, AddObjects s objects = Outcome.done (RetVal.SUCCESS, s1) := by
  obtain ⟨s1, hs1, _⟩ := (addObjectsLoop_spec objects objects s hwf hM hN).1 hall
  refine ⟨s1, ?_⟩
  unfold AddObjects
  rw [if_neg (by unfold MAX_OBJECTS; omega)]
  exact hs1

/-- The distance the painting loops compute is the true one inside the grid limit. -/
theorem distanceBetween4_exact {x1 y1 x2 y2 : ℕ} (h1 : x1 ≤ 1028) (h2 : y1 ≤ 1028)
    (h3 : x2 ≤ 1028) (h4 : y2 ≤ 1028) :
    (distanceBetween4 x1 y1 x2 y2 : K)
      = DoubleField.sqrt (((x2 : K) - (x1 : K)) ^ 2 + ((y2 : K) - (y1 : K)) ^ 2) := by
  have h := distanceBetween_exact (K := K) (a := { X := x1, Y := y1 }) (b := { X := x2, Y := y2 })
    h1 h2 h3 h4
  have h5 : (distanceBetween4 x1 y1 x2 y2 : K)
      = distanceBetween { X := x1, Y := y1 } { X := x2, Y := y2 } := rfl
  rw [h5, h]
  congr 1
  simp only
  ring

/-! ### The scenario of the specification: 10 by 10, radius 1, one obstacle -/

/-- The planner after `SetMapSize(10, 10)`, `SetRobotRadius(1.0)` and `AddObjects` of the
obstacle (5,5) of radius 2; margin and weight keep their default 0. -/
theorem scenario_state :
    ∃ s3 : PathFinder K,
      AddObjects (SetRobotRadius (SetMapSize (blank : PathFinder K) 10 10).2 1).2
        [{ Origin := { X := 5, Y := 5 }, Radius := 2 }] = Outcome.done (RetVal.SUCCESS, s3) ∧
      Fresh s3 ∧ s3.M = 10 ∧ s3.N = 10 ∧ s3.m_robotRadius = 1 ∧ s3.m_safetyMargin = 0 ∧
      s3.m_heuristicWeight = 0 ∧
      s3.m_objects = [{ Origin := { X := 5, Y := 5 }, Radius := 2 }] := by
  have h1 := setMapSize_success (blank : PathFinder K) (m := 10) (n := 10) (by decide) (by decide)
  have hf1 := setMapSize_fresh (blank : PathFinder K) (m := 10) (n := 10) (by decide) (by decide)
  have h2 : SetRobotRadius (SetMapSize (blank : PathFinder K) 10 10).2 1
      = (RetVal.SUCCESS, { (SetMapSize (blank : PathFinder K) 10 10).2 with m_robotRadius := 1 }) := by
    rw [h1]
    unfold SetRobotRadius
    norm_num
  have hf2 : Fresh (SetRobotRadius (SetMapSize (blank : PathFinder K) 10 10).2 1).2 := by
    rw [h2]; exact hf1
  have hM2 : (SetRobotRadius (SetMapSize (blank : PathFinder K) 10 10).2 1).2.M = 10 := by
    rw [h2, h1]
  have hN2 : (SetRobotRadius (SetMapSize (blank : PathFinder K) 10 10).2 1).2.N = 10 := by
    rw [h2, h1]
  have hR2 : (SetRobotRadius (SetMapSize (blank : PathFinder K) 10 10).2 1).2.m_robotRadius
      = 1 := by
    rw [h2]
  have hS2 : (SetRobotRadius (SetMapSize (blank : PathFinder K) 10 10).2 1).2.m_safetyMargin
      = 0 := by
    rw [h2, h1]; rfl
  have hW2 : (SetRobotRadius (SetMapSize (blank : PathFinder K) 10 10).2 1).2.m_heuristicWeight
      = 0 := by
    rw [h2, h1]; rfl
  have hMU : (SetRobotRadius (SetMapSize (blank : PathFinder K) 10 10).2 1).2.M < U32 := by
    rw [hM2]; decide
  have hNU : (SetRobotRadius (SetMapSize (blank : PathFinder K) 10 10).2 1).2.N < U32 := by
    rw [hN2]; decide
  obtain ⟨s3, hs3⟩ := AddObjects_accepts
    [({ Origin := { X := 5, Y := 5 }, Radius := 2 } : Object K)]
    hf2.1 hMU hNU (by simp) (by
      intro o ho
      rw [List.mem_singleton] at ho
      subst ho
      rw [hM2, hN2]
      unfold ObjectValid
      norm_num)
  obtain ⟨_, hobj, hM3, hN3, _, hR3, hS3, hW3⟩ := AddObjects_success hf2.1 hMU hNU hs3
  exact ⟨s3, hs3, AddObjects_fresh hf2 hMU hNU hs3, hM3.trans hM2, hN3.trans hN2,
    hR3.trans hR2, hS3.trans hS2, hW3.trans hW2, hobj⟩

/-- In the scenario the cells of row 1 and of column 8, inside the margin, are traversable. -/
theorem scenario_traversable {s : PathFinder K} (hM : s.M = 10) (hN : s.N = 10)
    (hR : s.m_robotRadius = 1) (hS : s.m_safetyMargin = 0)
    (hobj : s.m_objects = [{ Origin := { X := 5, Y := 5 }, Radius := 2 }])
    {c : Coordinate} (h : 1 ≤ c.X ∧ c.X ≤ 8 ∧ 1 ≤ c.Y ∧ c.Y ≤ 8 ∧ (c.Y = 1 ∨ c.X = 8)) :
    isTraversable s c = true := by
  obtain ⟨h1, h2, h3, h4, h5⟩ := h
  have hx1 : (1 : K) ≤ (c.X : K) := by exact_mod_cast h1
  have hx2 : (c.X : K) ≤ 8 := by exact_mod_cast h2
  have hy1 : (1 : K) ≤ (c.Y : K) := by exact_mod_cast h3
  have hy2 : (c.Y : K) ≤ 8 := by exact_mod_cast h4
  rw [isTraversable_iff, hM, hN, hR, hS, hobj]
  refine ⟨by linarith, by linarith, by push_cast; linarith, by push_cast; linarith, ?_⟩
  intro o ho
  rw [List.mem_singleton] at ho
  subst ho
  rw [distanceBetween_exact (by omega) (by omega) (by norm_num) (by norm_num)]
  apply le_sqrt_of_sq_le (by positivity)
  show ((1 : K) + 0 + 2) * (1 + 0 + 2) ≤ ((c.X : K) - ((5 : ℕ) : K)) ^ 2
    + ((c.Y : K) - ((5 : ℕ) : K)) ^ 2
  push_cast
  rcases h5 with h5 | h5
  · rw [h5]
    push_cast
    nlinarith [sq_nonneg ((c.X : K) - 5)]
  · rw [h5]
    push_cast
    nlinarith [sq_nonneg ((c.Y : K) - 5)]

/-- In the scenario a traversable cell is at true distance at least 3 from (5,5). -/
theorem scenario_far {s : PathFinder K} (hM : s.M = 10) (hN : s.N = 10)
    (hR : s.m_robotRadius = 1) (hS : s.m_safetyMargin = 0)
    (hobj : s.m_objects = [{ Origin := { X := 5, Y := 5 }, Radius := 2 }])
    {c : Coordinate} (ht : isTraversable s c = true) :
    (3 : K) ≤ DoubleField.sqrt (((c.X : K) - 5) ^ 2 + ((c.Y : K) - 5) ^ 2) := by
  obtain ⟨_, _, hx, hy⟩ := isTraversable_bounds (by rw [hR]; exact zero_lt_one)
    (by rw [hS]) ht
  rw [hN] at hx
  rw [hM] at hy
  obtain ⟨_, _, _, _, h5⟩ := isTraversable_iff.1 ht
  have h6 := h5 { Origin := { X := 5, Y := 5 }, Radius := 2 } (by rw [hobj]; simp)
  rw [distanceBetween_exact (by omega) (by omega) (by norm_num) (by norm_num), hR, hS] at h6
  have h7 : ((c.X : K) - ((5 : ℕ) : K)) ^ 2 + ((c.Y : K) - ((5 : ℕ) : K)) ^ 2
      = ((c.X : K) - 5) ^ 2 + ((c.Y : K) - 5) ^ 2 := by
    push_cast
    rfl
  simp only [h7] at h6
  linarith

/-- In the scenario `scenarioDetour` is a path from (1,1) to (8,8). -/
theorem scenario_path {s : PathFinder K} (hM : s.M = 10) (hN : s.N = 10)
    (hR : s.m_robotRadius = 1) (hS : s.m_safetyMargin = 0)
    (hobj : s.m_objects = [{ Origin := { X := 5, Y := 5 }, Radius := 2 }]) :
    ValidPath s { X := 1, Y := 1 } { X := 8, Y := 8 } scenarioDetour := by
  refine ⟨rfl, rfl, ?_, ?_⟩
  · intro c hc
    apply scenario_traversable hM hN hR hS hobj
    have hall : ∀ d ∈ scenarioDetour,
        1 ≤ d.X ∧ d.X ≤ 8 ∧ 1 ≤ d.Y ∧ d.Y ≤ 8 ∧ (d.Y = 1 ∨ d.X = 8) := by decide
    exact hall c hc
  · unfold scenarioDetour
    simp only [List.chain'_cons, List.chain'_singleton, and_true]
    decide

/-- In the scenario the search from (1,1) to (8,8) returns SUCCESS with a valid path that
is no longer than any other. -/
theorem scenario_search {s : PathFinder K} (hf : Fresh s) (hM : s.M = 10) (hN : s.N = 10)
    (hR : s.m_robotRadius = 1) (hS : s.m_safetyMargin = 0) (hW : s.m_heuristicWeight = 0)
    (hobj : s.m_objects = [{ Origin := { X := 5, Y := 5 }, Radius := 2 }]) :
    ∃ s4 p, FindPath 101 s { X := 1, Y := 1 } { X := 8, Y := 8 } []
        = Outcome.done (RetVal.SUCCESS, s4, p) ∧
      ValidPath s { X := 1, Y := 1 } { X := 8, Y := 8 } p ∧
      ∀ q, ValidPath s { X := 1, Y := 1 } { X := 8, Y := 8 } q →
        (pathLength p : K) ≤ pathLength q := by
  have hR0 : 0 < s.m_robotRadius := by rw [hR]; exact zero_lt_one
  have hS0 : 0 ≤ s.m_safetyMargin := by rw [hS]
  have hM1 : s.M ≤ 1028 := by rw [hM]; decide
  have hN1 : s.N ≤ 1028 := by rw [hN]; decide
  have hts : isTraversable s { X := 1, Y := 1 } = true :=
    scenario_traversable hM hN hR hS hobj (by decide)
  have htd : isTraversable s { X := 8, Y := 8 } = true :=
    scenario_traversable hM hN hR hS hobj (by decide)
  rcases FindPath_total hf hR0 hS0 hM1 hN1 (le_of_eq hW.symm)
    (by rw [hW]; exact weight_zero_bound) hts htd 101 (by rw [hM, hN])
    with ⟨_, _, _, hno⟩ | ⟨s4, p, h⟩
  · exact absurd ⟨_, scenario_path hM hN hR hS hobj⟩ hno
  · refine ⟨s4, p, h, ?_⟩
    obtain ⟨m2, hloop, hinv⟩ := FindPath_enter hf hR0 hS0 hts htd 101 []
    rw [hloop] at h
    obtain ⟨hv, hopt⟩ := findPathLoop_success 101 101 { s with m_map := m2 }
      [{ X := 1, Y := 1 }] [] {} s4 p hR0 hS0 hM1 hN1 (inv_with_map m2 hinv) h
    exact ⟨hv, hopt hW⟩

/-! ### A second search on the grid a first search has written to -/

theorem isTraversable_congr {s s1 : PathFinder K} (h : SameConfig s s1) (c : Coordinate) :
    isTraversable s1 c = isTraversable s c := by
  obtain ⟨hM, hN, hR, hS, _, hO⟩ := h
  unfold isTraversable
  rw [hM, hN, hR, hS, hO]

/-- The parent walk of `constructPath` writes markers only. -/
theorem walkParents_data (start : Coordinate) :
    ∀ (fuel : ℕ) (c : Coordinate) (m : List (List (Cell K))) (path : List Coordinate)
      (m2 : List (List (Cell K))) (p2 : List Coordinate),
      walkParents start fuel c m path = Outcome.done (m2, p2) →
      (∀ d, gOf m2 d = gOf m d ∧ fOf m2 d = fOf m d) ∧
        ∀ M N, Dims m M N → Dims m2 M N := by
  intro fuel
  induction fuel with
  | zero =>
    intro c m path m2 p2 h
    rw [walkParents] at h
    cases h
  | succ fuel ih =>
    intro c m path m2 p2 h
    rw [walkParents] at h
    split at h
    · split at h
      · cases h
      · rename_i m1 hm1
        split at h
        · cases h
        · obtain ⟨h1, h2⟩ := ih _ _ _ _ _ h
          refine ⟨fun d => ?_, fun M N hd => h2 M N (dims_modifyCell hm1 hd)⟩
          have h3 := search_data_modifyCell hm1 (fun cell => ⟨rfl, rfl, rfl⟩) d
          exact ⟨(h1 d).1.trans h3.1, (h1 d).2.trans h3.2.1⟩
    · cases h
      exact ⟨fun d => ⟨rfl, rfl⟩, fun M N hd => hd⟩

/-- The method `constructPath` writes markers only. -/
theorem constructPath_data {fuel : ℕ} {s s1 : PathFinder K} {dest start : Coordinate}
    {path p1 : List Coordinate} {r : RetVal}
    (h : constructPath fuel s dest start path = Outcome.done (r, s1, p1)) :
    SameConfig s s1 ∧ (∀ d, gOf s1.m_map d = gOf s.m_map d ∧ fOf s1.m_map d = fOf s.m_map d) ∧
      ∀ M N, Dims s.m_map M N → Dims s1.m_map M N := by
  unfold constructPath at h
  split at h
  · cases h
  · cases h
  · rename_i m1 path1 hwalk
    obtain ⟨h1, h2⟩ := walkParents_data start fuel dest s.m_map path m1 path1 hwalk
    split at h
    · cases h
    · rename_i m2 hm2
      split at h
      · cases h
      · rename_i m3 hm3
        cases h
        refine ⟨⟨rfl, rfl, rfl, rfl, rfl, rfl⟩, fun d => ?_,
          fun M N hd => dims_modifyCell hm3 (dims_modifyCell hm2 (h2 M N hd))⟩
        have h3 := search_data_modifyCell hm2 (fun cell => ⟨rfl, rfl, rfl⟩) d
        have h4 := search_data_modifyCell hm3 (fun cell => ⟨rfl, rfl, rfl⟩) d
        exact ⟨h4.1.trans (h3.1.trans (h1 d).1), h4.2.1.trans (h3.2.1.trans (h1 d).2)⟩

/-- What the loop of `FindPath` leaves when it returns, for a destination other than the
start: the configuration is kept, the default cell (0,0) still has the f-cost `DBL_MAX`,
and every traversable neighbour of `start` holds a g-cost of at most its distance from
`start`. -/
theorem findPathLoop_post {start dest : Coordinate} (pathFuel : ℕ)
    (bestPath : List Coordinate) (hne : dest ≠ start) :
    ∀ (fuel : ℕ) (s : PathFinder K) (openSet closedSet : List Coordinate) (cur0 : Coordinate)
      (r : RetVal) (s1 : PathFinder K) (p1 : List Coordinate),
      0 < s.m_robotRadius → 0 ≤ s.m_safetyMargin → s.M ≤ 1028 → s.N ≤ 1028 →
      Inv s start dest s.m_map openSet closedSet cur0 [] →
      findPathLoop pathFuel dest start bestPath fuel s openSet closedSet
        = Outcome.done (r, s1, p1) →
      SameConfig s s1 ∧ Dims s1.m_map s.M s.N ∧ fOf s1.m_map {} = DBL_MAX ∧
        ∀ nb, Adjacent start nb → isTraversable s nb = true →
          gOf s1.m_map nb ≤ distanceBetween start nb := by
  intro fuel
  induction fuel with
  | zero =>
    intro s openSet closedSet cur0 r s1 p1 _ _ _ _ _ h
    rw [findPathLoop] at h
    cases h
  | succ fuel ih =>
    intro s openSet closedSet cur0 r s1 p1 hR hS hM hN hinv h
    rw [findPathLoop] at h
    have hstale : start ∈ closedSet → ∀ nb, Adjacent start nb → isTraversable s nb = true →
        gOf s.m_map nb ≤ distanceBetween start nb := by
      intro hsc nb hadj hnb
      rcases hinv.edges start hsc hinv.start_trav nb hadj hnb with ⟨_, h1⟩ | ⟨_, h1⟩
      · cases h1
      · have h2 := h1 (Or.inr rfl)
        rw [hinv.start_g, zero_add] at h2
        exact h2
    rcases findPathBody_cases hR hS hM hN pathFuel bestPath hinv with
      ⟨hempty, hb⟩ | ⟨hdest, _, _, hb⟩ | ⟨cur, m1, open1, hb, hinv1, _⟩
    · rw [hb] at h
      simp only at h
      cases h
      have hsc : start ∈ closedSet := by
        rcases hinv.start_mem with h1 | ⟨h1, _⟩
        · exact h1
        · rw [hempty] at h1
          cases h1
      exact ⟨⟨rfl, rfl, rfl, rfl, rfl, rfl⟩, hinv.dims, hinv.junk, hstale hsc⟩
    · rw [hb] at h
      simp only at h
      have hsc : start ∈ closedSet := by
        rcases hinv.start_mem with h1 | ⟨h1, _⟩
        · exact h1
        · rw [h1] at hdest
          exact absurd (List.mem_singleton.1 hdest) hne
      obtain ⟨hcfg, hdata, hdims⟩ := constructPath_data h
      refine ⟨hcfg, hdims _ _ hinv.dims, ?_, ?_⟩
      · rw [(hdata {}).2]
        exact hinv.junk
      · intro nb hadj hnb
        rw [(hdata nb).1]
        exact hstale hsc nb hadj hnb
    · rw [hb] at h
      simp only at h
      exact ih { s with m_map := m1 } open1 (setInsert cur closedSet) cur r s1 p1 hR hS hM hN
        (inv_with_map m1 hinv1) h

/-- What a call of `FindPath` on a fresh grid leaves when it returns, for traversable
endpoints that differ. -/
theorem FindPath_post {s : PathFinder K} (hf : Fresh s)
    (hR : 0 < s.m_robotRadius) (hS : 0 ≤ s.m_safetyMargin)
    (hM : s.M ≤ 1028) (hN : s.N ≤ 1028) {start dest : Coordinate}
    (hts : isTraversable s start = true) (htd : isTraversable s dest = true)
    (hne : dest ≠ start) {fuel : ℕ} {bestPath p1 : List Coordinate} {r : RetVal}
    {s1 : PathFinder K}
    (h : FindPath fuel s start dest bestPath = Outcome.done (r, s1, p1)) :
    (r = RetVal.SUCCESS ∨ r = RetVal.FAIL_NO_PATH) ∧
      SameConfig s s1 ∧ Dims s1.m_map s.M s.N ∧ fOf s1.m_map {} = DBL_MAX ∧
        ∀ nb, Adjacent start nb → isTraversable s nb = true →
          gOf s1.m_map nb ≤ distanceBetween start nb := by
  obtain ⟨m2, hloop, hinv⟩ := FindPath_enter hf hR hS hts htd fuel bestPath
  rw [hloop] at h
  exact ⟨findPathLoop_retVal _ _ _ _ _ _ _ _ _ _ _ h,
    findPathLoop_post fuel bestPath hne fuel { s with m_map := m2 } [start] [] {} r s1 p1
      hR hS hM hN (inv_with_map m2 hinv) h⟩

/-- When every traversable neighbour of `start` already holds a g-cost of at most its
distance from `start`, examining the neighbours of `start` changes nothing. -/
theorem relaxNeighbors_stale {s : PathFinder K} (dest : Coordinate) {start : Coordinate}
    {m : List (List (Cell K))} {a : Cell K}
    (hR : 0 < s.m_robotRadius) (hS : 0 ≤ s.m_safetyMargin) (hd : Dims m s.M s.N)
    (ha : getCell m start = some a) (hg : a.g_score = 0)
    (hstale : ∀ nb, Adjacent start nb → isTraversable s nb = true →
      gOf m nb ≤ distanceBetween start nb)
    {closedSet : List Coordinate} (hsc : start ∈ closedSet) (openSet : List Coordinate) :
    ∀ todo : List Coordinate, (∀ nb ∈ todo, nb = start ∨ Adjacent start nb) →
      relaxNeighbors s dest start start closedSet todo m openSet = some (m, openSet)
  | [], _ => by rw [relaxNeighbors]
  | nb :: rest, htodo => by
    have ih := relaxNeighbors_stale dest hR hS hd ha hg hstale hsc openSet rest
      (fun c hc => htodo c (List.mem_cons_of_mem _ hc))
    by_cases hskip : isTraversable s nb = false ∨ nb ∈ closedSet
    · rw [relaxNeighbors_skip hskip]
      exact ih
    · push_neg at hskip
      have hnb : isTraversable s nb = true := by
        cases h1 : isTraversable s nb
        · exact absurd h1 hskip.1
        · rfl
      have hadj : Adjacent start nb := by
        rcases htodo nb (List.mem_cons_self _ _) with h1 | h1
        · rw [h1] at hskip
          exact absurd hsc hskip.2
        · exact h1
      obtain ⟨_, _, hx, hy⟩ := isTraversable_bounds hR hS hnb
      obtain ⟨b, hb⟩ := getCell_of_bounds hd hy hx
      have hw : a.g_score + distanceBetween start nb ≥ b.g_score := by
        rw [hg, zero_add, ← gOf_of_getCell hb]
        exact hstale nb hadj hnb
      rw [relaxNeighbors_worse hnb hskip.2 ha hb hw]
      exact ih

/-- On a grid where every traversable neighbour of `start` already holds a g-cost of at
most its distance from `start`, `FindPath` from `start` to another cell closes `start`,
adds nothing to the open set and returns FAIL_NO_PATH in its second pass. -/
theorem FindPath_stale {s : PathFinder K} (hwf : WellFormed s)
    (hR : 0 < s.m_robotRadius) (hS : 0 ≤ s.m_safetyMargin)
    (hM : s.M ≤ 1028) (hN : s.N ≤ 1028) {start goal : Coordinate}
    (hts : isTraversable s start = true) (htg : isTraversable s goal = true)
    (hne : goal ≠ start) (hjunk : fOf s.m_map {} = DBL_MAX)
    (hstale : ∀ nb, Adjacent start nb → isTraversable s nb = true →
      gOf s.m_map nb ≤ distanceBetween start nb)
    (fuel : ℕ) (hfuel : 2 ≤ fuel) (bestPath : List Coordinate) :
    ∃ s2, FindPath fuel s start goal bestPath
      = Outcome.done (RetVal.FAIL_NO_PATH, s2, bestPath) := by
  obtain ⟨hx1, hy1, hxN, hyM⟩ := isTraversable_bounds hR hS hts
  obtain ⟨k, rfl⟩ : ∃ k, fuel = k + 2 := ⟨fuel - 2, by omega⟩
  have hd0 : Dims s.m_map s.M s.N := hwf
  obtain ⟨cell0, hcell0⟩ := getCell_of_bounds hd0 hyM hxN
  obtain ⟨m1, hm1⟩ := modifyCell_of_getCell (fun cell : Cell K => { cell with f_cost := 0 }) hcell0
  obtain ⟨_, hc1a, hc1⟩ := getCell_modifyCell_same hm1
  obtain ⟨m2, hm2⟩ := modifyCell_of_getCell (fun cell : Cell K => { cell with g_score := 0 }) hc1
  obtain ⟨cell2, hc2a, hc2⟩ := getCell_modifyCell_same hm2
  have hd2 : Dims m2 s.M s.N := dims_modifyCell hm2 (dims_modifyCell hm1 hd0)
  have hne0 : ({} : Coordinate) ≠ start := by
    intro h
    rw [← h] at hx1
    exact absurd hx1 (by decide)
  obtain ⟨b, hb⟩ := getCell_of_bounds (c := {}) hd0 (by show 0 < s.M; omega)
    (by show 0 < s.N; omega)
  have hb2 : getCell m2 {} = some b := by
    rw [getCell_modifyCell_other hm2 hne0, getCell_modifyCell_other hm1 hne0, hb]
  have hbf : b.f_cost = DBL_MAX := by
    rw [← fOf_of_getCell hb]
    exact hjunk
  have hcf : cell2.f_cost = 0 := by
    rw [hc1] at hc2a
    cases hc2a
    rfl
  have hsel : selectCurrent m2 {} [start] = some start := by
    rw [selectCurrent, hc2, hb2]
    simp only
    rw [hcf, hbf, if_pos DBL_MAX_pos]
    rfl
  have hstale2 : ∀ nb, Adjacent start nb →
      isTraversable ({ s with m_map := m2 } : PathFinder K) nb = true →
      gOf m2 nb ≤ distanceBetween start nb := by
    intro nb hadj hnb
    have hnbs : nb ≠ start := fun h => hadj.1 h.symm
    rw [gOf_modifyCell_other hm2 hnbs, gOf_modifyCell_other hm1 hnbs]
    exact hstale nb hadj hnb
  obtain ⟨l, hl, hmem⟩ := getNeighbors_spec (c := start) hx1 (by omega) hy1 (by omega)
  have hrelax : relaxNeighbors ({ s with m_map := m2 } : PathFinder K) goal start start
      (setInsert start []) l m2 (setErase start [start])
        = some (m2, setErase start [start]) := by
    apply relaxNeighbors_stale (s := ({ s with m_map := m2 } : PathFinder K)) goal hR hS hd2 hc2 rfl
      hstale2 (mem_setInsert.2 (Or.inl rfl))
    intro nb hnb
    by_cases h1 : nb = start
    · exact Or.inl h1
    · exact Or.inr ⟨fun h => h1 h.symm, (hmem nb).1 hnb⟩
  have herase : setErase start [start] = [] := by
    apply List.eq_nil_iff_forall_not_mem.2
    intro c hc
    obtain ⟨h1, h2⟩ := mem_setErase.1 hc
    exact h2 (List.mem_singleton.1 h1)
  have hbody1 : findPathBody (k + 2) goal start bestPath { s with m_map := m2 } [start] []
      = LoopStep.next { s with m_map := m2 } [] (setInsert start []) := by
    unfold findPathBody
    simp only [hsel]
    rw [if_neg (by simp), if_neg (by
      rw [Coordinate.eq_iff]
      exact fun h => hne h.symm)]
    rw [herase] at hrelax
    simp only [hl, herase, hrelax]
  have hbody2 : findPathBody (k + 2) goal start bestPath { s with m_map := m2 } []
        (setInsert start [])
      = LoopStep.finished (Outcome.done (RetVal.FAIL_NO_PATH, { s with m_map := m2 }, bestPath)) := by
    unfold findPathBody
    simp only [selectCurrent, hb2]
    rw [if_pos (show ([] : List Coordinate).isEmpty = true from rfl)]
  refine ⟨{ s with m_map := m2 }, ?_⟩
  unfold FindPath
  rw [if_neg (by simp [hts, htg])]
  simp only [hm1, hm2]
  rw [findPathLoop, hbody1]
  simp only
  rw [findPathLoop, hbody2]

/-! ### Rounding to a nearest double -/

theorem isDouble_zero : IsDouble (0 : K) :=
  ⟨0, 0, 0, by norm_num, by norm_num, by norm_num, by simp⟩

/-- A natural number below `2^53` is a double. -/
theorem isDouble_natCast {n : ℕ} (h : n < 2 ^ 53) : IsDouble (n : K) := by
  refine ⟨n, 0, 0, ?_, by norm_num, by norm_num, by simp⟩
  rw [abs_of_nonneg (Int.natCast_nonneg n)]
  exact_mod_cast h

/-- A double is returned as it is. -/
theorem fl_eq_self (A : Binary64 K) {d : K} (hd : IsDouble d) : A.fl d = d := by
  have h := A.fl_nearest d d hd
  rw [sub_self, abs_zero] at h
  have h2 := abs_nonpos_iff.1 h
  exact (sub_eq_zero.1 h2).symm

theorem fl_natCast (A : Binary64 K) {n : ℕ} (h : n < 2 ^ 53) : A.fl (n : K) = n :=
  fl_eq_self A (isDouble_natCast h)

theorem fl_zero (A : Binary64 K) : A.fl 0 = 0 := fl_eq_self A isDouble_zero

/-- Of two points, the one nearer to `x` lies on the near side of their midpoint. -/
theorem nearer_side {x a b : K} (hab : a < b) (h : |x - b| ≤ |x - a|) : a + b ≤ 2 * x := by
  have h2 := sq_le_sq.2 h
  nlinarith

/-- Rounding to a nearest double keeps the order. -/
theorem fl_mono (A : Binary64 K) {x y : K} (hxy : x ≤ y) : A.fl x ≤ A.fl y := by
  by_contra hc
  push_neg at hc
  have h1 := nearer_side hc (A.fl_nearest x (A.fl y) (A.fl_double y))
  have h2 : |y - A.fl y| ≤ |y - A.fl x| := A.fl_nearest y (A.fl x) (A.fl_double x)
  have h3 : 2 * y ≤ A.fl y + A.fl x := by
    have h4 := sq_le_sq.2 h2
    nlinarith
  have h5 : x = y := le_antisymm hxy (by linarith)
  rw [h5] at hc
  exact lt_irrefl _ hc

theorem fl_nonneg (A : Binary64 K) {x : K} (hx : 0 ≤ x) : 0 ≤ A.fl x := by
  have h := fl_mono A hx
  rwa [fl_zero] at h

/-- Every double is a whole multiple of the smallest positive double `2^(-1074)`. -/
theorem double_grid {d : K} (hd : IsDouble d) : ∃ k : ℤ, d * 2 ^ 1074 = (k : K) := by
  obtain ⟨m, a, b, _, _, hb, h⟩ := hd
  obtain ⟨j, hj⟩ := Nat.exists_eq_add_of_le hb
  refine ⟨m * 2 ^ (a + j), ?_⟩
  rw [hj, pow_add, ← mul_assoc, h]
  push_cast
  ring

/-- A negative whole multiple of the smallest positive double is not rounded to zero. -/
theorem fl_neg_of_neg (A : Binary64 K) {x : K} (hx : x < 0)
    (hk : ∃ k : ℤ, x * 2 ^ 1074 = (k : K)) : A.fl x < 0 := by
  obtain ⟨k, hk⟩ := hk
  have hP : (0 : K) < 2 ^ 1074 := pow_pos two_pos _
  have hd : IsDouble (-(1 / (2 : K) ^ 1074)) := by
    refine ⟨-1, 0, 1074, by norm_num, by norm_num, le_refl _, ?_⟩
    rw [neg_mul, one_div, inv_mul_cancel₀ (ne_of_gt hP)]
    simp
  generalize (2 : K) ^ 1074 = P at hk hP hd
  have hle : A.fl x ≤ 0 := by
    have h := fl_mono A (le_of_lt hx)
    rwa [fl_zero] at h
  rcases lt_or_eq_of_le hle with h | h
  · exact h
  · exfalso
    have hk0 : (k : K) < 0 := by
      rw [← hk]
      exact mul_neg_of_neg_of_pos hx hP
    have hk1 : k ≤ -1 := by
      have : k < 0 := by exact_mod_cast hk0
      omega
    have hk2 : (k : K) ≤ -1 := by exact_mod_cast hk1
    have hxP : x * P ≤ -1 := by rw [hk]; exact hk2
    have hnear := A.fl_nearest x (-(1 / P)) hd
    rw [h, sub_zero, abs_of_neg hx] at hnear
    have hu : 0 < 1 / P := one_div_pos.2 hP
    have hxu : 1 / P ≤ -x := by
      rw [div_le_iff₀ hP]
      linarith
    rw [abs_of_nonpos (by linarith)] at hnear
    linarith

/-- A double `d` with `2^53 ≤ d * 2^(q+1)` is a whole multiple of `2^(-q)`: its
significand has 53 bits. -/
theorem double_ulp {d : K} (hd : IsDouble d) (q : ℕ) (h2 : (2 : K) ^ 53 ≤ d * 2 ^ (q + 1)) :
    ∃ k : ℤ, d * 2 ^ q = (k : K) := by
  obtain ⟨m, a, b, hm, _, _, h⟩ := hd
  have hmK : (m : K) < 2 ^ 53 := by
    have h1 : m < 2 ^ 53 := (abs_lt.1 hm).2
    exact_mod_cast h1
  by_cases hb : b ≤ a + q
  · obtain ⟨j, hj⟩ := Nat.exists_eq_add_of_le hb
    refine ⟨m * 2 ^ j, ?_⟩
    have hb0 : (2 : K) ^ b ≠ 0 := pow_ne_zero _ two_ne_zero
    apply mul_right_cancel₀ hb0
    have h3 : d * 2 ^ q * 2 ^ b = d * 2 ^ b * 2 ^ q := by ring
    rw [h3, h]
    push_cast
    rw [mul_assoc, ← pow_add, hj, mul_assoc, ← pow_add]
    congr 2
    omega
  · exfalso
    push_neg at hb
    obtain ⟨j, hj⟩ := Nat.exists_eq_add_of_le (Nat.succ_le_of_lt hb)
    have ha0 : (2 : K) ^ a ≠ 0 := pow_ne_zero _ two_ne_zero
    have h3 : d * 2 ^ (q + 1 + j) = (m : K) := by
      apply mul_right_cancel₀ ha0
      rw [mul_assoc, ← pow_add, ← h]
      congr 2
      omega
    have hj1 : (1 : K) ≤ 2 ^ j := one_le_pow₀ (by norm_num)
    have h4 : (2 : K) ^ 53 ≤ d * 2 ^ (q + 1 + j) := by
      rw [pow_add, ← mul_assoc]
      calc (2 : K) ^ 53 = 2 ^ 53 * 1 := by ring
        _ ≤ d * 2 ^ (q + 1) * 2 ^ j :=
          mul_le_mul h2 hj1 zero_le_one (le_trans (by positivity) h2)
    rw [h3] at h4
    exact absurd hmK (not_lt.2 h4)

/-- The sum `1 + 2^(-54)` is rounded to 1. -/
theorem fl_one_plus (A : Binary64 K) : A.fl (1 + 1 / 2 ^ 54) = 1 := by
  have hnear := A.fl_nearest (1 + 1 / 2 ^ 54) 1 (by
    have := isDouble_natCast (K := K) (n := 1) (by norm_num)
    simpa using this)
  have h1 : |(1 : K) + 1 / 2 ^ 54 - 1| = 1 / 2 ^ 54 := by
    rw [add_sub_cancel_left, abs_of_pos (by positivity)]
  rw [h1] at hnear
  obtain ⟨hlo, hhi⟩ := abs_le.1 hnear
  have hge : (1 : K) ≤ A.fl (1 + 1 / 2 ^ 54) := by linarith
  have hle : A.fl (1 + 1 / 2 ^ 54) ≤ 1 + 1 / 2 ^ 53 := by
    have : (1 : K) / 2 ^ 54 + 1 / 2 ^ 54 = 1 / 2 ^ 53 := by norm_num
    linarith
  obtain ⟨k, hk⟩ := double_ulp (A.fl_double (1 + 1 / 2 ^ 54)) 52 (by
    have : (2 : K) ^ 53 * 1 ≤ 2 ^ 53 * A.fl (1 + 1 / 2 ^ 54) :=
      mul_le_mul_of_nonneg_left hge (by positivity)
    linarith)
  have hk1 : (2 : K) ^ 52 ≤ (k : K) := by
    rw [← hk]
    have : (1 : K) * 2 ^ 52 ≤ A.fl (1 + 1 / 2 ^ 54) * 2 ^ 52 :=
      mul_le_mul_of_nonneg_right hge (by positivity)
    linarith
  have hk2 : (k : K) < 2 ^ 52 + 1 := by
    rw [← hk]
    have : A.fl (1 + 1 / 2 ^ 54) * 2 ^ 52 ≤ (1 + 1 / 2 ^ 53) * 2 ^ 52 :=
      mul_le_mul_of_nonneg_right hle (by positivity)
    have h3 : ((1 : K) + 1 / 2 ^ 53) * 2 ^ 52 = 2 ^ 52 + 1 / 2 := by norm_num
    linarith
  have hk3 : (2 : ℤ) ^ 52 ≤ k := by exact_mod_cast hk1
  have hk4 : k < 2 ^ 52 + 1 := by exact_mod_cast hk2
  have hk5 : k = 2 ^ 52 := by omega
  rw [hk5] at hk
  have h52 : (2 : K) ^ 52 ≠ 0 := pow_ne_zero _ two_ne_zero
  apply mul_right_cancel₀ h52
  rw [hk]
  push_cast
  ring

/-- The correctly rounded square root of 13 is the double `8118979690322419 / 2^51`
(3.605551275463989), whose square is less than 13. -/
theorem fl_sqrt_13 (A : Binary64 K) :
    A.fl (DoubleField.sqrt 13) = 8118979690322419 / 2 ^ 51 := by
  have ht0 : (0 : K) ≤ DoubleField.sqrt 13 := DoubleField.sqrt_nonneg 13
  have ht2 : DoubleField.sqrt (13 : K) * DoubleField.sqrt 13 = 13 :=
    DoubleField.sqrt_mul_self 13 (by norm_num)
  generalize DoubleField.sqrt (13 : K) = t at ht0 ht2 ⊢
  have hr : IsDouble ((8118979690322419 : K) / 2 ^ 51) := by
    refine ⟨8118979690322419, 0, 51, by norm_num, by norm_num, by norm_num, ?_⟩
    norm_num
  have hlo : (8118979690322419 : K) / 2 ^ 51 - 1 / 2 ^ 52 < t := by
    by_contra hc
    push_neg at hc
    have h1 := mul_self_le_mul_self ht0 hc
    rw [ht2] at h1
    norm_num at h1
  have hhi : t < (8118979690322419 : K) / 2 ^ 51 + 1 / 2 ^ 52 := by
    by_contra hc
    push_neg at hc
    have h1 := mul_self_le_mul_self (by positivity) hc
    rw [ht2] at h1
    norm_num at h1
  have hnear := A.fl_nearest t _ hr
  have hd : |t - (8118979690322419 : K) / 2 ^ 51| < 1 / 2 ^ 52 := by
    rw [abs_lt]
    constructor <;> linarith
  have hfl : |t - A.fl t| < 1 / 2 ^ 52 := lt_of_le_of_lt hnear hd
  obtain ⟨h1, h2⟩ := abs_lt.1 hfl
  have hge : (2 : K) ≤ A.fl t := by
    have : (2 : K) + 1 / 2 ^ 52 + 1 / 2 ^ 52 ≤ 8118979690322419 / 2 ^ 51 := by norm_num
    linarith
  obtain ⟨k, hk⟩ := double_ulp (A.fl_double t) 51 (by
    have : (2 : K) * 2 ^ 52 ≤ A.fl t * 2 ^ 52 :=
      mul_le_mul_of_nonneg_right hge (by positivity)
    have h3 : (2 : K) ^ 53 = 2 * 2 ^ 52 := by norm_num
    rw [h3]
    exact this)
  have h51 : (0 : K) < 2 ^ 51 := by positivity
  have hk1 : (k : K) < 8118979690322419 + 1 := by
    rw [← hk]
    have h3 : A.fl t < 8118979690322419 / 2 ^ 51 + 1 / 2 ^ 51 := by
      have : (1 : K) / 2 ^ 52 + 1 / 2 ^ 52 = 1 / 2 ^ 51 := by norm_num
      linarith
    have h4 := mul_lt_mul_of_pos_right h3 h51
    have h5 : ((8118979690322419 : K) / 2 ^ 51 + 1 / 2 ^ 51) * 2 ^ 51
        = 8118979690322419 + 1 := by
      field_simp
    rw [h5] at h4
    exact h4
  have hk2 : (8118979690322419 : K) - 1 < (k : K) := by
    rw [← hk]
    have h3 : (8118979690322419 : K) / 2 ^ 51 - 1 / 2 ^ 51 < A.fl t := by
      have : (1 : K) / 2 ^ 52 + 1 / 2 ^ 52 = 1 / 2 ^ 51 := by norm_num
      linarith
    have h4 := mul_lt_mul_of_pos_right h3 h51
    have h5 : ((8118979690322419 : K) / 2 ^ 51 - 1 / 2 ^ 51) * 2 ^ 51
        = 8118979690322419 - 1 := by
      field_simp
    rw [h5] at h4
    exact h4
  have hk3 : k < 8118979690322419 + 1 := by exact_mod_cast hk1
  have hk4 : (8118979690322419 : ℤ) - 1 < k := by exact_mod_cast hk2
  have hk5 : k = 8118979690322419 := by omega
  rw [hk5] at hk
  rw [eq_div_iff (ne_of_gt h51), hk]
  norm_num

/-- The double `8118979690322419 / 2^51` is less than the square root of 13. -/
theorem sqrt_13_gt : (8118979690322419 : K) / 2 ^ 51 < DoubleField.sqrt 13 := by
  have ht0 : (0 : K) ≤ DoubleField.sqrt 13 := DoubleField.sqrt_nonneg 13
  have ht2 : DoubleField.sqrt (13 : K) * DoubleField.sqrt 13 = 13 :=
    DoubleField.sqrt_mul_self 13 (by norm_num)
  generalize DoubleField.sqrt (13 : K) = t at ht0 ht2 ⊢
  by_contra hc
  push_neg at hc
  have h1 := mul_self_le_mul_self ht0 hc
  rw [ht2] at h1
  norm_num at h1

/-- The correctly rounded square root is at most a double that the exact one does not
exceed, and is within 1 of the exact square root of a natural number. -/
theorem fl_sqrt_le (A : Binary64 K) {x r : K} (hr : IsDouble r)
    (h : DoubleField.sqrt x ≤ r) : A.fl (DoubleField.sqrt x) ≤ r := by
  have h1 := fl_mono A h
  rwa [fl_eq_self A hr] at h1

/-! ### The oracle in binary64 -/

theorem collidesF_iff (A : Binary64 K) {c : Coordinate} {rs : K} {objs : List (ObjectF K)} :
    collidesF A c rs objs = true ↔
      ∃ o ∈ objs, ∃ r, o.Radius = some r ∧
        distanceBetweenF A c.X c.Y o.Origin.X o.Origin.Y < A.fl (rs + r) := by
  induction objs with
  | nil => simp [collidesF]
  | cons o rest ih =>
    rw [collidesF]
    split
    · rename_i h
      simp only [true_iff]
      unfold ltSumNan at h
      split at h
      · rename_i x hx
        exact ⟨o, List.mem_cons_self _ _, x, hx, of_decide_eq_true h⟩
      · cases h
    · rename_i h
      rw [ih]
      constructor
      · rintro ⟨o1, ho1, h1⟩
        exact ⟨o1, List.mem_cons_of_mem _ ho1, h1⟩
      · rintro ⟨o1, ho1, r, hr, h1⟩
        rcases List.mem_cons.1 ho1 with rfl | ho1
        · exfalso
          apply h
          unfold ltSumNan
          rw [hr]
          exact decide_eq_true h1
        · exact ⟨o1, ho1, r, hr, h1⟩

/-- The method `isTraversable` in binary64, test by test. -/
theorem isTraversableF_iff (A : Binary64 K) {s : PathFinderF K} {c : Coordinate} :
    isTraversableF A s c = true ↔
      (0 ≤ A.fl ((c.X : K) - A.fl (s.m_robotRadius + s.m_safetyMargin)) ∧
       0 ≤ A.fl ((c.Y : K) - A.fl (s.m_robotRadius + s.m_safetyMargin)) ∧
       A.fl ((c.X : K) + A.fl (s.m_robotRadius + s.m_safetyMargin)) < (s.N : K) ∧
       A.fl ((c.Y : K) + A.fl (s.m_robotRadius + s.m_safetyMargin)) < (s.M : K) ∧
       ∀ o ∈ s.m_objects, ∀ r, o.Radius = some r →
         A.fl (A.fl (s.m_robotRadius + s.m_safetyMargin) + r)
           ≤ distanceBetweenF A c.X c.Y o.Origin.X o.Origin.Y) := by
  unfold isTraversableF
  split
  · rename_i h
    simp only [Bool.false_eq_true, false_iff]
    rintro ⟨h1, h2, _⟩
    rcases h with h | h
    · exact absurd h1 (not_le.2 h)
    · exact absurd h2 (not_le.2 h)
  · rename_i h
    push_neg at h
    split
    · rename_i h2
      simp only [Bool.false_eq_true, false_iff]
      rintro ⟨_, _, h3, h4, _⟩
      rcases h2 with h2 | h2
      · exact absurd h3 (not_lt.2 h2)
      · exact absurd h4 (not_lt.2 h2)
    · rename_i h2
      push_neg at h2
      rw [Bool.not_eq_true', ← Bool.not_eq_true, collidesF_iff]
      constructor
      · intro h3
        refine ⟨h.1, h.2, h2.1, h2.2, ?_⟩
        intro o ho r hr
        by_contra h4
        exact h3 ⟨o, ho, r, hr, not_le.1 h4⟩
      · rintro ⟨_, _, _, _, h3⟩ ⟨o, ho, r, hr, h4⟩
        exact absurd (h3 o ho r hr) (not_le.2 h4)

/-- The difference of a converted `uint32_t` and a double is rounded to a value `≥ 0`
exactly when the exact difference is `≥ 0`. -/
theorem fl_sub_nonneg_iff (A : Binary64 K) (n : ℕ) {d : K} (hd : IsDouble d) :
    0 ≤ A.fl ((n : K) - d) ↔ d ≤ (n : K) := by
  constructor
  · intro h
    by_contra hc
    push_neg at hc
    obtain ⟨k, hk⟩ := double_grid hd
    have hneg := fl_neg_of_neg A (sub_neg.2 hc) ⟨(n : ℤ) * 2 ^ 1074 - k, by
      rw [sub_mul, hk, Int.cast_sub, Int.cast_mul, Int.cast_pow, Int.cast_natCast,
        Int.cast_ofNat]⟩
    exact absurd h (not_le.2 hneg)
  · intro h
    exact fl_nonneg A (sub_nonneg.2 h)

/-- A rounded sum below a natural number comes from an exact sum below it. -/
theorem lt_of_fl_lt_natCast (A : Binary64 K) {x : K} {n : ℕ} (hn : n < 2 ^ 53)
    (h : A.fl x < (n : K)) : x < (n : K) := by
  by_contra hc
  push_neg at hc
  have h1 := fl_mono A hc
  rw [fl_natCast A hn] at h1
  exact absurd h (not_lt.2 h1)

/-! ### What `AddObjects` paints in binary64 -/

theorem paintObjectF_some (A : Binary64 K) (object : ObjectF K) {M N : ℕ} :
    ∀ (cs : List Coordinate) (m : List (List (Cell K))), Dims m M N →
      (∀ c ∈ cs, c.Y < M ∧ c.X < N) →
      ∃ m1, paintObjectF A object cs m = some m1 ∧ Dims m1 M N
  | [], m, hd, _ => ⟨m, rfl, hd⟩
  | c :: cs, m, hd, hcs => by
    have hc := hcs c (List.mem_cons_self _ _)
    have hrest : ∀ d ∈ cs, d.Y < M ∧ d.X < N := fun d hdm => hcs d (List.mem_cons_of_mem _ hdm)
    unfold paintObjectF
    split
    · obtain ⟨cell, hcell⟩ := getCell_of_bounds hd hc.1 hc.2
      obtain ⟨m1, hm1⟩ := modifyCell_of_getCell
        (fun cell => { cell with Val := CELL_OCCUPIED_CODE }) hcell
      rw [hm1]
      exact paintObjectF_some A object cs m1 (dims_modifyCell hm1 hd) hrest
    · exact paintObjectF_some A object cs m hd hrest

/-- An obstacle whose radius is NaN paints nothing. -/
theorem paintObjectF_nan (A : Binary64 K) {object : ObjectF K} (hr : object.Radius = none) :
    ∀ (cs : List Coordinate) (m : List (List (Cell K))),
      paintObjectF A object cs m = some m
  | [], m => rfl
  | c :: cs, m => by
    rw [paintObjectF, hr]
    simp only [leNan, Bool.false_eq_true, if_false]
    exact paintObjectF_nan A hr cs m

/-- The painting loops of one object in binary64, cell by cell. -/
theorem paintObjectF_cell (A : Binary64 K) (object : ObjectF K) :
    ∀ (cs : List Coordinate) (m m1 : List (List (Cell K))),
      paintObjectF A object cs m = some m1 →
      ∀ d cell, getCell m d = some cell →
        ∃ cell1, getCell m1 d = some cell1 ∧
          ((d ∈ cs ∧ leNan (distanceBetweenF A object.Origin.X object.Origin.Y d.X d.Y)
              object.Radius = true) →
            cell1 = { cell with Val := CELL_OCCUPIED_CODE }) ∧
          (¬ (d ∈ cs ∧ leNan (distanceBetweenF A object.Origin.X object.Origin.Y d.X d.Y)
              object.Radius = true) →
            cell1 = cell)
  | [], m, m1, h, d, cell, hd => by
    rw [paintObjectF] at h
    cases h
    exact ⟨cell, hd, fun hc => (by cases hc.1), fun _ => rfl⟩
  | c :: cs, m, m1, h, d, cell, hd => by
    rw [paintObjectF] at h
    split at h
    · rename_i htest
      split at h
      · cases h
      · rename_i m2 hm2
        by_cases hdc : d = c
        · subst hdc
          obtain ⟨cell0, h0, h2⟩ := getCell_modifyCell_same hm2
          rw [hd] at h0
          cases h0
          obtain ⟨cell1, hc1, hp, hn⟩ := paintObjectF_cell A object cs m2 m1 h d _ h2
          have hval : cell1 = { cell with Val := CELL_OCCUPIED_CODE } := by
            by_cases hq : d ∈ cs ∧
                leNan (distanceBetweenF A object.Origin.X object.Origin.Y d.X d.Y)
                  object.Radius = true
            · exact hp hq
            · exact hn hq
          exact ⟨cell1, hc1, fun _ => hval,
            fun hq => absurd ⟨List.mem_cons_self _ _, htest⟩ hq⟩
        · have h2 : getCell m2 d = some cell := by
            rw [getCell_modifyCell_other hm2 hdc]
            exact hd
          obtain ⟨cell1, hc1, hp, hn⟩ := paintObjectF_cell A object cs m2 m1 h d cell h2
          refine ⟨cell1, hc1, fun hq => hp ⟨?_, hq.2⟩, fun hq => hn fun hq2 => hq ⟨?_, hq2.2⟩⟩
          · rcases List.mem_cons.1 hq.1 with h3 | h3
            · exact absurd h3 hdc
            · exact h3
          · exact List.mem_cons_of_mem _ hq2.1
    · rename_i htest
      obtain ⟨cell1, hc1, hp, hn⟩ := paintObjectF_cell A object cs m m1 h d cell hd
      refine ⟨cell1, hc1, fun hq => hp ⟨?_, hq.2⟩, fun hq => hn fun hq2 => hq ⟨?_, hq2.2⟩⟩
      · rcases List.mem_cons.1 hq.1 with h3 | h3
        · subst h3
          exact absurd hq.2 htest
        · exact h3
      · exact List.mem_cons_of_mem _ hq2.1

/-- The loop over the obstacles in binary64, cell by cell: the dimensions are kept; when
the loop returns SUCCESS the list is stored, every obstacle has passed the origin tests,
and a cell carries '1' exactly when it is within the radius of one of the obstacles as
`distanceBetween` measures it, and its old marker otherwise. -/
theorem addObjectsLoopF_cell (A : Binary64 K) (all : List (ObjectF K)) :
    ∀ (rest : List (ObjectF K)) (s s1 : PathFinderF K) (r : RetVal),
      addObjectsLoopF A all rest s = Outcome.done (r, s1) → Dims s.m_map s.M s.N →
      (s1.M = s.M ∧ s1.N = s.N ∧
        (r = RetVal.SUCCESS → s1.m_objects = all ∧
          ∀ o ∈ rest, ¬ o.Origin.X > usub s.N 1 ∧ ¬ o.Origin.Y > usub s.M 1)) ∧
      ∀ d cell, getCell s.m_map d = some cell →
        ∃ cell1, getCell s1.m_map d = some cell1 ∧
          (cell1 = cell ∨ cell1 = { cell with Val := CELL_OCCUPIED_CODE }) ∧
          (r = RetVal.SUCCESS →
            ((∃ o ∈ rest, leNan (distanceBetweenF A o.Origin.X o.Origin.Y d.X d.Y)
                o.Radius = true) →
              cell1 = { cell with Val := CELL_OCCUPIED_CODE }) ∧
            (¬ (∃ o ∈ rest, leNan (distanceBetweenF A o.Origin.X o.Origin.Y d.X d.Y)
                o.Radius = true) →
              cell1 = cell))
  | [], s, s1, r, h, _ => by
    rw [addObjectsLoopF] at h
    cases h
    refine ⟨⟨rfl, rfl, fun _ => ⟨rfl, fun o ho => (by cases ho)⟩⟩, fun d cell hd => ?_⟩
    refine ⟨cell, hd, Or.inl rfl, fun _ => ⟨?_, fun _ => rfl⟩⟩
    rintro ⟨o, ho, _⟩
    cases ho
  | object :: rest, s, s1, r, h, hwf => by
    rw [addObjectsLoopF] at h
    split at h
    · cases h
      exact ⟨⟨rfl, rfl, fun hr => (by cases hr)⟩,
        fun d cell hd => ⟨cell, hd, Or.inl rfl, fun hr => (by cases hr)⟩⟩
    · rename_i hox
      split at h
      · cases h
        exact ⟨⟨rfl, rfl, fun hr => (by cases hr)⟩,
          fun d cell hd => ⟨cell, hd, Or.inl rfl, fun hr => (by cases hr)⟩⟩
      · rename_i hoy
        split at h
        · cases h
          exact ⟨⟨rfl, rfl, fun hr => (by cases hr)⟩,
            fun d cell hd => ⟨cell, hd, Or.inl rfl, fun hr => (by cases hr)⟩⟩
        · split at h
          · cases h
          · rename_i m1 hm1
            obtain ⟨m2, hm2, hd2⟩ := paintObjectF_some A object (paintCells s.M s.N) s.m_map
              hwf (fun c hc => mem_paintCells.1 hc)
            rw [hm1] at hm2
            cases hm2
            obtain ⟨⟨hM1, hN1, hS1⟩, hcells⟩ :=
              addObjectsLoopF_cell A all rest { s with m_map := m1 } s1 r h hd2
            refine ⟨⟨hM1, hN1, fun hr => ⟨(hS1 hr).1, fun o ho => ?_⟩⟩, fun d cell hd => ?_⟩
            · rcases List.mem_cons.1 ho with h5 | h5
              · rw [h5]
                exact ⟨hox, hoy⟩
              · exact (hS1 hr).2 o h5
            obtain ⟨cellA, hA, hAp, hAn⟩ :=
              paintObjectF_cell A object (paintCells s.M s.N) s.m_map m1 hm1 d cell hd
            have hmem : d ∈ paintCells s.M s.N := mem_paintCells.2 (getCell_bounds hwf hd)
            obtain ⟨cell1, h1, h1or, h1s⟩ := hcells d cellA hA
            have hAor : cellA = cell ∨ cellA = { cell with Val := CELL_OCCUPIED_CODE } := by
              by_cases hq : d ∈ paintCells s.M s.N ∧
                  leNan (distanceBetweenF A object.Origin.X object.Origin.Y d.X d.Y)
                    object.Radius = true
              · exact Or.inr (hAp hq)
              · exact Or.inl (hAn hq)
            refine ⟨cell1, h1, ?_, ?_⟩
            · rcases h1or with h3 | h3 <;> rcases hAor with h4 | h4
              · exact Or.inl (h3.trans h4)
              · exact Or.inr (h3.trans h4)
              · exact Or.inr (by rw [h3, h4])
              · exact Or.inr (by rw [h3, h4])
            · intro hr
              obtain ⟨hp, hn⟩ := h1s hr
              constructor
              · rintro ⟨o, ho, hq⟩
                by_cases hrest : ∃ o ∈ rest,
                    leNan (distanceBetweenF A o.Origin.X o.Origin.Y d.X d.Y) o.Radius = true
                · rw [hp hrest]
                  rcases hAor with h4 | h4 <;> rw [h4]
                · rw [hn hrest]
                  rcases List.mem_cons.1 ho with h5 | h5
                  · subst h5
                    exact hAp ⟨hmem, hq⟩
                  · exact absurd ⟨o, h5, hq⟩ hrest
              · intro hq
                have hrest : ¬ ∃ o ∈ rest,
                    leNan (distanceBetweenF A o.Origin.X o.Origin.Y d.X d.Y)
                      o.Radius = true := by
                  rintro ⟨o, ho, h6⟩
                  exact hq ⟨o, List.mem_cons_of_mem _ ho, h6⟩
                rw [hn hrest]
                apply hAn
                rintro ⟨_, h6⟩
                exact hq ⟨object, List.mem_cons_self _ _, h6⟩

/-- The exact square root of a natural number below `2^53` is less than its correctly
rounded value plus 1. -/
theorem sqrt_lt_fl_add_one (A : Binary64 K) (n : ℕ) (hn : n < 2 ^ 53) :
    DoubleField.sqrt (n : K) < A.fl (DoubleField.sqrt (n : K)) + 1 := by
  have hk1 : Nat.sqrt n * Nat.sqrt n ≤ n := Nat.sqrt_le n
  have hk2 : n < (Nat.sqrt n + 1) * (Nat.sqrt n + 1) := Nat.lt_succ_sqrt n
  have hk3 : Nat.sqrt n < 2 ^ 53 := lt_of_le_of_lt (Nat.sqrt_le_self n) hn
  have hlo : ((Nat.sqrt n : ℕ) : K) ≤ DoubleField.sqrt (n : K) := by
    apply le_sqrt_of_sq_le (Nat.cast_nonneg n)
    exact_mod_cast hk1
  have hhi : DoubleField.sqrt (n : K) < ((Nat.sqrt n : ℕ) : K) + 1 := by
    by_contra hc
    push_neg at hc
    have h1 := mul_self_le_mul_self (by positivity) hc
    rw [DoubleField.sqrt_mul_self _ (Nat.cast_nonneg n)] at h1
    have h2 : (Nat.sqrt n + 1) * (Nat.sqrt n + 1) ≤ n := by exact_mod_cast h1
    omega
  have hnear := A.fl_nearest (DoubleField.sqrt (n : K)) _ (isDouble_natCast hk3)
  rw [abs_of_nonneg (sub_nonneg.2 hlo)] at hnear
  have h3 := (abs_le.1 hnear).2
  linarith

/-! ### What `AddObjects` accepts in binary64 -/

theorem leNan_iff {d : K} {a : Option K} :
    leNan d a = true ↔ ∃ r, a = some r ∧ d ≤ r := by
  cases a with
  | none => simp [leNan]
  | some x => simp [leNan]

/-- The three tests `AddObjects` makes on an obstacle, with a radius that may be NaN. -/
theorem objectChecksF_iff {M N : ℕ} (hM : M < U32) (hN : N < U32) (o : ObjectF K)
    (hX : o.Origin.X < U32) (hY : o.Origin.Y < U32) :
    (¬ o.Origin.X > usub N 1 ∧ ¬ o.Origin.Y > usub M 1 ∧
      ¬ (nanGt o.Radius (M : K) = true ∨ nanGt o.Radius (N : K) = true
        ∨ nanLe o.Radius 0 = true)) ↔ ObjectAcceptedF M N o := by
  unfold ObjectAcceptedF
  cases hr : o.Radius with
  | none =>
    simp only [nanGt, nanLe, Bool.false_eq_true, or_self, not_false_eq_true, and_true]
    have hx : ¬ o.Origin.X > usub N 1 ↔ (N = 0 ∨ o.Origin.X < N) := by
      by_cases h0 : N = 0
      · subst h0
        rw [usub_zero_one]
        unfold U32 at *
        omega
      · rw [usub_one (by omega) hN]
        omega
    have hy : ¬ o.Origin.Y > usub M 1 ↔ (M = 0 ∨ o.Origin.Y < M) := by
      by_cases h0 : M = 0
      · subst h0
        rw [usub_zero_one]
        unfold U32 at *
        omega
      · rw [usub_one (by omega) hM]
        omega
    rw [hx, hy]
  | some r =>
    simp only [nanGt, nanLe, decide_eq_true_eq]
    constructor
    · rintro ⟨hx, hy, hrr⟩
      push_neg at hrr
      obtain ⟨hrM, hrN, hr0⟩ := hrr
      have hM0 : 0 < M := by
        have : (0 : K) < (M : K) := lt_of_lt_of_le hr0 hrM
        exact_mod_cast this
      have hN0 : 0 < N := by
        have : (0 : K) < (N : K) := lt_of_lt_of_le hr0 hrN
        exact_mod_cast this
      rw [usub_one hN0 hN] at hx
      rw [usub_one hM0 hM] at hy
      exact ⟨by omega, by omega, hr0, le_min hrM hrN⟩
    · rintro ⟨hx, hy, hr0, hrr⟩
      have hM0 : 1 ≤ M := by omega
      have hN0 : 1 ≤ N := by omega
      rw [usub_one hN0 hN, usub_one hM0 hM]
      refine ⟨by omega, by omega, ?_⟩
      push_neg
      exact ⟨le_trans hrr (min_le_left _ _), le_trans hrr (min_le_right _ _), hr0⟩

theorem addObjectsLoopF_spec (A : Binary64 K) (all : List (ObjectF K)) :
    ∀ (rest : List (ObjectF K)) (s : PathFinderF K), Dims s.m_map s.M s.N →
      s.M < U32 → s.N < U32 → (∀ o ∈ rest, o.Origin.X < U32 ∧ o.Origin.Y < U32) →
      ((∀ o ∈ rest, ObjectAcceptedF s.M s.N o) →
        ∃ s1, addObjectsLoopF A all rest s = Outcome.done (RetVal.SUCCESS, s1) ∧
          s1.m_objects = all ∧ s1.M = s.M ∧ s1.N = s.N ∧ Dims s1.m_map s1.M s1.N ∧
          s1.m_robotRadius = s.m_robotRadius ∧ s1.m_safetyMargin = s.m_safetyMargin ∧
          s1.m_heuristicWeight = s.m_heuristicWeight) ∧
      ((¬ ∀ o ∈ rest, ObjectAcceptedF s.M s.N o) →
        ∃ s1, addObjectsLoopF A all rest s = Outcome.done (RetVal.FAIL_PARAM, s1))
  | [], s, hwf, _, _, _ => by
    refine ⟨fun _ => ⟨_, rfl, rfl, rfl, rfl, hwf, rfl, rfl, rfl⟩, fun h => ?_⟩
    exact absurd (fun o ho => by cases ho) h
  | object :: rest, s, hwf, hM, hN, hU => by
    have hUo := hU object (List.mem_cons_self _ _)
    have hchk := objectChecksF_iff (K := K) hM hN object hUo.1 hUo.2
    by_cases hv : ObjectAcceptedF s.M s.N object
    · obtain ⟨h1, h2, h3⟩ := hchk.2 hv
      obtain ⟨m1, hm1, hd1⟩ := paintObjectF_some A object (paintCells s.M s.N) s.m_map hwf
        (fun c hc => mem_paintCells.1 hc)
      have ih := addObjectsLoopF_spec A all rest { s with m_map := m1 } hd1 hM hN
        (fun o ho => hU o (List.mem_cons_of_mem _ ho))
      have hstep : addObjectsLoopF A all (object :: rest) s
          = addObjectsLoopF A all rest { s with m_map := m1 } := by
        rw [addObjectsLoopF, if_neg h1, if_neg h2, if_neg h3, hm1]
      rw [hstep]
      constructor
      · intro hall
        exact ih.1 (fun o ho => hall o (List.mem_cons_of_mem _ ho))
      · intro hnall
        apply ih.2
        intro hall
        apply hnall
        intro o ho
        rcases List.mem_cons.1 ho with rfl | ho
        · exact hv
        · exact hall o ho
    · constructor
      · intro hall
        exact absurd (hall object (List.mem_cons_self _ _)) hv
      · intro _
        have hfail : ¬ (¬ object.Origin.X > usub s.N 1 ∧ ¬ object.Origin.Y > usub s.M 1 ∧
            ¬ (nanGt object.Radius (s.M : K) = true ∨ nanGt object.Radius (s.N : K) = true
              ∨ nanLe object.Radius 0 = true)) :=
          fun h => hv (hchk.1 h)
        rw [addObjectsLoopF]
        split
        · exact ⟨s, rfl⟩
        · split
          · exact ⟨s, rfl⟩
          · split
            · exact ⟨s, rfl⟩
            · rename_i h1 h2 h3
              exact absurd ⟨h1, h2, h3⟩ hfail

/-- In binary64 and with radii that may be NaN: on a grid of `M` rows and `N` columns (0
included) `AddObjects` returns SUCCESS exactly when the list has at most 1028 obstacles
and every obstacle passes the three tests, which a NaN radius does; otherwise it returns
FAIL_PARAM; on SUCCESS the retained list is the list passed. -/
theorem AddObjectsF_validation (A : Binary64 K) (s : PathFinderF K)
    (hwf : Dims s.m_map s.M s.N) (hM : s.M < U32) (hN : s.N < U32)
    (objects : List (ObjectF K))
    (hU : ∀ o ∈ objects, o.Origin.X < U32 ∧ o.Origin.Y < U32) :
    ((∃ s1, AddObjectsF A s objects = Outcome.done (RetVal.SUCCESS, s1)) ↔
      (objects.length ≤ 1028 ∧ ∀ o ∈ objects, ObjectAcceptedF s.M s.N o)) ∧
    (¬ (objects.length ≤ 1028 ∧ ∀ o ∈ objects, ObjectAcceptedF s.M s.N o) →
      ∃ s1, AddObjectsF A s objects = Outcome.done (RetVal.FAIL_PARAM, s1)) ∧
    (∀ s1, AddObjectsF A s objects = Outcome.done (RetVal.SUCCESS, s1) →
      s1.m_objects = objects) := by
  have hloop := addObjectsLoopF_spec A objects objects s hwf hM hN hU
  by_cases hlen : objects.length > MAX_OBJECTS
  · have h1 : AddObjectsF A s objects = Outcome.done (RetVal.FAIL_PARAM, s) := by
      unfold AddObjectsF
      rw [if_pos hlen]
    have hlen1 : ¬ objects.length ≤ 1028 := by
      unfold MAX_OBJECTS at hlen
      omega
    rw [h1]
    refine ⟨⟨?_, fun h => absurd h.1 hlen1⟩, fun _ => ⟨s, rfl⟩, ?_⟩
    · rintro ⟨s1, hs1⟩
      cases hs1
    · intro s1 hs1
      cases hs1
  · have h1 : AddObjectsF A s objects = addObjectsLoopF A objects objects s := by
      unfold AddObjectsF
      rw [if_neg hlen]
    have hlen1 : objects.length ≤ 1028 := by
      unfold MAX_OBJECTS at hlen
      omega
    rw [h1]
    by_cases hall : ∀ o ∈ objects, ObjectAcceptedF s.M s.N o
    · obtain ⟨s1, hs1, hobj, _⟩ := hloop.1 hall
      rw [hs1]
      refine ⟨⟨fun _ => ⟨hlen1, hall⟩, fun _ => ⟨s1, rfl⟩⟩, fun h => absurd ⟨hlen1, hall⟩ h, ?_⟩
      intro s2 hs2
      cases hs2
      exact hobj
    · obtain ⟨s1, hs1⟩ := hloop.2 hall
      rw [hs1]
      refine ⟨⟨?_, fun h => absurd h.2 hall⟩, fun _ => ⟨s1, rfl⟩, ?_⟩
      · rintro ⟨s2, hs2⟩
        cases hs2
      · intro s2 hs2
        cases hs2

/-- The grid of `freshF m n` has `m` rows of `n` cells. -/
theorem freshF_dims (m n : ℕ) (r sm : K) :
    Dims (freshF m n r sm).m_map (freshF m n r sm).M (freshF m n r sm).N := by
  refine ⟨by simp [freshF], ?_⟩
  intro row hrow
  simp only [freshF, List.mem_map, List.mem_range] at hrow
  obtain ⟨_, _, rfl⟩ := hrow
  simp [freshF]

/-- Every cell of the grid of `freshF m n` is `newCell '0'`. -/
theorem getCell_freshF {m n : ℕ} {r sm : K} {c : Coordinate} {cell : Cell K}
    (hc : getCell (freshF m n r sm).m_map c = some cell) :
    cell = newCell CELL_UNOCCUPIED_CODE := by
  obtain ⟨row, hr, hx⟩ := getCell_eq_some_iff.1 hc
  have hrow : row ∈ (List.range m).map fun _ =>
      (List.range n).map fun _ => (newCell CELL_UNOCCUPIED_CODE : Cell K) :=
    List.mem_iff_getElem?.2 ⟨_, hr⟩
  simp only [List.mem_map, List.mem_range] at hrow
  obtain ⟨_, _, rfl⟩ := hrow
  have hcell : cell ∈ (List.range n).map fun _ => (newCell CELL_UNOCCUPIED_CODE : Cell K) :=
    List.mem_iff_getElem?.2 ⟨_, hx⟩
  simp only [List.mem_map, List.mem_range] at hcell
  obtain ⟨_, _, rfl⟩ := hcell
  rfl

/-- On a grid of at most 1028 rows and columns that carries '0' everywhere, after a
successful `AddObjects(objects)` in binary64 a cell carries '1' exactly when the rounded
distance that `distanceBetween` returns to the origin of some obstacle is at most the
radius of that obstacle, and '0' otherwise. -/
theorem AddObjectsF_cell (A : Binary64 K) (s : PathFinderF K) (hwf : Dims s.m_map s.M s.N)
    (hM : s.M ≤ 1028) (hN : s.N ≤ 1028)
    (hzero : ∀ c cell, getCell s.m_map c = some cell → cell.Val = CELL_UNOCCUPIED_CODE)
    (objects : List (ObjectF K)) (s1 : PathFinderF K)
    (h : AddObjectsF A s objects = Outcome.done (RetVal.SUCCESS, s1))
    (c : Coordinate) (hx : c.X < s.N) (hy : c.Y < s.M) :
    ∃ cell1, getCell s1.m_map c = some cell1 ∧
      (cell1.Val = CELL_OCCUPIED_CODE ↔
        ∃ o ∈ objects, ∃ r, o.Radius = some r ∧
          A.fl (DoubleField.sqrt (((c.X : K) - (o.Origin.X : K)) ^ 2
            + ((c.Y : K) - (o.Origin.Y : K)) ^ 2)) ≤ r) ∧
      (cell1.Val = CELL_OCCUPIED_CODE ∨ cell1.Val = CELL_UNOCCUPIED_CODE) := by
  have hMU : s.M < U32 := by unfold U32; omega
  have hNU : s.N < U32 := by unfold U32; omega
  obtain ⟨cell, hcell⟩ := getCell_of_bounds hwf hy hx
  have hv := hzero c cell hcell
  unfold AddObjectsF at h
  split at h
  · cases h
  · obtain ⟨⟨_, _, hS⟩, hcells⟩ := addObjectsLoopF_cell A objects objects s s1 _ h hwf
    obtain ⟨_, horig⟩ := hS rfl
    have hexact : ∀ o ∈ objects,
        distanceBetweenF A o.Origin.X o.Origin.Y c.X c.Y
          = A.fl (DoubleField.sqrt (((c.X : K) - (o.Origin.X : K)) ^ 2
            + ((c.Y : K) - (o.Origin.Y : K)) ^ 2)) := by
      intro o ho
      obtain ⟨hox, hoy⟩ := horig o ho
      rw [usub_one (by omega) hNU] at hox
      rw [usub_one (by omega) hMU] at hoy
      unfold distanceBetweenF
      rw [distanceBetween4_exact (by omega) (by omega) (by omega) (by omega)]
    obtain ⟨cell1, h1, _, hs⟩ := hcells c cell hcell
    obtain ⟨hp, hn⟩ := hs rfl
    refine ⟨cell1, h1, ?_⟩
    by_cases hq : ∃ o ∈ objects,
        leNan (distanceBetweenF A o.Origin.X o.Origin.Y c.X c.Y) o.Radius = true
    · rw [hp hq]
      refine ⟨⟨fun _ => ?_, fun _ => rfl⟩, Or.inl rfl⟩
      obtain ⟨o, ho, h2⟩ := hq
      obtain ⟨r, hr, h3⟩ := leNan_iff.1 h2
      exact ⟨o, ho, r, hr, by rw [← hexact o ho]; exact h3⟩
    · rw [hn hq, hv]
      refine ⟨⟨fun h2 => ?_, fun h2 => ?_⟩, Or.inr rfl⟩
      · exact absurd h2 (by decide)
      · obtain ⟨o, ho, r, hr, h3⟩ := h2
        exact absurd ⟨o, ho, leNan_iff.2 ⟨r, hr, by rw [hexact o ho]; exact h3⟩⟩ hq

/-- Inside the 1028 limit the square root of the exact squared distance is less than its
correctly rounded value plus 1. -/
theorem sqrt_dist_lt_fl_add_one (A : Binary64 K) {x1 y1 x2 y2 : ℕ} (h1 : x1 ≤ 1028)
    (h2 : y1 ≤ 1028) (h3 : x2 ≤ 1028) (h4 : y2 ≤ 1028) :
    DoubleField.sqrt (((x2 : K) - (x1 : K)) ^ 2 + ((y2 : K) - (y1 : K)) ^ 2)
      < A.fl (DoubleField.sqrt (((x2 : K) - (x1 : K)) ^ 2 + ((y2 : K) - (y1 : K)) ^ 2))
        + 1 := by
  rw [← distanceBetween4_exact h1 h2 h3 h4]
  show DoubleField.sqrt ((uadd (umul (usub x1 x2) (usub x1 x2))
      (umul (usub y1 y2) (usub y1 y2)) : ℕ) : K) < _
  apply sqrt_lt_fl_add_one
  unfold uadd U32
  have := Nat.mod_lt (umul (usub x1 x2) (usub x1 x2) + umul (usub y1 y2) (usub y1 y2))
    (show 0 < 4294967296 by norm_num)
  omega

/-- The origin tests that every obstacle of a list accepted in binary64 has passed. -/
theorem AddObjectsF_origin (A : Binary64 K) {s s1 : PathFinderF K}
    {objects : List (ObjectF K)} (hwf : Dims s.m_map s.M s.N)
    (h : AddObjectsF A s objects = Outcome.done (RetVal.SUCCESS, s1)) :
    ∀ o ∈ objects, ¬ o.Origin.X > usub s.N 1 ∧ ¬ o.Origin.Y > usub s.M 1 := by
  unfold AddObjectsF at h
  split at h
  · cases h
  · exact ((addObjectsLoopF_cell A objects objects s s1 _ h hwf).1.2.2 rfl).2

/-- A single obstacle with a NaN radius whose origin passes the two unsigned tests is
accepted: no radius comparison is true of NaN, nothing is painted, the list is stored. -/
theorem AddObjectsF_nan_single (A : Binary64 K) (s : PathFinderF K) (o : ObjectF K)
    (hr : o.Radius = none) (hx : ¬ o.Origin.X > usub s.N 1)
    (hy : ¬ o.Origin.Y > usub s.M 1) :
    AddObjectsF A s [o] = Outcome.done (RetVal.SUCCESS, { s with m_objects := [o] }) := by
  have hlen : ¬ [o].length > MAX_OBJECTS := by simp [MAX_OBJECTS]
  have h3 : ¬ (nanGt o.Radius (s.M : K) = true ∨ nanGt o.Radius (s.N : K) = true
      ∨ nanLe o.Radius 0 = true) := by
    rw [hr]
    simp [nanGt, nanLe]
  unfold AddObjectsF
  rw [if_neg hlen, addObjectsLoopF, if_neg hx, if_neg hy, if_neg h3, paintObjectF_nan A hr]
  rfl

end Basic

section Claims

variable {K : Type} [DoubleField K]

/-- C8: `SetMapSize(m, n)` returns FAIL_PARAM exactly when `m > 1028` or `n > 1028`, and
then the planner is unchanged; otherwise it returns SUCCESS and the grid has exactly `m`
rows of exactly `n` cells, each with the marker '0' and g-cost and f-cost `DBL_MAX`,
whatever the planner held before. -/
theorem SetMapSize_spec (s : PathFinder K) (m n : ℕ) :
    ((SetMapSize s m n).1 = RetVal.FAIL_PARAM ↔ (m > 1028 ∨ n > 1028)) ∧
    ((m > 1028 ∨ n > 1028) → (SetMapSize s m n).2 = s) ∧
    (¬ (m > 1028 ∨ n > 1028) →
      (SetMapSize s m n).1 = RetVal.SUCCESS ∧
      (SetMapSize s m n).2.M = m ∧ (SetMapSize s m n).2.N = n ∧
      (SetMapSize s m n).2.m_map.length = m ∧
      ∀ row ∈ (SetMapSize s m n).2.m_map, row.length = n ∧
        ∀ cell ∈ row, cell.Val = '0' ∧ cell.g_score = DBL_MAX ∧ cell.f_cost = DBL_MAX) := by
  by_cases h : m > 1028 ∨ n > 1028
  · have h1 : SetMapSize s m n = (RetVal.FAIL_PARAM, s) := by
      unfold SetMapSize MAP_DIMENTION_LIMIT
      rw [if_pos h]
    rw [h1]
    exact ⟨⟨fun _ => h, fun _ => rfl⟩, fun _ => rfl, fun hn => absurd h hn⟩
  · have h1 : SetMapSize s m n = (RetVal.SUCCESS,
        { s with
          M := m
          N := n
          m_map := (List.range m).map fun _ =>
            (List.range n).map fun _ => newCell CELL_UNOCCUPIED_CODE }) := by
      unfold SetMapSize MAP_DIMENTION_LIMIT
      rw [if_neg h]
    rw [h1]
    refine ⟨⟨fun hc => (by cases hc), fun hc => absurd hc h⟩, fun hc => absurd hc h, fun _ => ?_⟩
    refine ⟨rfl, rfl, rfl, by simp, ?_⟩
    intro row hrow
    simp only [List.mem_map, List.mem_range] at hrow
    obtain ⟨_, _, rfl⟩ := hrow
    refine ⟨by simp, ?_⟩
    intro cell hcell
    simp only [List.mem_map, List.mem_range] at hcell
    obtain ⟨_, _, rfl⟩ := hcell
    exact ⟨rfl, rfl, rfl⟩

/-- In exact arithmetic, where every radius is a number: on a grid of `M` rows and `N`
columns (0 included), `AddObjects` returns SUCCESS exactly when the list has at most 1028 obstacles and each has `Origin.X < N`,
`Origin.Y < M` and `0 < Radius ≤ min(M, N)`; otherwise it returns FAIL_PARAM; on SUCCESS
the retained list `m_objects` is the list passed. -/
theorem AddObjects_validation (s : PathFinder K) (hwf : WellFormed s) (hM : s.M < U32)
    (hN : s.N < U32) (objects : List (Object K)) :
    ((∃ s1, AddObjects s objects = Outcome.done (RetVal.SUCCESS, s1)) ↔
      (objects.length ≤ 1028 ∧ ∀ o ∈ objects, ObjectValid s.M s.N o)) ∧
    (¬ (objects.length ≤ 1028 ∧ ∀ o ∈ objects, ObjectValid s.M s.N o) →
      ∃ s1, AddObjects s objects = Outcome.done (RetVal.FAIL_PARAM, s1)) ∧
    (∀ s1, AddObjects s objects = Outcome.done (RetVal.SUCCESS, s1) →
      s1.m_objects = objects) := by
  have hloop := addObjectsLoop_spec objects objects s hwf hM hN
  by_cases hlen : objects.length > MAX_OBJECTS
  · have h1 : AddObjects s objects = Outcome.done (RetVal.FAIL_PARAM, s) := by
      unfold AddObjects
      rw [if_pos hlen]
    have hlen1 : ¬ objects.length ≤ 1028 := by
      unfold MAX_OBJECTS at hlen
      omega
    rw [h1]
    refine ⟨⟨?_, fun h => absurd h.1 hlen1⟩, fun _ => ⟨s, rfl⟩, ?_⟩
    · rintro ⟨s1, hs1⟩
      cases hs1
    · intro s1 hs1
      cases hs1
  · have h1 : AddObjects s objects = addObjectsLoop objects objects s := by
      unfold AddObjects
      rw [if_neg hlen]
    have hlen1 : objects.length ≤ 1028 := by
      unfold MAX_OBJECTS at hlen
      omega
    rw [h1]
    by_cases hall : ∀ o ∈ objects, ObjectValid s.M s.N o
    · obtain ⟨s1, hs1, hobj, _⟩ := hloop.1 hall
      rw [hs1]
      refine ⟨⟨fun _ => ⟨hlen1, hall⟩, fun _ => ⟨s1, rfl⟩⟩, fun h => absurd ⟨hlen1, hall⟩ h, ?_⟩
      intro s2 hs2
      cases hs2
      exact hobj
    · obtain ⟨s1, hs1⟩ := hloop.2 hall
      rw [hs1]
      refine ⟨⟨?_, fun h => absurd h.2 hall⟩, fun _ => ⟨s1, rfl⟩, ?_⟩
      · rintro ⟨s2, hs2⟩
        cases hs2
      · intro s2 hs2
        cases hs2

/-- C5: `FindPath` returns FAIL_PARAM exactly when `isTraversable(start)` or
`isTraversable(dest)` is false, and then the planner (grid cells included) and `bestPath`
are what they were before the call. -/
theorem FindPath_fail_param (s : PathFinder K) (start dest : Coordinate)
    (bestPath : List Coordinate) (fuel : ℕ) :
    ((∃ s1 p1, FindPath fuel s start dest bestPath = Outcome.done (RetVal.FAIL_PARAM, s1, p1)) ↔
      (isTraversable s start = false ∨ isTraversable s dest = false)) ∧
    ((isTraversable s start = false ∨ isTraversable s dest = false) →
      FindPath fuel s start dest bestPath = Outcome.done (RetVal.FAIL_PARAM, s, bestPath)) := by
  by_cases hg : isTraversable s start = false ∨ isTraversable s dest = false
  · have h1 : FindPath fuel s start dest bestPath
        = Outcome.done (RetVal.FAIL_PARAM, s, bestPath) := by
      unfold FindPath
      rw [if_pos hg]
    exact ⟨⟨fun _ => hg, fun _ => ⟨s, bestPath, h1⟩⟩, fun _ => h1⟩
  · refine ⟨⟨?_, fun h => absurd h hg⟩, fun h => absurd h hg⟩
    rintro ⟨s1, p1, h⟩
    exfalso
    unfold FindPath at h
    rw [if_neg hg] at h
    split at h
    · cases h
    · split at h
      · cases h
      · rcases findPathLoop_retVal _ _ _ _ _ _ _ _ _ _ _ h with h2 | h2 <;> cases h2

/-- An instance of `AddObjects_validation`: on the 4 by 4 grid the one-obstacle list
with origin (1,2) and radius 1 is accepted. -/
theorem AddObjects_validation_witness :
    WellFormed (SetMapSize (blank : PathFinder ℝ) 4 4).2 ∧
    (SetMapSize (blank : PathFinder ℝ) 4 4).2.M < U32 ∧
    (SetMapSize (blank : PathFinder ℝ) 4 4).2.N < U32 ∧
    ∃ s1, AddObjects (SetMapSize (blank : PathFinder ℝ) 4 4).2
      [{ Origin := { X := 1, Y := 2 }, Radius := 1 }] = Outcome.done (RetVal.SUCCESS, s1) :=
  have hwf := setMapSize_wellFormed (blank : PathFinder ℝ) 4 4 (by decide) (by decide)
  have hM : (SetMapSize (blank : PathFinder ℝ) 4 4).2.M < U32 := by
    rw [setMapSize_success _ (by decide) (by decide)]; decide
  have hN : (SetMapSize (blank : PathFinder ℝ) 4 4).2.N < U32 := by
    rw [setMapSize_success _ (by decide) (by decide)]; decide
  ⟨hwf, hM, hN, ((AddObjects_validation _ hwf hM hN _).1).2 ⟨by simp, by
    rw [setMapSize_success _ (by decide) (by decide)]
    simp [ObjectValid]⟩⟩

/-- C9, the code at the failing input: after `SetMapSize(10,10)`, `SetRobotRadius(1)`,
`AddObjects` of the obstacle (5,5) radius 2 and a second, successful `SetMapSize(10,10)`,
the retained list still holds the obstacle and `isTraversable((5,5))` is false, although
every marker is '0' and the same cell is traversable once the list is empty. -/
theorem SetMapSize_keeps_objects :
    ∃ s3, AddObjects (SetRobotRadius (SetMapSize (blank : PathFinder ℝ) 10 10).2 1).2
        [{ Origin := { X := 5, Y := 5 }, Radius := 2 }] = Outcome.done (RetVal.SUCCESS, s3) ∧
      (SetMapSize s3 10 10).1 = RetVal.SUCCESS ∧
      (SetMapSize s3 10 10).2.m_objects.length = 1 ∧
      (∀ c cell, getCell (SetMapSize s3 10 10).2.m_map c = some cell → cell.Val = '0') ∧
      isTraversable (SetMapSize s3 10 10).2 { X := 5, Y := 5 } = false ∧
      isTraversable { (SetMapSize s3 10 10).2 with m_objects := [] } { X := 5, Y := 5 }
        = true := by
  have h1 := setMapSize_success (blank : PathFinder ℝ) (m := 10) (n := 10) (by decide) (by decide)
  have hwf1 := setMapSize_wellFormed (blank : PathFinder ℝ) 10 10 (by decide) (by decide)
  have h2 : SetRobotRadius (SetMapSize (blank : PathFinder ℝ) 10 10).2 1
      = (RetVal.SUCCESS, { (SetMapSize (blank : PathFinder ℝ) 10 10).2 with m_robotRadius := 1 }) := by
    rw [h1]
    unfold SetRobotRadius
    norm_num
  have hwf2 : WellFormed (SetRobotRadius (SetMapSize (blank : PathFinder ℝ) 10 10).2 1).2 := by
    rw [h2]; exact hwf1
  have hM2 : (SetRobotRadius (SetMapSize (blank : PathFinder ℝ) 10 10).2 1).2.M = 10 := by
    rw [h2, h1]
  have hN2 : (SetRobotRadius (SetMapSize (blank : PathFinder ℝ) 10 10).2 1).2.N = 10 := by
    rw [h2, h1]
  have hR2 : (SetRobotRadius (SetMapSize (blank : PathFinder ℝ) 10 10).2 1).2.m_robotRadius = 1 := by
    rw [h2]
  have hS2 : (SetRobotRadius (SetMapSize (blank : PathFinder ℝ) 10 10).2 1).2.m_safetyMargin = 0 := by
    rw [h2, h1]; rfl
  obtain ⟨s3, hs3, hobj, _, _, _, hR3, hS3, _⟩ :=
    (addObjectsLoop_spec [{ Origin := { X := 5, Y := 5 }, Radius := (2 : ℝ) }]
      [{ Origin := { X := 5, Y := 5 }, Radius := (2 : ℝ) }] _ hwf2
      (by rw [hM2]; decide) (by rw [hN2]; decide)).1 (by
        intro o ho
        rw [List.mem_singleton] at ho
        subst ho
        rw [hM2, hN2]
        unfold ObjectValid
        norm_num)
  have hadd : AddObjects (SetRobotRadius (SetMapSize (blank : PathFinder ℝ) 10 10).2 1).2
      [{ Origin := { X := 5, Y := 5 }, Radius := 2 }] = Outcome.done (RetVal.SUCCESS, s3) := by
    unfold AddObjects
    rw [if_neg (by simp [MAX_OBJECTS])]
    exact hs3
  have h4 := setMapSize_success s3 (m := 10) (n := 10) (by decide) (by decide)
  refine ⟨s3, hadd, by rw [h4], by rw [h4]; simp [hobj], ?_, ?_, ?_⟩
  · intro c cell hc
    rw [getCell_setMapSize s3 (by decide) (by decide) hc]
    rfl
  · rw [← Bool.not_eq_true, isTraversable_iff]
    rintro ⟨_, _, _, _, h5⟩
    have h6 := h5 { Origin := { X := 5, Y := 5 }, Radius := 2 } (by rw [h4]; simp [hobj])
    rw [distanceBetween_self] at h6
    rw [h4] at h6
    simp only [hR3, hS3, hR2, hS2] at h6
    norm_num at h6
  · rw [isTraversable_iff, h4]
    simp only [hR3, hS3, hR2, hS2]
    norm_num

/-- In exact arithmetic, without rounding: on a grid of at most 1028 rows and columns,
with robot radius `R > 0`, margin `S ≥ 0` and obstacles accepted by `AddObjects`,
`isTraversable(c)` is true exactly when
`c.X - (R+S) ≥ 0`, `c.Y - (R+S) ≥ 0`, `c.X + (R+S) < N`, `c.Y + (R+S) < M` in signed
arithmetic and every obstacle is at true Euclidean distance at least `(R+S) + radius`;
in particular a cell with `c.X < R+S` or `c.Y < R+S` is rejected. -/
theorem isTraversable_geometric (s : PathFinder K) (hM : s.M ≤ 1028) (hN : s.N ≤ 1028)
    (hR : 0 < s.m_robotRadius) (hS : 0 ≤ s.m_safetyMargin)
    (hobj : ∀ o ∈ s.m_objects, ObjectValid s.M s.N o) (c : Coordinate) :
    (isTraversable s c = true ↔
      (0 ≤ (c.X : K) - (s.m_robotRadius + s.m_safetyMargin) ∧
       0 ≤ (c.Y : K) - (s.m_robotRadius + s.m_safetyMargin) ∧
       (c.X : K) + (s.m_robotRadius + s.m_safetyMargin) < (s.N : K) ∧
       (c.Y : K) + (s.m_robotRadius + s.m_safetyMargin) < (s.M : K) ∧
       ∀ o ∈ s.m_objects,
         (s.m_robotRadius + s.m_safetyMargin) + o.Radius ≤
           DoubleField.sqrt (((c.X : K) - (o.Origin.X : K)) ^ 2
             + ((c.Y : K) - (o.Origin.Y : K)) ^ 2))) ∧
    (((c.X : K) < s.m_robotRadius + s.m_safetyMargin ∨
        (c.Y : K) < s.m_robotRadius + s.m_safetyMargin) → isTraversable s c = false) := by
  have hexact : (c.X : K) + (s.m_robotRadius + s.m_safetyMargin) < (s.N : K) →
      (c.Y : K) + (s.m_robotRadius + s.m_safetyMargin) < (s.M : K) →
      ∀ o ∈ s.m_objects, (distanceBetween c o.Origin : K)
        = DoubleField.sqrt (((c.X : K) - (o.Origin.X : K)) ^ 2
            + ((c.Y : K) - (o.Origin.Y : K)) ^ 2) := by
    intro h3 h4 o ho
    have hx : (c.X : K) < (s.N : K) := by linarith
    have hy : (c.Y : K) < (s.M : K) := by linarith
    have hx1 : c.X < s.N := by exact_mod_cast hx
    have hy1 : c.Y < s.M := by exact_mod_cast hy
    obtain ⟨hox, hoy, _, _⟩ := hobj o ho
    exact distanceBetween_exact (by omega) (by omega) (by omega) (by omega)
  constructor
  · rw [isTraversable_iff]
    constructor
    · rintro ⟨h1, h2, h3, h4, h5⟩
      refine ⟨h1, h2, h3, h4, fun o ho => ?_⟩
      rw [← hexact h3 h4 o ho]
      exact h5 o ho
    · rintro ⟨h1, h2, h3, h4, h5⟩
      refine ⟨h1, h2, h3, h4, fun o ho => ?_⟩
      rw [hexact h3 h4 o ho]
      exact h5 o ho
  · intro h
    rw [← Bool.not_eq_true, isTraversable_iff]
    rintro ⟨h1, h2, _⟩
    rcases h with h | h
    · linarith
    · linarith

/-- An instance of `isTraversable_geometric`: the 10 by 10 grid with robot radius 1,
margin 0 and the obstacle (5,5) radius 2, at the cell (2,5), which is traversable. -/
theorem isTraversable_geometric_witness :
    isTraversable (scenarioConfig : PathFinder ℝ) { X := 2, Y := 5 } = true := by
  refine ((isTraversable_geometric (scenarioConfig : PathFinder ℝ)
      (by decide) (by decide) (by norm_num [scenarioConfig]) (by norm_num [scenarioConfig])
      ?_ { X := 2, Y := 5 }).1).2 ?_
  · intro o ho
    simp only [scenarioConfig, List.mem_singleton] at ho
    subst ho
    unfold ObjectValid
    norm_num [scenarioConfig]
  · refine ⟨by norm_num [scenarioConfig], by norm_num [scenarioConfig],
      by norm_num [scenarioConfig], by norm_num [scenarioConfig], ?_⟩
    intro o ho
    simp only [scenarioConfig, List.mem_singleton] at ho
    subst ho
    show (1 : ℝ) + 0 + 2 ≤ Real.sqrt ((((2 : ℕ) : ℝ) - ((5 : ℕ) : ℝ)) ^ 2
      + (((5 : ℕ) : ℝ) - ((5 : ℕ) : ℝ)) ^ 2)
    rw [show ((((2 : ℕ) : ℝ) - ((5 : ℕ) : ℝ)) ^ 2 + (((5 : ℕ) : ℝ) - ((5 : ℕ) : ℝ)) ^ 2)
      = (3 : ℝ) ^ 2 by norm_num]
    rw [Real.sqrt_sq (by norm_num)]
    norm_num

/-- C7: on a freshly configured grid, for a traversable cell `c` and an empty output
vector, `FindPath(c, c, bestPath)` returns SUCCESS and `bestPath` is `[c]`. -/
theorem FindPath_same_cell (s : PathFinder K) (hf : Fresh s) (hR : 0 < s.m_robotRadius)
    (hS : 0 ≤ s.m_safetyMargin) (c : Coordinate) (ht : isTraversable s c = true)
    (fuel : ℕ) (hfuel : 1 ≤ fuel) :
    ∃ s1, FindPath fuel s c c [] = Outcome.done (RetVal.SUCCESS, s1, [c]) := by
  obtain ⟨hx1, hy1, hxN, hyM⟩ := isTraversable_bounds hR hS ht
  obtain ⟨k, rfl⟩ : ∃ k, fuel = k + 1 := ⟨fuel - 1, by omega⟩
  have hd0 : Dims s.m_map s.M s.N := hf.1
  obtain ⟨cell0, hcell0⟩ := getCell_of_bounds hd0 hyM hxN
  obtain ⟨m1, hm1⟩ := modifyCell_of_getCell (fun cell : Cell K => { cell with f_cost := 0 }) hcell0
  obtain ⟨_, hc1a, hc1⟩ := getCell_modifyCell_same hm1
  obtain ⟨m2, hm2⟩ := modifyCell_of_getCell (fun cell : Cell K => { cell with g_score := 0 }) hc1
  obtain ⟨cell2, hc2a, hc2⟩ := getCell_modifyCell_same hm2
  have hne : ({} : Coordinate) ≠ c := by
    intro h
    rw [← h] at hx1
    exact absurd hx1 (by decide)
  obtain ⟨b, hb⟩ := getCell_of_bounds (c := {}) hd0 (by show 0 < s.M; omega)
    (by show 0 < s.N; omega)
  have hb2 : getCell m2 {} = some b := by
    rw [getCell_modifyCell_other hm2 hne, getCell_modifyCell_other hm1 hne, hb]
  have hbf : b.f_cost = DBL_MAX := (hf.2 _ _ hb).2
  have hcf : cell2.f_cost = 0 := by
    rw [hc1] at hc2a
    cases hc2a
    rfl
  have hsel : selectCurrent m2 {} [c] = some c := by
    rw [selectCurrent, hc2, hb2]
    simp only
    rw [hcf, hbf, if_pos DBL_MAX_pos]
    rfl
  obtain ⟨m3, hm3⟩ := modifyCell_of_getCell
    (fun cell : Cell K => { cell with Val := CELL_DESTINATION_CODE }) hc2
  obtain ⟨_, _, hc3⟩ := getCell_modifyCell_same hm3
  obtain ⟨m4, hm4⟩ := modifyCell_of_getCell
    (fun cell : Cell K => { cell with Val := CELL_START_CODE }) hc3
  have hwalk : walkParents c (k + 1) c m2 ([] : List Coordinate) = Outcome.done (m2, []) := by
    rw [walkParents, if_neg]
    rw [Coordinate.ne_iff]
    exact fun h => h rfl
  have hcp : constructPath (k + 1) { s with m_map := m2 } c c []
      = Outcome.done (RetVal.SUCCESS, { s with m_map := m4 }, [c]) := by
    unfold constructPath
    simp only [hwalk, hm3, hm4]
    rfl
  have hbody : findPathBody (k + 1) c c [] { s with m_map := m2 } [c] []
      = LoopStep.finished (constructPath (k + 1) { s with m_map := m2 } c c []) := by
    unfold findPathBody
    simp only [hsel]
    rw [if_neg (by simp), if_pos (Coordinate.eq_iff.2 rfl)]
  refine ⟨{ s with m_map := m4 }, ?_⟩
  unfold FindPath
  rw [if_neg (by simp [ht])]
  simp only [hm1, hm2]
  rw [findPathLoop, hbody, hcp]

/-- C1: on a freshly configured grid (at most 1028 rows and columns) with the robot
radius set, whatever the obstacles and the heuristic weight, whenever `FindPath` with an
empty output vector returns SUCCESS the vector is non-empty, starts with `start`, ends
with `dest`, holds only traversable cells, and every two consecutive cells are 8-adjacent
(distinct, at Chebyshev distance 1). -/
theorem FindPath_path_valid (s : PathFinder K) (hf : Fresh s) (hM : s.M ≤ 1028)
    (hN : s.N ≤ 1028) (hR : 0 < s.m_robotRadius) (hS : 0 ≤ s.m_safetyMargin)
    (start dest : Coordinate) (fuel : ℕ) (s1 : PathFinder K) (p1 : List Coordinate)
    (h : FindPath fuel s start dest [] = Outcome.done (RetVal.SUCCESS, s1, p1)) :
    p1 ≠ [] ∧ p1.head? = some start ∧ p1.getLast? = some dest ∧
      (∀ c ∈ p1, isTraversable s c = true) ∧ List.Chain' Adjacent p1 := by
  obtain ⟨hts, htd⟩ := FindPath_guard (by decide) h
  obtain ⟨m2, hloop, hinv⟩ := FindPath_enter hf hR hS hts htd fuel []
  rw [hloop] at h
  obtain ⟨⟨h1, h2, h3, h4⟩, _⟩ := findPathLoop_success fuel fuel { s with m_map := m2 }
    [start] [] {} s1 p1 hR hS hM hN (inv_with_map m2 hinv) h
  refine ⟨?_, h1, h2, h3, h4⟩
  intro hnil
  rw [hnil] at h1
  cases h1

/-- Witness of C7: in the 4 by 4 example planner the search from (1,1) to (1,1) returns
SUCCESS with the path `[(1,1)]`. -/
theorem FindPath_same_cell_witness :
    ∃ s1, FindPath 1 (demoGrid : PathFinder ℝ) { X := 1, Y := 1 } { X := 1, Y := 1 } []
      = Outcome.done (RetVal.SUCCESS, s1, [{ X := 1, Y := 1 }]) :=
  FindPath_same_cell demoGrid demoGrid_fresh demoGrid_config.1 demoGrid_config.2.1
    { X := 1, Y := 1 } (demoGrid_traversable (by decide)) 1 (le_refl 1)

/-- Witness of C1: in the 4 by 4 example planner the search from (1,1) to (2,2) returns
SUCCESS, and its path is valid. -/
theorem FindPath_path_valid_witness :
    ∃ s1 p1, FindPath 17 (demoGrid : PathFinder ℝ) { X := 1, Y := 1 } { X := 2, Y := 2 } []
        = Outcome.done (RetVal.SUCCESS, s1, p1) ∧
      p1 ≠ [] ∧ p1.head? = some { X := 1, Y := 1 } ∧ p1.getLast? = some { X := 2, Y := 2 } ∧
      (∀ c ∈ p1, isTraversable (demoGrid : PathFinder ℝ) c = true) ∧
      List.Chain' Adjacent p1 := by
  obtain ⟨hR, hS, hM, hN, hw⟩ := demoGrid_config (K := ℝ)
  have hM1 : (demoGrid : PathFinder ℝ).M ≤ 1028 := by rw [hM]; decide
  have hN1 : (demoGrid : PathFinder ℝ).N ≤ 1028 := by rw [hN]; decide
  rcases FindPath_total demoGrid_fresh hR hS hM1 hN1 (le_of_eq hw.symm)
    (by rw [hw]; exact weight_zero_bound)
    (demoGrid_traversable (c := { X := 1, Y := 1 }) (by decide))
    (demoGrid_traversable (c := { X := 2, Y := 2 }) (by decide)) 17
    (by rw [hM, hN]) with ⟨_, _, _, hno⟩ | ⟨s1, p1, h⟩
  · exact absurd ⟨_, demoGrid_path⟩ hno
  · exact ⟨s1, p1, h, FindPath_path_valid demoGrid demoGrid_fresh hM1 hN1 hR hS _ _ 17 s1 p1 h⟩

/-- C3, the code at the failing input: on the 4 by 4 example planner with heuristic
weight `DBL_MAX` the cells (1,1) and (2,2) are traversable and joined by a path, yet
`FindPath((1,1), (2,2))` returns neither SUCCESS nor FAIL_NO_PATH however many passes of
its loop are run. -/
theorem FindPath_huge_weight_no_result :
    (∃ q, ValidPath (demoHuge : PathFinder ℝ) { X := 1, Y := 1 } { X := 2, Y := 2 } q) ∧
    ∀ fuel, FindPath fuel (demoHuge : PathFinder ℝ) { X := 1, Y := 1 } { X := 2, Y := 2 } []
      = Outcome.outOfFuel :=
  ⟨⟨_, demoHuge_path { X := 1, Y := 1 } { X := 2, Y := 2 } (by decide) (by decide) (by decide)⟩,
    fun fuel => (demoHuge_run { X := 1, Y := 1 } { X := 2, Y := 2 } (by decide) (by decide)
      (by decide) fuel).1⟩

/-- C13, the code at the failing input: on the 4 by 4 example planner with heuristic
weight `DBL_MAX`, `FindPath((1,1), (1,2))` has not returned after any number of passes,
and after the first pass the loop is in a state with a non-empty open set whose pass puts
the default coordinate (0,0), no member of the open set, into the closed set. -/
theorem FindPath_huge_weight_runs_forever (fuel : ℕ) :
    (∀ out, FindPath fuel (demoHuge : PathFinder ℝ) { X := 1, Y := 1 } { X := 1, Y := 2 } []
      ≠ Outcome.done out) ∧
    ∃ (t : PathFinder ℝ) (open1 closed1 : List Coordinate),
      FindPath (fuel + 1) (demoHuge : PathFinder ℝ) { X := 1, Y := 1 } { X := 1, Y := 2 } []
        = findPathLoop (fuel + 1) { X := 1, Y := 2 } { X := 1, Y := 1 } [] fuel t open1 closed1 ∧
      open1 ≠ [] ∧ ({} : Coordinate) ∉ open1 ∧
      findPathBody (fuel + 1) { X := 1, Y := 2 } { X := 1, Y := 1 } [] t open1 closed1
        = LoopStep.next t open1 (setInsert {} closed1) := by
  obtain ⟨h1, t, open1, closed1, h2, h3, h4, _, h6⟩ :=
    demoHuge_run (K := ℝ) { X := 1, Y := 1 } { X := 1, Y := 2 } (by decide) (by decide)
      (by decide) fuel
  refine ⟨?_, t, open1, closed1, h2, h3, h4, h6⟩
  intro out h
  rw [h1] at h
  cases h

/-- C14, the code at the failing input: on the 4 by 4 example planner with heuristic
weight `DBL_MAX`, after the first pass of `FindPath((1,1), (2,1))` the open set is not
empty and the scan selects the default coordinate (0,0), which is not a member of it. -/
theorem selectCurrent_huge_weight (fuel : ℕ) :
    ∃ (t : PathFinder ℝ) (open1 closed1 : List Coordinate),
      FindPath (fuel + 1) (demoHuge : PathFinder ℝ) { X := 1, Y := 1 } { X := 2, Y := 1 } []
        = findPathLoop (fuel + 1) { X := 2, Y := 1 } { X := 1, Y := 1 } [] fuel t open1 closed1 ∧
      open1 ≠ [] ∧ selectCurrent t.m_map {} open1 = some {} ∧ ({} : Coordinate) ∉ open1 := by
  obtain ⟨_, t, open1, closed1, h2, h3, h4, h5, _⟩ :=
    demoHuge_run (K := ℝ) { X := 1, Y := 1 } { X := 2, Y := 1 } (by decide) (by decide)
      (by decide) fuel
  exact ⟨t, open1, closed1, h2, h3, h5, h4⟩

/-- C20, the code at the failing input: on the 4 by 4 example planner with heuristic
weight `DBL_MAX`, after the first pass of `FindPath((2,2), (1,1))` the loop selects the
default coordinate (0,0) with a non-empty open set, does not return, and so calls
`getNeighbors` on (0,0), where the unsigned bound `0 - 1` wraps to 4294967295 and the
loops run zero times. -/
theorem getNeighbors_huge_weight (fuel : ℕ) :
    ∃ (t : PathFinder ℝ) (open1 closed1 : List Coordinate),
      FindPath (fuel + 1) (demoHuge : PathFinder ℝ) { X := 2, Y := 2 } { X := 1, Y := 1 } []
        = findPathLoop (fuel + 1) { X := 1, Y := 1 } { X := 2, Y := 2 } [] fuel t open1 closed1 ∧
      open1.isEmpty = false ∧ selectCurrent t.m_map {} open1 = some {} ∧
      Coordinate.eq {} { X := 1, Y := 1 } = false ∧
      usub ({} : Coordinate).X NEIGHBOR_RANGE = 4294967295 ∧
      usub ({} : Coordinate).Y NEIGHBOR_RANGE = 4294967295 ∧
      getNeighbors {} = some [] := by
  obtain ⟨_, t, open1, closed1, h2, h3, _, h5, _⟩ :=
    demoHuge_run (K := ℝ) { X := 2, Y := 2 } { X := 1, Y := 1 } (by decide) (by decide)
      (by decide) fuel
  have hu : usub 0 NEIGHBOR_RANGE = 4294967295 := by
    unfold usub NEIGHBOR_RANGE U32
    rfl
  refine ⟨t, open1, closed1, h2, ?_, h5, by decide, hu, hu, getNeighbors_origin⟩
  cases open1 with
  | nil => exact absurd rfl h3
  | cons _ _ => rfl

/-- C16: `Coordinate::operator<` is a strict total order (irreflexive, transitive, and
of `a < b`, `a == b`, `b < a` exactly one holds), `operator==` is component-wise equality,
`operator!=` is its negation, and `a < b` holds exactly when `(a.X, a.Y)` is
lexicographically greater than `(b.X, b.Y)`. -/
theorem Coordinate_order :
    (∀ a : Coordinate, a.lt a = false) ∧
    (∀ a b c : Coordinate, a.lt b = true → b.lt c = true → a.lt c = true) ∧
    (∀ a b : Coordinate,
      (a.lt b = true ∧ a.eq b = false ∧ b.lt a = false) ∨
      (a.lt b = false ∧ a.eq b = true ∧ b.lt a = false) ∨
      (a.lt b = false ∧ a.eq b = false ∧ b.lt a = true)) ∧
    (∀ a b : Coordinate, a.eq b = true ↔ (a.X = b.X ∧ a.Y = b.Y)) ∧
    (∀ a b : Coordinate, a.ne b = !(a.eq b)) ∧
    (∀ a b : Coordinate, a.lt b = true ↔ (b.X < a.X ∨ (b.X = a.X ∧ b.Y < a.Y))) := by
  refine ⟨Coordinate.lt_irrefl, ?_, ?_, ?_, ?_, fun a b => Coordinate.lt_iff⟩
  · intro a b c h1 h2
    rw [Coordinate.lt_iff] at h1 h2 ⊢
    omega
  · intro a b
    have hab : a.lt b = true ↔ (b.X < a.X ∨ (b.X = a.X ∧ b.Y < a.Y)) := Coordinate.lt_iff
    have hba : b.lt a = true ↔ (a.X < b.X ∨ (a.X = b.X ∧ a.Y < b.Y)) := Coordinate.lt_iff
    have he : a.eq b = true ↔ a = b := Coordinate.eq_iff
    have he2 : a = b ↔ (a.X = b.X ∧ a.Y = b.Y) := by
      cases a; cases b
      simp
    rw [he2] at he
    cases h1 : a.lt b <;> cases h2 : b.lt a <;> cases h3 : a.eq b <;>
      simp only [h1, h2, h3, Bool.true_eq_false, Bool.false_eq_true, true_iff, false_iff,
        true_and, false_and, and_true, and_false, or_true, or_false, true_or, false_or,
        not_true_eq_false, not_false_eq_true, and_self] at hab hba he ⊢ <;> omega
  · intro a b
    rw [Coordinate.eq_iff]
    cases a; cases b
    simp
  · intro a b
    cases a; cases b
    simp only [Coordinate.ne, Coordinate.eq, Bool.not_and, bne]

/-- C17, the code at the failing input: `SetMapSize(10,10)`, a successful
`SetRobotRadius(5)`, then a successful `SetMapSize(3,3)` leave the stored radius 5 with
3 rows and 3 columns, so the radius is not at most `min(M, N)`. -/
theorem SetMapSize_keeps_radius :
    (SetRobotRadius (SetMapSize (blank : PathFinder ℝ) 10 10).2 5).1 = RetVal.SUCCESS ∧
    (SetMapSize (SetRobotRadius (SetMapSize (blank : PathFinder ℝ) 10 10).2 5).2 3 3).1
      = RetVal.SUCCESS ∧
    (SetMapSize (SetRobotRadius (SetMapSize (blank : PathFinder ℝ) 10 10).2 5).2 3 3).2.M = 3 ∧
    (SetMapSize (SetRobotRadius (SetMapSize (blank : PathFinder ℝ) 10 10).2 5).2 3 3).2.N = 3 ∧
    (SetMapSize (SetRobotRadius (SetMapSize (blank : PathFinder ℝ) 10 10).2 5).2 3 3).2.m_robotRadius
      = 5 ∧
    ¬ ((5 : ℝ) ≤ min ((3 : ℕ) : ℝ) ((3 : ℕ) : ℝ)) := by
  have h1 := setMapSize_success (blank : PathFinder ℝ) (m := 10) (n := 10) (by decide) (by decide)
  have h2 : SetRobotRadius (SetMapSize (blank : PathFinder ℝ) 10 10).2 5
      = (RetVal.SUCCESS, { (SetMapSize (blank : PathFinder ℝ) 10 10).2 with m_robotRadius := 5 }) := by
    rw [h1]
    unfold SetRobotRadius
    norm_num
  rw [h2]
  have h3 := setMapSize_success
    ({ (SetMapSize (blank : PathFinder ℝ) 10 10).2 with m_robotRadius := 5 } : PathFinder ℝ)
    (m := 3) (n := 3) (by decide) (by decide)
  refine ⟨rfl, ?_, ?_, ?_, ?_, by norm_num⟩
  · show (SetMapSize _ 3 3).1 = RetVal.SUCCESS
    rw [h3]
  · show (SetMapSize _ 3 3).2.M = 3
    rw [h3]
  · show (SetMapSize _ 3 3).2.N = 3
    rw [h3]
  · show (SetMapSize _ 3 3).2.m_robotRadius = 5
    rw [h3]

/-- C15, the statement as written fails: in the 4 by 4 example planner (weight 0), after
the first pass of `FindPath((2,1), (1,2))` the open set holds (1,1) and (2,2), both with
the smallest f-cost; the scan of the second pass selects (2,2), although (1,1) has the
smaller row index Y and so comes first in row-major order. -/
theorem FindPath_tie_not_row_major :
    ∃ (m1 : List (List (Cell ℝ))) (open1 : List Coordinate),
      FindPath 17 (demoGrid : PathFinder ℝ) { X := 2, Y := 1 } { X := 1, Y := 2 } []
        = findPathLoop 17 { X := 1, Y := 2 } { X := 2, Y := 1 } [] 16
            { (demoGrid : PathFinder ℝ) with m_map := m1 } open1
            (setInsert { X := 2, Y := 1 } []) ∧
      ({ X := 1, Y := 1 } : Coordinate) ∈ open1 ∧ ({ X := 2, Y := 2 } : Coordinate) ∈ open1 ∧
      fOf m1 { X := 1, Y := 1 } = fOf m1 { X := 2, Y := 2 } ∧
      (∀ o ∈ open1, fOf m1 { X := 1, Y := 1 } ≤ fOf m1 o) ∧
      selectCurrent m1 {} open1 = some { X := 2, Y := 2 } ∧
      ({ X := 1, Y := 1 } : Coordinate).Y < ({ X := 2, Y := 2 } : Coordinate).Y := by
  obtain ⟨m1, open1, h1, h2, h3, h4, h5, h6⟩ := demoGrid_tie (K := ℝ)
  exact ⟨m1, open1, h1, h2, h3, h4, h5, h6, by decide⟩

/-- C15, amended: when the open set (kept in the order of `Coordinate::operator<`, and not
containing the default coordinate) has several members of smallest f-cost, the member
selected as `current` is the first of them in the iteration order of the set: every other
member with the same f-cost has a smaller column index X, or the same X and a smaller row
index Y. -/
theorem selectCurrent_tie_order (m : List (List (Cell K))) (openSet : List Coordinate)
    (cur o : Coordinate)
    (hsorted : openSet.Pairwise (fun a b => a.lt b = true))
    (h0 : ({} : Coordinate) ∉ openSet)
    (hsel : selectCurrent m {} openSet = some cur)
    (hcur : cur ∈ openSet) (ho : o ∈ openSet) (hne : o ≠ cur)
    (htie : fOf m o = fOf m cur) :
    (∀ o1 ∈ openSet, fOf m cur ≤ fOf m o1) ∧
      (o.X < cur.X ∨ (o.X = cur.X ∧ o.Y < cur.Y)) := by
  refine ⟨(selectCurrent_spec m openSet {} cur hsel).2, ?_⟩
  rcases selectCurrent_first m openSet {} cur hsel with ⟨h1, _⟩ | ⟨pre, post, h1, h2, _, _⟩
  · exact absurd (h1 ▸ hcur) h0
  · subst h1
    rw [List.pairwise_append] at hsorted
    have hpost := (List.pairwise_cons.1 hsorted.2.1).1
    rcases List.mem_append.1 ho with hp | hp
    · exact absurd htie (ne_of_gt (h2 o hp))
    · rcases List.mem_cons.1 hp with hp | hp
      · exact absurd hp hne
      · have := hpost o hp
        rw [Coordinate.lt_iff] at this
        exact this

/-- Witness of C15 (amended): the open set {(1,1), (2,2)} on `tieGrid`. -/
theorem selectCurrent_tie_order_witness :
    selectCurrent (tieGrid : List (List (Cell ℝ))) {}
      [{ X := 2, Y := 2 }, { X := 1, Y := 1 }] = some { X := 2, Y := 2 } ∧
    ((1 : ℕ) < 2 ∨ ((1 : ℕ) = 2 ∧ (1 : ℕ) < 2)) :=
  ⟨tieGrid_select,
    (selectCurrent_tie_order (tieGrid : List (List (Cell ℝ)))
      [{ X := 2, Y := 2 }, { X := 1, Y := 1 }] { X := 2, Y := 2 } { X := 1, Y := 1 }
      (by simp [Coordinate.lt]) (by simp) tieGrid_select (by simp) (by simp) (by simp)
      (by rw [tieGrid_fOf.1, tieGrid_fOf.2.1])).2⟩

/-- In exact arithmetic, without rounding: on a grid as `SetMapSize` leaves it (at most
1028 rows and columns, every marker '0'), after a successful `AddObjects(objects)` a cell
carries the marker '1' exactly when
its true Euclidean distance to the origin of some obstacle of the list is at most the
radius of that obstacle, and every other cell still carries '0'. -/
theorem AddObjects_rasterization (s : PathFinder K) (hwf : WellFormed s)
    (hM : s.M ≤ 1028) (hN : s.N ≤ 1028)
    (hzero : ∀ c cell, getCell s.m_map c = some cell → cell.Val = CELL_UNOCCUPIED_CODE)
    (objects : List (Object K)) (s1 : PathFinder K)
    (h : AddObjects s objects = Outcome.done (RetVal.SUCCESS, s1))
    (c : Coordinate) (hx : c.X < s.N) (hy : c.Y < s.M) :
    ∃ cell1, getCell s1.m_map c = some cell1 ∧
      (cell1.Val = CELL_OCCUPIED_CODE ↔
        ∃ o ∈ objects, DoubleField.sqrt (((c.X : K) - (o.Origin.X : K)) ^ 2
          + ((c.Y : K) - (o.Origin.Y : K)) ^ 2) ≤ o.Radius) ∧
      (cell1.Val = CELL_OCCUPIED_CODE ∨ cell1.Val = CELL_UNOCCUPIED_CODE) := by
  have hMU : s.M < U32 := by unfold U32; omega
  have hNU : s.N < U32 := by unfold U32; omega
  obtain ⟨hall, _⟩ := AddObjects_success hwf hMU hNU h
  obtain ⟨cell, hcell⟩ := getCell_of_bounds hwf hy hx
  have hv := hzero c cell hcell
  have hexact : ∀ o ∈ objects,
      (distanceBetween4 o.Origin.X o.Origin.Y c.X c.Y : K)
        = DoubleField.sqrt (((c.X : K) - (o.Origin.X : K)) ^ 2
          + ((c.Y : K) - (o.Origin.Y : K)) ^ 2) := by
    intro o ho
    obtain ⟨hox, hoy, _, _⟩ := hall o ho
    exact distanceBetween4_exact (by omega) (by omega) (by omega) (by omega)
  unfold AddObjects at h
  split at h
  · cases h
  · obtain ⟨cell1, h1, _, hs⟩ := addObjectsLoop_cell objects objects s s1 _ h hwf c cell hcell
    obtain ⟨hp, hn⟩ := hs rfl
    refine ⟨cell1, h1, ?_⟩
    by_cases hq : ∃ o ∈ objects,
        distanceBetween4 o.Origin.X o.Origin.Y c.X c.Y ≤ o.Radius
    · rw [hp hq]
      refine ⟨⟨fun _ => ?_, fun _ => rfl⟩, Or.inl rfl⟩
      obtain ⟨o, ho, h2⟩ := hq
      exact ⟨o, ho, by rw [← hexact o ho]; exact h2⟩
    · rw [hn hq, hv]
      refine ⟨⟨fun h2 => ?_, fun h2 => ?_⟩, Or.inr rfl⟩
      · exact absurd h2 (by decide)
      · obtain ⟨o, ho, h3⟩ := h2
        exact absurd ⟨o, ho, by rw [hexact o ho]; exact h3⟩ hq

/-- An instance of `AddObjects_rasterization`: the 4 by 4 grid, the obstacle (1,2) of
radius 1, the cell (1,1). -/
theorem AddObjects_rasterization_witness :
    ∃ s1, AddObjects (SetMapSize (blank : PathFinder ℝ) 4 4).2
        [{ Origin := { X := 1, Y := 2 }, Radius := 1 }] = Outcome.done (RetVal.SUCCESS, s1) ∧
      ∃ cell1, getCell s1.m_map { X := 1, Y := 1 } = some cell1 ∧
        (cell1.Val = CELL_OCCUPIED_CODE ↔
          ∃ o ∈ [({ Origin := { X := 1, Y := 2 }, Radius := 1 } : Object ℝ)],
            DoubleField.sqrt ((((1 : ℕ) : ℝ) - (o.Origin.X : ℝ)) ^ 2
              + (((1 : ℕ) : ℝ) - (o.Origin.Y : ℝ)) ^ 2) ≤ o.Radius) ∧
        (cell1.Val = CELL_OCCUPIED_CODE ∨ cell1.Val = CELL_UNOCCUPIED_CODE) := by
  have hs := setMapSize_success (blank : PathFinder ℝ) (m := 4) (n := 4) (by decide) (by decide)
  have hwf := setMapSize_wellFormed (blank : PathFinder ℝ) 4 4 (by decide) (by decide)
  have hM : (SetMapSize (blank : PathFinder ℝ) 4 4).2.M = 4 := by rw [hs]
  have hN : (SetMapSize (blank : PathFinder ℝ) 4 4).2.N = 4 := by rw [hs]
  obtain ⟨s1, h1⟩ := AddObjects_accepts
    [({ Origin := { X := 1, Y := 2 }, Radius := 1 } : Object ℝ)]
    hwf (by rw [hM]; decide) (by rw [hN]; decide) (by simp) (by
      intro o ho
      rw [List.mem_singleton] at ho
      subst ho
      rw [hM, hN]
      unfold ObjectValid
      norm_num)
  exact ⟨s1, h1, AddObjects_rasterization _ hwf (by rw [hM]; decide) (by rw [hN]; decide)
    (fun c cell hc => by rw [getCell_setMapSize _ (by decide) (by decide) hc]; rfl)
    _ s1 h1 { X := 1, Y := 1 } (by rw [hN]; decide) (by rw [hM]; decide)⟩

/-- C12, the code at the failing input: on the 4 by 4 grid left by `SetMapSize`,
`AddObjects` of the list [(1,1) radius 1, (9,9) radius 1] returns FAIL_PARAM because of
the second obstacle, the retained list is unchanged, but the cell (1,1), which carried
'0' before the call, carries '1' after it. -/
theorem AddObjects_not_fail_atomic :
    ∃ s1, AddObjects (SetMapSize (blank : PathFinder ℝ) 4 4).2
        [{ Origin := { X := 1, Y := 1 }, Radius := 1 },
         { Origin := { X := 9, Y := 9 }, Radius := 1 }] = Outcome.done (RetVal.FAIL_PARAM, s1) ∧
      s1.m_objects = (SetMapSize (blank : PathFinder ℝ) 4 4).2.m_objects ∧
      (∃ cell, getCell (SetMapSize (blank : PathFinder ℝ) 4 4).2.m_map { X := 1, Y := 1 }
          = some cell ∧ cell.Val = CELL_UNOCCUPIED_CODE) ∧
      (∃ cell1, getCell s1.m_map { X := 1, Y := 1 } = some cell1 ∧
          cell1.Val = CELL_OCCUPIED_CODE) := by
  have hs := setMapSize_success (blank : PathFinder ℝ) (m := 4) (n := 4) (by decide) (by decide)
  have hwf := setMapSize_wellFormed (blank : PathFinder ℝ) 4 4 (by decide) (by decide)
  have hM : (SetMapSize (blank : PathFinder ℝ) 4 4).2.M = 4 := by rw [hs]
  have hN : (SetMapSize (blank : PathFinder ℝ) 4 4).2.N = 4 := by rw [hs]
  have hu : usub 4 1 = 3 := by
    unfold usub U32
    rfl
  obtain ⟨cell, hcell⟩ := getCell_of_bounds (c := { X := 1, Y := 1 }) hwf
    (by rw [hM]; decide) (by rw [hN]; decide)
  have hval : cell.Val = CELL_UNOCCUPIED_CODE := by
    rw [getCell_setMapSize _ (by decide) (by decide) hcell]
    rfl
  obtain ⟨m1, hm1, hd1⟩ := paintObject_some
    ({ Origin := { X := 1, Y := 1 }, Radius := 1 } : Object ℝ)
    (paintCells (SetMapSize (blank : PathFinder ℝ) 4 4).2.M
      (SetMapSize (blank : PathFinder ℝ) 4 4).2.N)
    (SetMapSize (blank : PathFinder ℝ) 4 4).2.m_map hwf (fun c hc => mem_paintCells.1 hc)
  obtain ⟨cell1, hc1, hp, _⟩ := paintObject_cell _ _ _ _ hm1 { X := 1, Y := 1 } cell hcell
  have hpaint : cell1 = { cell with Val := CELL_OCCUPIED_CODE } := by
    apply hp
    refine ⟨mem_paintCells.2 ⟨by rw [hM]; decide, by rw [hN]; decide⟩, ?_⟩
    show (distanceBetween ({ X := 1, Y := 1 } : Coordinate) { X := 1, Y := 1 } : ℝ) ≤ 1
    rw [distanceBetween_self]
    exact zero_le_one
  refine ⟨{ (SetMapSize (blank : PathFinder ℝ) 4 4).2 with m_map := m1 }, ?_, rfl,
    ⟨cell, hcell, hval⟩, ⟨cell1, hc1, by rw [hpaint]⟩⟩
  generalize (SetMapSize (blank : PathFinder ℝ) 4 4).2 = s0 at hM hN hm1 ⊢
  have h1 : ¬ ({ Origin := { X := 1, Y := 1 }, Radius := 1 } : Object ℝ).Origin.X
      > usub s0.N 1 := by
    rw [hN, hu]
    decide
  have h2 : ¬ ({ Origin := { X := 1, Y := 1 }, Radius := 1 } : Object ℝ).Origin.Y
      > usub s0.M 1 := by
    rw [hM, hu]
    decide
  have h3 : ¬ (({ Origin := { X := 1, Y := 1 }, Radius := 1 } : Object ℝ).Radius > (s0.M : ℝ)
      ∨ ({ Origin := { X := 1, Y := 1 }, Radius := 1 } : Object ℝ).Radius > (s0.N : ℝ)
      ∨ ({ Origin := { X := 1, Y := 1 }, Radius := 1 } : Object ℝ).Radius ≤ 0) := by
    rw [hM, hN]
    norm_num
  have h4 : ({ Origin := { X := 9, Y := 9 }, Radius := 1 } : Object ℝ).Origin.X
      > usub ({ s0 with m_map := m1 } : PathFinder ℝ).N 1 := by
    show 9 > usub s0.N 1
    rw [hN, hu]
    decide
  unfold AddObjects
  rw [if_neg (by simp [MAX_OBJECTS])]
  rw [addObjectsLoop, if_neg h1, if_neg h2, if_neg h3, hm1]
  show addObjectsLoop _ _ ({ s0 with m_map := m1 } : PathFinder ℝ) = _
  rw [addObjectsLoop, if_pos h4]

/-- C6, the statement as written fails: after `SetMapSize(10, 10)`, `SetRobotRadius(1.0)`
(margin and weight at their default 0) and `AddObjects` of the obstacle (5,5) of radius 2,
`FindPath` from (0,0) to (9,9) returns FAIL_PARAM, not SUCCESS, and leaves the planner and
the output vector as they were. -/
theorem scenario_corner_rejected :
    ∃ s3 : PathFinder ℝ,
      AddObjects (SetRobotRadius (SetMapSize (blank : PathFinder ℝ) 10 10).2 1).2
        [{ Origin := { X := 5, Y := 5 }, Radius := 2 }] = Outcome.done (RetVal.SUCCESS, s3) ∧
      s3.m_safetyMargin = 0 ∧ s3.m_heuristicWeight = 0 ∧
      isTraversable s3 { X := 0, Y := 0 } = false ∧
      isTraversable s3 { X := 9, Y := 9 } = false ∧
      ∀ fuel, FindPath fuel s3 { X := 0, Y := 0 } { X := 9, Y := 9 } []
        = Outcome.done (RetVal.FAIL_PARAM, s3, []) := by
  obtain ⟨s3, hs3, _, hM, hN, hR, hS, hW, _⟩ := scenario_state (K := ℝ)
  have h0 : isTraversable s3 { X := 0, Y := 0 } = false := by
    rw [← Bool.not_eq_true]
    intro ht
    exact origin_not_traversable (by rw [hR]; exact zero_lt_one) (by rw [hS]) ht rfl
  have h9 : isTraversable s3 { X := 9, Y := 9 } = false := by
    rw [← Bool.not_eq_true, isTraversable_iff, hR, hS, hN]
    rintro ⟨_, _, h3, _⟩
    norm_num at h3
  refine ⟨s3, hs3, hS, hW, h0, h9, fun fuel => ?_⟩
  unfold FindPath
  rw [if_pos (Or.inl h0)]

/-- C6, amended: in the same scenario `FindPath` from (0,0) to (9,9) returns FAIL_PARAM,
because with robot radius 1 the cells of the outermost rows and columns are not
traversable; from (1,1) to (8,8) it returns SUCCESS with a path that contains no cell at
Euclidean distance less than 3 from (5,5), is a sequence of traversable, consecutively
8-adjacent cells from (1,1) to (8,8), and is no longer than any such sequence. -/
theorem scenario_inner_path :
    ∃ s3 : PathFinder ℝ,
      AddObjects (SetRobotRadius (SetMapSize (blank : PathFinder ℝ) 10 10).2 1).2
        [{ Origin := { X := 5, Y := 5 }, Radius := 2 }] = Outcome.done (RetVal.SUCCESS, s3) ∧
      s3.m_safetyMargin = 0 ∧ s3.m_heuristicWeight = 0 ∧
      (∀ fuel, FindPath fuel s3 { X := 0, Y := 0 } { X := 9, Y := 9 } []
        = Outcome.done (RetVal.FAIL_PARAM, s3, [])) ∧
      ∃ s4 p, FindPath 101 s3 { X := 1, Y := 1 } { X := 8, Y := 8 } []
          = Outcome.done (RetVal.SUCCESS, s4, p) ∧
        p.head? = some { X := 1, Y := 1 } ∧ p.getLast? = some { X := 8, Y := 8 } ∧
        (∀ c ∈ p, isTraversable s3 c = true) ∧ List.Chain' Adjacent p ∧
        (∀ c ∈ p, ¬ DoubleField.sqrt (((c.X : ℝ) - 5) ^ 2 + ((c.Y : ℝ) - 5) ^ 2) < 3) ∧
        (∀ q, ValidPath s3 { X := 1, Y := 1 } { X := 8, Y := 8 } q →
          (pathLength p : ℝ) ≤ pathLength q) := by
  obtain ⟨s3, hs3, hf, hM, hN, hR, hS, hW, hobj⟩ := scenario_state (K := ℝ)
  have h0 : isTraversable s3 { X := 0, Y := 0 } = false := by
    rw [← Bool.not_eq_true]
    intro ht
    exact origin_not_traversable (by rw [hR]; exact zero_lt_one) (by rw [hS]) ht rfl
  obtain ⟨s4, p, hrun, hv, hopt⟩ := scenario_search hf hM hN hR hS hW hobj
  refine ⟨s3, hs3, hS, hW, fun fuel => ?_, s4, p, hrun, hv.1, hv.2.1, hv.2.2.1, hv.2.2.2,
    ?_, hopt⟩
  · unfold FindPath
    rw [if_pos (Or.inl h0)]
  · intro c hc
    exact not_lt.2 (scenario_far hM hN hR hS hobj (hv.2.2.1 c hc))

/-- C19: on a freshly configured grid, for traversable `start` and `dest ≠ start`, once a
call `FindPath(start, dest)` has returned (it returns SUCCESS or FAIL_NO_PATH), every
traversable neighbour of `start` holds a g-cost no greater than the tentative cost
`0 + distance` of a new search from `start`, and a second call `FindPath(start, goal)` on
the same planner, for any traversable `goal ≠ start` and any output vector, returns
FAIL_NO_PATH and leaves the vector as it was. -/
theorem FindPath_repeated (s : PathFinder K) (hf : Fresh s) (hM : s.M ≤ 1028)
    (hN : s.N ≤ 1028) (hR : 0 < s.m_robotRadius) (hS : 0 ≤ s.m_safetyMargin)
    (start dest goal : Coordinate)
    (hts : isTraversable s start = true) (htd : isTraversable s dest = true)
    (hne : dest ≠ start) (htg : isTraversable s goal = true) (hng : goal ≠ start)
    (fuel1 : ℕ) (bestPath1 : List Coordinate) (r : RetVal) (s1 : PathFinder K)
    (p1 : List Coordinate)
    (h1 : FindPath fuel1 s start dest bestPath1 = Outcome.done (r, s1, p1))
    (fuel2 : ℕ) (hfuel2 : 2 ≤ fuel2) (bestPath2 : List Coordinate) :
    (r = RetVal.SUCCESS ∨ r = RetVal.FAIL_NO_PATH) ∧
    (∀ nb, Adjacent start nb → isTraversable s1 nb = true →
      gOf s1.m_map nb ≤ 0 + distanceBetween start nb) ∧
    ∃ s2, FindPath fuel2 s1 start goal bestPath2
      = Outcome.done (RetVal.FAIL_NO_PATH, s2, bestPath2) := by
  obtain ⟨hr, hcfg, hdims, hjunk, hstale⟩ := FindPath_post hf hR hS hM hN hts htd hne h1
  have htrav := isTraversable_congr hcfg
  obtain ⟨hM1, hN1, hR1, hS1, _, _⟩ := hcfg
  have hstale1 : ∀ nb, Adjacent start nb → isTraversable s1 nb = true →
      gOf s1.m_map nb ≤ distanceBetween start nb := by
    intro nb hadj hnb
    rw [htrav] at hnb
    exact hstale nb hadj hnb
  refine ⟨hr, ?_, ?_⟩
  · intro nb hadj hnb
    rw [zero_add]
    exact hstale1 nb hadj hnb
  · exact FindPath_stale (s := s1) (by rw [WellFormed, hM1, hN1]; exact hdims)
      (by rw [hR1]; exact hR) (by rw [hS1]; exact hS) (by rw [hM1]; exact hM)
      (by rw [hN1]; exact hN) (by rw [htrav]; exact hts) (by rw [htrav]; exact htg) hng hjunk
      hstale1 fuel2 hfuel2 bestPath2

/-- Witness of C19: in the 4 by 4 example planner the search from (1,1) to (2,2) returns
SUCCESS, and the same search repeated on the planner it leaves returns FAIL_NO_PATH. -/
theorem FindPath_repeated_witness :
    ∃ s1 p1, FindPath 17 (demoGrid : PathFinder ℝ) { X := 1, Y := 1 } { X := 2, Y := 2 } []
        = Outcome.done (RetVal.SUCCESS, s1, p1) ∧
      ∃ s2, FindPath 2 s1 { X := 1, Y := 1 } { X := 2, Y := 2 } []
        = Outcome.done (RetVal.FAIL_NO_PATH, s2, []) := by
  obtain ⟨hR, hS, hM, hN, hw⟩ := demoGrid_config (K := ℝ)
  have hM1 : (demoGrid : PathFinder ℝ).M ≤ 1028 := by rw [hM]; decide
  have hN1 : (demoGrid : PathFinder ℝ).N ≤ 1028 := by rw [hN]; decide
  have hts := demoGrid_traversable (K := ℝ) (c := { X := 1, Y := 1 }) (by decide)
  have htd := demoGrid_traversable (K := ℝ) (c := { X := 2, Y := 2 }) (by decide)
  rcases FindPath_total demoGrid_fresh hR hS hM1 hN1 (le_of_eq hw.symm)
    (by rw [hw]; exact weight_zero_bound) hts htd 17 (by rw [hM, hN])
    with ⟨_, _, _, hno⟩ | ⟨s1, p1, h⟩
  · exact absurd ⟨_, demoGrid_path⟩ hno
  · exact ⟨s1, p1, h, (FindPath_repeated demoGrid demoGrid_fresh hM1 hN1 hR hS
      { X := 1, Y := 1 } { X := 2, Y := 2 } { X := 2, Y := 2 } hts htd (by decide) htd
      (by decide) 17 [] RetVal.SUCCESS s1 p1 h 2 (le_refl 2) []).2.2⟩

/-- C4, the statement as written fails: after `SetMapSize(4, 4)`, `SetRobotRadius(1.0)`
and `SetSafetyMargin(2^-54)`, with no obstacles, the sum `R + S` is rounded to 1, so in
binary64 `isTraversable((1,1))` is true, although `c.X - (R+S) ≥ 0` is false and
`c.X < R + S` holds in real arithmetic. -/
theorem isTraversable_rounding_accepts :
    IsDouble ((1 : ℝ) / 2 ^ 54) ∧
    ¬ ((0 : ℝ) ≤ ((1 : ℕ) : ℝ) - (1 + 1 / 2 ^ 54)) ∧
    ((1 : ℕ) : ℝ) < 1 + 1 / 2 ^ 54 ∧
    ∀ A : Binary64 ℝ,
      isTraversableF A (freshF 4 4 1 (1 / 2 ^ 54)) { X := 1, Y := 1 } = true := by
  refine ⟨⟨1, 0, 54, by norm_num, by norm_num, by norm_num, by norm_num⟩, by norm_num,
    by norm_num, fun A => ?_⟩
  rw [isTraversableF_iff]
  have hrs : A.fl ((freshF 4 4 1 (1 / 2 ^ 54) : PathFinderF ℝ).m_robotRadius
      + (freshF 4 4 1 (1 / 2 ^ 54) : PathFinderF ℝ).m_safetyMargin) = 1 := fl_one_plus A
  rw [hrs]
  have h0 : A.fl ((((1 : ℕ) : ℝ)) - 1) = 0 := by
    rw [Nat.cast_one, sub_self]
    exact fl_zero A
  have h2 : A.fl ((((1 : ℕ) : ℝ)) + 1) = 2 := by
    have h := fl_natCast (K := ℝ) A (n := 2) (by norm_num)
    rw [Nat.cast_one]
    norm_num at h ⊢
    exact h
  refine ⟨?_, ?_, ?_, ?_, ?_⟩
  · show 0 ≤ A.fl ((((1 : ℕ) : ℝ)) - 1)
    rw [h0]
  · show 0 ≤ A.fl ((((1 : ℕ) : ℝ)) - 1)
    rw [h0]
  · show A.fl ((((1 : ℕ) : ℝ)) + 1) < ((4 : ℕ) : ℝ)
    rw [h2]
    norm_num
  · show A.fl ((((1 : ℕ) : ℝ)) + 1) < ((4 : ℕ) : ℝ)
    rw [h2]
    norm_num
  · intro o ho
    cases ho

/-- C4, amended: on a grid of at most 1028 rows and columns, with robot radius `R > 0`,
margin `S ≥ 0` and obstacles whose origins lie in the grid, for every cell `c`,
`isTraversable(c)` in binary64 is true exactly when `rs ≤ c.X`, `rs ≤ c.Y`,
the rounded sums `c.X + rs` and `c.Y + rs` are below `N` and `M`, and for every obstacle
whose radius is a number the rounded sum `rs + radius` is at most the correctly rounded
true Euclidean distance; `rs` is the rounded sum `R + S`, equal to `R + S` when that is a
double. A traversable cell has `c.X + rs < N` and `c.Y + rs < M` exactly, and every cell
with `c.X < rs` or `c.Y < rs` is rejected. -/
theorem isTraversable_binary64 (A : Binary64 K) (s : PathFinderF K)
    (hM : s.M ≤ 1028) (hN : s.N ≤ 1028)
    (hR : 0 < s.m_robotRadius) (hS : 0 ≤ s.m_safetyMargin)
    (hobj : ∀ o ∈ s.m_objects, o.Origin.X < s.N ∧ o.Origin.Y < s.M)
    (c : Coordinate) :
    (isTraversableF A s c = true ↔
      (A.fl (s.m_robotRadius + s.m_safetyMargin) ≤ (c.X : K) ∧
       A.fl (s.m_robotRadius + s.m_safetyMargin) ≤ (c.Y : K) ∧
       A.fl ((c.X : K) + A.fl (s.m_robotRadius + s.m_safetyMargin)) < (s.N : K) ∧
       A.fl ((c.Y : K) + A.fl (s.m_robotRadius + s.m_safetyMargin)) < (s.M : K) ∧
       ∀ o ∈ s.m_objects, ∀ r, o.Radius = some r →
         A.fl (A.fl (s.m_robotRadius + s.m_safetyMargin) + r) ≤
           A.fl (DoubleField.sqrt (((c.X : K) - (o.Origin.X : K)) ^ 2
             + ((c.Y : K) - (o.Origin.Y : K)) ^ 2)))) ∧
    (isTraversableF A s c = true →
      (c.X : K) + A.fl (s.m_robotRadius + s.m_safetyMargin) < (s.N : K) ∧
      (c.Y : K) + A.fl (s.m_robotRadius + s.m_safetyMargin) < (s.M : K)) ∧
    (((c.X : K) < A.fl (s.m_robotRadius + s.m_safetyMargin) ∨
        (c.Y : K) < A.fl (s.m_robotRadius + s.m_safetyMargin)) →
      isTraversableF A s c = false) ∧
    (IsDouble (s.m_robotRadius + s.m_safetyMargin) →
      A.fl (s.m_robotRadius + s.m_safetyMargin) = s.m_robotRadius + s.m_safetyMargin) := by
  have hrs0 : 0 ≤ A.fl (s.m_robotRadius + s.m_safetyMargin) := fl_nonneg A (by linarith)
  have hrsd := A.fl_double (s.m_robotRadius + s.m_safetyMargin)
  have hiff := isTraversableF_iff A (s := s) (c := c)
  have hsame : IsDouble (s.m_robotRadius + s.m_safetyMargin) →
      A.fl (s.m_robotRadius + s.m_safetyMargin) = s.m_robotRadius + s.m_safetyMargin :=
    fun hd => fl_eq_self A hd
  generalize A.fl (s.m_robotRadius + s.m_safetyMargin) = rs at hrs0 hrsd hiff hsame ⊢
  have hN53 : s.N < 2 ^ 53 := by omega
  have hM53 : s.M < 2 ^ 53 := by omega
  have hbound : A.fl ((c.X : K) + rs) < (s.N : K) → A.fl ((c.Y : K) + rs) < (s.M : K) →
      c.X ≤ 1028 ∧ c.Y ≤ 1028 := by
    intro h3 h4
    have hx := lt_of_fl_lt_natCast A hN53 h3
    have hy := lt_of_fl_lt_natCast A hM53 h4
    have hx1 : (c.X : K) < (s.N : K) := by linarith
    have hy1 : (c.Y : K) < (s.M : K) := by linarith
    have hx2 : c.X < s.N := by exact_mod_cast hx1
    have hy2 : c.Y < s.M := by exact_mod_cast hy1
    omega
  have hexact : c.X ≤ 1028 → c.Y ≤ 1028 → ∀ o ∈ s.m_objects,
      distanceBetweenF A c.X c.Y o.Origin.X o.Origin.Y
        = A.fl (DoubleField.sqrt (((c.X : K) - (o.Origin.X : K)) ^ 2
            + ((c.Y : K) - (o.Origin.Y : K)) ^ 2)) := by
    intro hx hy o ho
    obtain ⟨hox, hoy⟩ := hobj o ho
    have h1 := distanceBetween_exact (K := K) (a := c) (b := o.Origin) hx hy (by omega)
      (by omega)
    unfold distanceBetweenF
    rw [← h1]
    rfl
  refine ⟨?_, ?_, ?_, hsame⟩
  · rw [hiff]
    constructor
    · rintro ⟨h1, h2, h3, h4, h5⟩
      obtain ⟨hx, hy⟩ := hbound h3 h4
      refine ⟨(fl_sub_nonneg_iff A c.X hrsd).1 h1, (fl_sub_nonneg_iff A c.Y hrsd).1 h2,
        h3, h4, fun o ho r hr => ?_⟩
      rw [← hexact hx hy o ho]
      exact h5 o ho r hr
    · rintro ⟨h1, h2, h3, h4, h5⟩
      obtain ⟨hx, hy⟩ := hbound h3 h4
      refine ⟨(fl_sub_nonneg_iff A c.X hrsd).2 h1, (fl_sub_nonneg_iff A c.Y hrsd).2 h2,
        h3, h4, fun o ho r hr => ?_⟩
      rw [hexact hx hy o ho]
      exact h5 o ho r hr
  · intro ht
    obtain ⟨_, _, h3, h4, _⟩ := hiff.1 ht
    exact ⟨lt_of_fl_lt_natCast A hN53 h3, lt_of_fl_lt_natCast A hM53 h4⟩
  · intro h
    rw [← Bool.not_eq_true, hiff]
    rintro ⟨h1, h2, _⟩
    have hx := (fl_sub_nonneg_iff A c.X hrsd).1 h1
    have hy := (fl_sub_nonneg_iff A c.Y hrsd).1 h2
    rcases h with h | h
    · exact absurd hx (not_le.2 h)
    · exact absurd hy (not_le.2 h)

/-- Witness of C4 (amended): the 4 by 4 grid with robot radius 1 and margin 0, where the
cell (0,0) is rejected. -/
theorem isTraversable_binary64_witness :
    isTraversableF nearest64 (freshF 4 4 1 0 : PathFinderF ℝ) { X := 0, Y := 0 } = false := by
  have hrs : nearest64.fl ((freshF 4 4 1 0 : PathFinderF ℝ).m_robotRadius
      + (freshF 4 4 1 0 : PathFinderF ℝ).m_safetyMargin) = 1 := by
    show nearest64.fl ((1 : ℝ) + 0) = 1
    rw [add_zero]
    have h := fl_natCast (K := ℝ) nearest64 (n := 1) (by norm_num)
    rwa [Nat.cast_one] at h
  refine (isTraversable_binary64 nearest64 (freshF 4 4 1 0 : PathFinderF ℝ)
    (by show 4 ≤ 1028; norm_num) (by show 4 ≤ 1028; norm_num)
    (by show (0 : ℝ) < 1; norm_num) (by show (0 : ℝ) ≤ 0; norm_num)
    (fun o ho => by cases ho) { X := 0, Y := 0 }).2.2.1 (Or.inl ?_)
  rw [hrs]
  show ((0 : ℕ) : ℝ) < 1
  norm_num

/-- C10, the code at the failing input: an obstacle whose radius is NaN fails none of the
comparisons `Radius > M`, `Radius > N`, `Radius <= 0`, so on the 10 by 10 grid
`AddObjects` of the single obstacle (5,5) with radius NaN returns SUCCESS, leaves the
grid as it was and stores the obstacle; on the 0 by 0 grid, where the unsigned `N - 1`
wraps and no obstacle has its origin inside the grid, the same call returns SUCCESS as
well. The radius is not in `(0, min(M, N)]`. -/
theorem AddObjects_accepts_nan :
    ∀ A : Binary64 ℝ,
      AddObjectsF A (freshF 10 10 1 0) [{ Origin := { X := 5, Y := 5 }, Radius := none }]
        = Outcome.done (RetVal.SUCCESS,
            { (freshF 10 10 1 0 : PathFinderF ℝ) with
              m_objects := [{ Origin := { X := 5, Y := 5 }, Radius := none }] }) ∧
      AddObjectsF A (freshF 0 0 1 0) [{ Origin := { X := 5, Y := 5 }, Radius := none }]
        = Outcome.done (RetVal.SUCCESS,
            { (freshF 0 0 1 0 : PathFinderF ℝ) with
              m_objects := [{ Origin := { X := 5, Y := 5 }, Radius := none }] }) := by
  intro A
  constructor
  · apply AddObjectsF_nan_single A _ _ rfl
    · show ¬ (5 > usub 10 1)
      rw [usub_one (by norm_num) (by unfold U32; norm_num)]
      norm_num
    · show ¬ (5 > usub 10 1)
      rw [usub_one (by norm_num) (by unfold U32; norm_num)]
      norm_num
  · apply AddObjectsF_nan_single A _ _ rfl
    · show ¬ (5 > usub 0 1)
      rw [usub_zero_one]
      unfold U32
      norm_num
    · show ¬ (5 > usub 0 1)
      rw [usub_zero_one]
      unfold U32
      norm_num

/-- C11, counterexample: the radius 8118979690322419 / 2^51 (3.605551275463989, the
double nearest to the square root of 13) is a binary64 value smaller than the true
distance from (2,2) to (4,5); yet after `AddObjects` of the obstacle (2,2) with that
radius on the 8 by 8 grid, whatever the rounding of ties, the cell (4,5) carries '1'. -/
theorem AddObjects_paints_beyond_radius :
    IsDouble ((8118979690322419 : ℝ) / 2 ^ 51) ∧
    (8118979690322419 : ℝ) / 2 ^ 51
      < DoubleField.sqrt ((((4 : ℕ) : ℝ) - ((2 : ℕ) : ℝ)) ^ 2
          + (((5 : ℕ) : ℝ) - ((2 : ℕ) : ℝ)) ^ 2) ∧
    ∀ A : Binary64 ℝ, ∃ s1,
      AddObjectsF A (freshF 8 8 1 0)
        [{ Origin := { X := 2, Y := 2 }, Radius := some (8118979690322419 / 2 ^ 51) }]
        = Outcome.done (RetVal.SUCCESS, s1) ∧
      ∃ cell1, getCell s1.m_map { X := 4, Y := 5 } = some cell1 ∧
        cell1.Val = CELL_OCCUPIED_CODE := by
  have h13 : (((4 : ℕ) : ℝ) - ((2 : ℕ) : ℝ)) ^ 2 + (((5 : ℕ) : ℝ) - ((2 : ℕ) : ℝ)) ^ 2
      = 13 := by norm_num
  refine ⟨⟨8118979690322419, 0, 51, by norm_num, by norm_num, by norm_num, by norm_num⟩,
    ?_, ?_⟩
  · rw [h13]
    exact sqrt_13_gt
  intro A
  have hd := freshF_dims 8 8 (1 : ℝ) 0
  obtain ⟨s1, h1⟩ := (AddObjectsF_validation A (freshF 8 8 1 0 : PathFinderF ℝ) hd
    (by show 8 < U32; unfold U32; norm_num) (by show 8 < U32; unfold U32; norm_num)
    [{ Origin := { X := 2, Y := 2 }, Radius := some (8118979690322419 / 2 ^ 51) }]
    (by
      intro o ho
      rw [List.mem_singleton] at ho
      subst ho
      show 2 < U32 ∧ 2 < U32
      unfold U32
      norm_num)).1.2 ⟨by simp, by
      intro o ho
      rw [List.mem_singleton] at ho
      subst ho
      show (2 : ℕ) < 8 ∧ (2 : ℕ) < 8 ∧ (0 : ℝ) < 8118979690322419 / 2 ^ 51
        ∧ (8118979690322419 : ℝ) / 2 ^ 51 ≤ min ((8 : ℕ) : ℝ) ((8 : ℕ) : ℝ)
      norm_num⟩
  refine ⟨s1, h1, ?_⟩
  obtain ⟨cell1, hc1, hiff, _⟩ := AddObjectsF_cell A (freshF 8 8 1 0 : PathFinderF ℝ) hd
    (by show 8 ≤ 1028; norm_num) (by show 8 ≤ 1028; norm_num)
    (fun c cell hc => by rw [getCell_freshF hc]; rfl)
    _ s1 h1 { X := 4, Y := 5 } (by show 4 < 8; norm_num) (by show 5 < 8; norm_num)
  refine ⟨cell1, hc1, hiff.2 ⟨_, List.mem_singleton.2 rfl, _, rfl, ?_⟩⟩
  show A.fl (DoubleField.sqrt ((((4 : ℕ) : ℝ) - ((2 : ℕ) : ℝ)) ^ 2
      + (((5 : ℕ) : ℝ) - ((2 : ℕ) : ℝ)) ^ 2)) ≤ 8118979690322419 / 2 ^ 51
  rw [h13, fl_sqrt_13 A]

/-- C11 (amended): on a grid as `SetMapSize` leaves it (at most 1028 rows and columns,
every marker '0'), after a successful `AddObjects(objects)` whose radii are binary64
values or NaN, a cell carries '1' exactly when the distance that `distanceBetween`
returns, the correctly rounded square root of the exact squared distance, to the origin
of some obstacle of the list is at most the radius of that obstacle; hence every cell
whose true distance to the origin of some obstacle is at most its radius carries '1',
every cell carrying '1' has a true distance less than radius + 1 to the origin of some
obstacle, and every other cell still carries '0'. -/
theorem AddObjects_rasterization_binary64 (A : Binary64 K) (s : PathFinderF K)
    (hwf : Dims s.m_map s.M s.N) (hM : s.M ≤ 1028) (hN : s.N ≤ 1028)
    (hzero : ∀ c cell, getCell s.m_map c = some cell → cell.Val = CELL_UNOCCUPIED_CODE)
    (objects : List (ObjectF K))
    (hdbl : ∀ o ∈ objects, ∀ r, o.Radius = some r → IsDouble r)
    (s1 : PathFinderF K) (h : AddObjectsF A s objects = Outcome.done (RetVal.SUCCESS, s1))
    (c : Coordinate) (hx : c.X < s.N) (hy : c.Y < s.M) :
    ∃ cell1, getCell s1.m_map c = some cell1 ∧
      (cell1.Val = CELL_OCCUPIED_CODE ↔
        ∃ o ∈ objects, ∃ r, o.Radius = some r ∧
          A.fl (DoubleField.sqrt (((c.X : K) - (o.Origin.X : K)) ^ 2
            + ((c.Y : K) - (o.Origin.Y : K)) ^ 2)) ≤ r) ∧
      ((∃ o ∈ objects, ∃ r, o.Radius = some r ∧
          DoubleField.sqrt (((c.X : K) - (o.Origin.X : K)) ^ 2
            + ((c.Y : K) - (o.Origin.Y : K)) ^ 2) ≤ r) →
        cell1.Val = CELL_OCCUPIED_CODE) ∧
      (cell1.Val = CELL_OCCUPIED_CODE →
        ∃ o ∈ objects, ∃ r, o.Radius = some r ∧
          DoubleField.sqrt (((c.X : K) - (o.Origin.X : K)) ^ 2
            + ((c.Y : K) - (o.Origin.Y : K)) ^ 2) < r + 1) ∧
      (cell1.Val = CELL_OCCUPIED_CODE ∨ cell1.Val = CELL_UNOCCUPIED_CODE) := by
  have hMU : s.M < U32 := by unfold U32; omega
  have hNU : s.N < U32 := by unfold U32; omega
  have horig := AddObjectsF_origin A hwf h
  obtain ⟨cell1, hc1, hiff, hor⟩ := AddObjectsF_cell A s hwf hM hN hzero objects s1 h c hx hy
  refine ⟨cell1, hc1, hiff, ?_, ?_, hor⟩
  · rintro ⟨o, ho, r, hr, hle⟩
    exact hiff.2 ⟨o, ho, r, hr, fl_sqrt_le A (hdbl o ho r hr) hle⟩
  · intro h1
    obtain ⟨o, ho, r, hr, hle⟩ := hiff.1 h1
    obtain ⟨hox, hoy⟩ := horig o ho
    rw [usub_one (by omega) hNU] at hox
    rw [usub_one (by omega) hMU] at hoy
    have hlt := sqrt_dist_lt_fl_add_one A (show o.Origin.X ≤ 1028 by omega)
      (show o.Origin.Y ≤ 1028 by omega) (show c.X ≤ 1028 by omega)
      (show c.Y ≤ 1028 by omega)
    exact ⟨o, ho, r, hr, by linarith⟩

/-- Witness of C11 (amended): the 4 by 4 grid, the obstacle (1,2) of radius 1, the cell
(1,1), with round-to-nearest. -/
theorem AddObjects_rasterization_binary64_witness :
    ∃ s1, AddObjectsF nearest64 (freshF 4 4 1 0 : PathFinderF ℝ)
        [{ Origin := { X := 1, Y := 2 }, Radius := some 1 }]
        = Outcome.done (RetVal.SUCCESS, s1) ∧
      ∃ cell1, getCell s1.m_map { X := 1, Y := 1 } = some cell1 ∧
        cell1.Val = CELL_OCCUPIED_CODE := by
  have hd := freshF_dims 4 4 (1 : ℝ) 0
  obtain ⟨s1, h1⟩ := (AddObjectsF_validation nearest64 (freshF 4 4 1 0 : PathFinderF ℝ) hd
    (by show 4 < U32; unfold U32; norm_num) (by show 4 < U32; unfold U32; norm_num)
    [{ Origin := { X := 1, Y := 2 }, Radius := some 1 }]
    (by
      intro o ho
      rw [List.mem_singleton] at ho
      subst ho
      show 1 < U32 ∧ 2 < U32
      unfold U32
      norm_num)).1.2 ⟨by simp, by
      intro o ho
      rw [List.mem_singleton] at ho
      subst ho
      show (1 : ℕ) < 4 ∧ (2 : ℕ) < 4 ∧ (0 : ℝ) < 1 ∧ (1 : ℝ) ≤ min ((4 : ℕ) : ℝ) ((4 : ℕ) : ℝ)
      norm_num⟩
  refine ⟨s1, h1, ?_⟩
  obtain ⟨cell1, hc1, _, htrue, _, _⟩ := AddObjects_rasterization_binary64 nearest64
    (freshF 4 4 1 0 : PathFinderF ℝ) hd
    (by show 4 ≤ 1028; norm_num) (by show 4 ≤ 1028; norm_num)
    (fun c cell hc => by rw [getCell_freshF hc]; rfl)
    [{ Origin := { X := 1, Y := 2 }, Radius := some 1 }]
    (by
      intro o ho r hr
      rw [List.mem_singleton] at ho
      subst ho
      cases hr
      have h := isDouble_natCast (K := ℝ) (n := 1) (by norm_num)
      rwa [Nat.cast_one] at h)
    s1 h1 { X := 1, Y := 1 } (by show 1 < 4; norm_num) (by show 1 < 4; norm_num)
  refine ⟨cell1, hc1, htrue ⟨_, List.mem_singleton.2 rfl, 1, rfl, ?_⟩⟩
  show DoubleField.sqrt ((((1 : ℕ) : ℝ) - ((1 : ℕ) : ℝ)) ^ 2
      + (((1 : ℕ) : ℝ) - ((2 : ℕ) : ℝ)) ^ 2) ≤ 1
  have h1 : (((1 : ℕ) : ℝ) - ((1 : ℕ) : ℝ)) ^ 2 + (((1 : ℕ) : ℝ) - ((2 : ℕ) : ℝ)) ^ 2
      = 1 := by norm_num
  rw [h1]
  have h2 := DoubleField.sqrt_mul_self (1 : ℝ) (by norm_num)
  have h3 := DoubleField.sqrt_nonneg (1 : ℝ)
  nlinarith

end Claims

end Waypoints
